import Mathlib

/-!
# Matrix_Multiplication.c: a shallow embedding

The four multipliers of `src/Matrix_Multiplication.c` are embedded as functions on an
explicit memory state.  The state holds the two operands, the result buffer, the scratch
buffer `aux`, and a chronological log of element accesses.  Element values live in an
arbitrary type `α` carrying `0`, `+` and `*` (the theorems instantiate it with a semiring:
exact arithmetic instead of `double`).

Index expressions and the allocation size `r_2*c_2` are evaluated the way C evaluates
them on `unsigned int`: modulo `2^32` (`size_t` is taken to be wider, so the
multiplication by `sizeof(double)` does not wrap).  The `int` loop counters are compared
with their `unsigned int` bounds after conversion; they are modelled as natural numbers,
which is exact for bounds up to `INT_MAX`.  The two `#pragma omp` multipliers are embedded
as run by a single thread, iterations in ascending order.

`try_all_functions` is embedded on the same state together with the list of items it has
written to standard output; the elapsed times it prints are wall-clock readings and are
left out.
-/

namespace MatMul

/-- Value of a C `unsigned int` expression: the natural number reduced modulo `2^32`. -/
def u32 (n : Nat) : Nat := n % 4294967296

/-- The four buffers a multiplier can touch. -/
inductive Buf where
  | matrix_1
  | matrix_2
  | result
  | aux
  deriving DecidableEq, Repr

/-- One element access, as recorded in the log. -/
inductive Access where
  | read (b : Buf) (i : Nat)
  | write (b : Buf) (i : Nat)
  deriving DecidableEq, Repr

/-- Ways a call can stop abnormally: `DimensionMismatch` is the
`fprintf(stderr,"Error: Wrong matrix size\n"); exit(-1);` branch, `OutOfBounds` is an
element access outside its buffer (undefined behaviour in C). -/
inductive Err where
  | DimensionMismatch
  | OutOfBounds
  deriving DecidableEq, Repr

/-- Memory state.  `heap` gives the indeterminate contents of storage handed out by
`malloc`; `log` lists the element accesses performed so far, oldest first. -/
structure Mem (α : Type) where
  matrix_1 : List α
  matrix_2 : List α
  result : List α
  aux : List α
  heap : Nat → α
  log : List Access

/-- Outcome of running a statement: the final state, or the error together with the state
in which execution stopped. -/
abbrev Run (α : Type) := Except (Err × Mem α) (Mem α)

variable {α : Type}

/-- Contents of a buffer. -/
def Mem.buf (m : Mem α) : Buf → List α
  | .matrix_1 => m.matrix_1
  | .matrix_2 => m.matrix_2
  | .result => m.result
  | .aux => m.aux

/-- Replace the contents of a buffer. -/
def Mem.setBuf (m : Mem α) (b : Buf) (l : List α) : Mem α :=
  match b with
  | .matrix_1 => { m with matrix_1 := l }
  | .matrix_2 => { m with matrix_2 := l }
  | .result => { m with result := l }
  | .aux => { m with aux := l }

/-- Append one access to the log. -/
def Mem.logged (m : Mem α) (a : Access) : Mem α := { m with log := m.log ++ [a] }

/-- Element read `b[i]`. -/
def load (b : Buf) (i : Nat) (m : Mem α) : Except (Err × Mem α) (α × Mem α) :=
  match (m.buf b)[i]? with
  | some v => .ok (v, m.logged (.read b i))
  | none => .error (.OutOfBounds, m.logged (.read b i))

/-- Element write `b[i] = v`. -/
def store (b : Buf) (i : Nat) (v : α) (m : Mem α) : Run α :=
  if i < (m.buf b).length then
    .ok ((m.setBuf b ((m.buf b).set i v)).logged (.write b i))
  else .error (.OutOfBounds, m.logged (.write b i))

/-- The call `malloc(n*sizeof(double))` assigned to `aux`: `n` elements of indeterminate
content. -/
def malloc_aux (n : Nat) (m : Mem α) : Mem α :=
  { m with aux := (List.range n).map m.heap }

/-- The call `free(aux)`. -/
def free_aux (m : Mem α) : Mem α := { m with aux := [] }

/-- Iterations of `for (k = k0; k < bound; k += step) body`, at most `fuel` of them. -/
def loop (body : Nat → Mem α → Run α) (bound step : Nat) : Nat → Nat → Mem α → Run α
  | 0, _, m => .ok m
  | fuel + 1, k, m =>
    if k < bound then
      match body k m with
      | .ok m' => loop body bound step fuel (k + step) m'
      | .error e => .error e
    else .ok m

/-- The loop `for (int k = start; k < bound; k += step) body`.  With `step ≥ 1` it runs at
most `bound` iterations, so `bound` units of fuel never run out (`forLoop_one`, `forLoop_two`). -/
def forLoop (start bound step : Nat) (body : Nat → Mem α → Run α) (m : Mem α) : Run α :=
  loop body bound step bound start m

/-- Sequencing of two statements. -/
def andThen (f g : Mem α → Run α) (m : Mem α) : Run α :=
  match f m with
  | .ok m' => g m'
  | .error e => .error e

/-- Statement `aux[i] = matrix_2[j];`. -/
def copy_element (i j : Nat) (m : Mem α) : Run α :=
  match load .matrix_2 j m with
  | .error e => .error e
  | .ok (v, m1) => store .aux i v m1

/-- Lines 30-35 of `optimiced_multiplication`: the copy of `matrix_2` into `aux`. -/
def optimiced_copy (r_2 c_2 : Nat) : Mem α → Run α :=
  forLoop 0 r_2 1 fun r => forLoop 0 c_2 1 fun c =>
    copy_element (u32 (r + c * r_2)) (u32 (c + r * c_2))

/-- Lines 94-98 of `optimiced_parallel_multiplication`: the copy of `matrix_2` into `aux`. -/
def optimiced_parallel_copy (r_2 c_2 : Nat) : Mem α → Run α :=
  forLoop 0 r_2 1 fun r => forLoop 0 c_2 1 fun c =>
    copy_element (u32 (r + c * r_2)) (u32 (c + r * c_2))

section Statements

variable [Zero α] [Add α] [Mul α]

/-- Statement `result[i] = 0;`. -/
def assign_zero (i : Nat) (m : Mem α) : Run α := store .result i 0 m

/-- Statement `result[i] += matrix_1[ia]*b[ib];`: the two factors are read, then the
accumulator, then the sum is written back. -/
def add_product (i ia : Nat) (b : Buf) (ib : Nat) (m : Mem α) : Run α :=
  match load .matrix_1 ia m with
  | .error e => .error e
  | .ok (x, m1) =>
    match load b ib m1 with
    | .error e => .error e
    | .ok (y, m2) =>
      match load .result i m2 with
      | .error e => .error e
      | .ok (acc, m3) => store .result i (acc + x * y) m3

/-- Statement `result[i] = matrix_1[ia]*aux[ib];`. -/
def assign_product (i ia ib : Nat) (m : Mem α) : Run α :=
  match load .matrix_1 ia m with
  | .error e => .error e
  | .ok (x, m1) =>
    match load .aux ib m1 with
    | .error e => .error e
    | .ok (y, m2) => store .result i (x * y) m2

/-! ## `basic_multiplication` (lines 6-23) -/

/-- Lines 12-15: the body of the `c` loop of `basic_multiplication`. -/
def basic_cell (c_1 r_2 c_2 r c : Nat) : Mem α → Run α :=
  andThen (assign_zero (u32 (c + r * c_2)))
    (forLoop 0 r_2 1 fun k =>
      add_product (u32 (c + r * c_2)) (u32 (k + r * c_1)) .matrix_2 (u32 (c + k * c_2)))

/-- Lines 6-23. -/
def basic_multiplication (r_1 c_1 r_2 c_2 : Nat) (m : Mem α) : Run α :=
  if c_1 = r_2 then
    forLoop 0 r_1 1 (fun r => forLoop 0 c_2 1 fun c => basic_cell c_1 r_2 c_2 r c) m
  else .error (.DimensionMismatch, m)

/-! ## `optimiced_multiplication` (lines 26-66) -/

/-- Lines 41-45: the body of the `c` loop when `r_2` is even. -/
def optimiced_even_cell (c_1 r_2 c_2 r c : Nat) : Mem α → Run α :=
  andThen (assign_zero (u32 (c + r * c_2)))
    (forLoop 0 r_2 2 fun k =>
      andThen
        (add_product (u32 (c + r * c_2)) (u32 (k + r * c_1)) .aux (u32 (k + c * c_2)))
        (add_product (u32 (c + r * c_2)) (u32 (k + 1 + r * c_1)) .aux (u32 (k + 1 + c * c_2))))

/-- Lines 52-56: the body of the `c` loop when `r_2` is odd. -/
def optimiced_odd_cell (c_1 r_2 c_2 r c : Nat) : Mem α → Run α :=
  andThen (assign_product (u32 (c + r * c_2)) (u32 (r * c_1)) (u32 (c * c_2)))
    (forLoop 1 r_2 2 fun k =>
      andThen
        (add_product (u32 (c + r * c_2)) (u32 (k + r * c_1)) .aux (u32 (k + c * c_2)))
        (add_product (u32 (c + r * c_2)) (u32 (k + 1 + r * c_1)) .aux (u32 (k + 1 + c * c_2))))

/-- Lines 38-59: the multiply phase. -/
def optimiced_multiply (r_1 c_1 r_2 c_2 : Nat) : Mem α → Run α :=
  if r_2 % 2 = 0 then
    forLoop 0 r_1 1 fun r => forLoop 0 c_2 1 fun c => optimiced_even_cell c_1 r_2 c_2 r c
  else
    forLoop 0 r_1 1 fun r => forLoop 0 c_2 1 fun c => optimiced_odd_cell c_1 r_2 c_2 r c

/-- Lines 28-65: everything after the allocation of `aux`. -/
def optimiced_checked (r_1 c_1 r_2 c_2 : Nat) (m : Mem α) : Run α :=
  if c_1 = r_2 then
    match andThen (optimiced_copy r_2 c_2) (optimiced_multiply r_1 c_1 r_2 c_2) m with
    | .ok m' => .ok (free_aux m')
    | .error e => .error e
  else .error (.DimensionMismatch, m)

/-- Lines 26-66.  The scratch buffer of `r_2*c_2` elements (an `unsigned int` product) is
allocated before the dimension check and freed on the successful path only. -/
def optimiced_multiplication (r_1 c_1 r_2 c_2 : Nat) (m : Mem α) : Run α :=
  optimiced_checked r_1 c_1 r_2 c_2 (malloc_aux (u32 (r_2 * c_2)) m)

/-! ## `parallel_multiplication` (lines 69-85)

The embedding is the execution by a single thread, iterations in ascending order: what
OpenMP prescribes when the `if` clause is false, and what a team of one thread does. -/

/-- The `if` clause of both `#pragma omp parallel` directives: `r_1*c_1 > 100`, the product
being an `unsigned int`. -/
def parallel_if (r_1 c_1 : Nat) : Bool := decide (100 < u32 (r_1 * c_1))

/-- Lines 74-77: the body of the `c` loop of `parallel_multiplication`. -/
def parallel_cell (c_1 r_2 c_2 r c : Nat) : Mem α → Run α :=
  andThen (assign_zero (u32 (c + r * c_2)))
    (forLoop 0 r_2 1 fun k =>
      add_product (u32 (c + r * c_2)) (u32 (k + r * c_1)) .matrix_2 (u32 (c + k * c_2)))

/-- Lines 73-78: the body of the work-shared `r` loop. -/
def parallel_row (c_1 r_2 c_2 r : Nat) : Mem α → Run α :=
  forLoop 0 c_2 1 fun c => parallel_cell c_1 r_2 c_2 r c

/-- Lines 69-85, sequential path. -/
def parallel_multiplication (r_1 c_1 r_2 c_2 : Nat) (m : Mem α) : Run α :=
  if c_1 = r_2 then
    forLoop 0 r_1 1 (fun r => parallel_row c_1 r_2 c_2 r) m
  else .error (.DimensionMismatch, m)

/-! ## `optimiced_parallel_multiplication` (lines 88-130), sequential path -/

/-- Lines 104-107 and 115-118: the reduction loop, counting from 1 and pairing `k` with
`k-1`. -/
def optimiced_parallel_pairs (c_1 r_2 c_2 r c : Nat) : Mem α → Run α :=
  forLoop 1 r_2 2 fun k =>
    andThen
      (add_product (u32 (c + r * c_2)) (u32 (k + r * c_1)) .aux (u32 (k + c * c_2)))
      (add_product (u32 (c + r * c_2)) (u32 (k - 1 + r * c_1)) .aux (u32 (k - 1 + c * c_2)))

/-- Lines 103-107: the body of the `c` loop when `r_2` is even. -/
def optimiced_parallel_even_cell (c_1 r_2 c_2 r c : Nat) : Mem α → Run α :=
  andThen (assign_zero (u32 (c + r * c_2))) (optimiced_parallel_pairs c_1 r_2 c_2 r c)

/-- Lines 114-119: the body of the `c` loop when `r_2` is odd. -/
def optimiced_parallel_odd_cell (c_1 r_2 c_2 r c : Nat) : Mem α → Run α :=
  andThen (assign_zero (u32 (c + r * c_2)))
    (andThen (optimiced_parallel_pairs c_1 r_2 c_2 r c)
      (add_product (u32 (c + r * c_2)) (u32 (r_2 - 1 + r * c_1)) .aux
        (u32 (r_2 - 1 + c * c_2))))

/-- Lines 99-122: the multiply phase. -/
def optimiced_parallel_multiply (r_1 c_1 r_2 c_2 : Nat) : Mem α → Run α :=
  if r_2 % 2 = 0 then
    forLoop 0 r_1 1 fun r =>
      forLoop 0 c_2 1 fun c => optimiced_parallel_even_cell c_1 r_2 c_2 r c
  else
    forLoop 0 r_1 1 fun r =>
      forLoop 0 c_2 1 fun c => optimiced_parallel_odd_cell c_1 r_2 c_2 r c

/-- Lines 90-129: everything after the allocation of `aux`. -/
def optimiced_parallel_checked (r_1 c_1 r_2 c_2 : Nat) (m : Mem α) : Run α :=
  if c_1 = r_2 then
    match andThen (optimiced_parallel_copy r_2 c_2)
        (optimiced_parallel_multiply r_1 c_1 r_2 c_2) m with
    | .ok m' => .ok (free_aux m')
    | .error e => .error e
  else .error (.DimensionMismatch, m)

/-- Lines 88-130, sequential path. -/
def optimiced_parallel_multiplication (r_1 c_1 r_2 c_2 : Nat) (m : Mem α) : Run α :=
  optimiced_parallel_checked r_1 c_1 r_2 c_2 (malloc_aux (u32 (r_2 * c_2)) m)

end Statements

/-! ## Observations on outcomes -/

/-- What a caller observes of a run: the result buffer, or the kind of failure. -/
def outcome : Run α → Except Err (List α)
  | .ok m => .ok m.result
  | .error (e, _) => .error e

/-- The state in which a run stopped, normally or not. -/
def finalMem : Run α → Mem α
  | .ok m => m
  | .error (_, m) => m

/-- The state at the start of a call: the two operands and the result buffer of the caller,
no scratch buffer, an empty log. -/
def Mem.init (A B R : List α) (heap : Nat → α) : Mem α :=
  { matrix_1 := A, matrix_2 := B, result := R, aux := [], heap := heap, log := [] }

/-! ## Devices for the proofs -/

/-- Run `body` on the keys of a list, in order, stopping at the first error. -/
def runList {κ : Type} (body : κ → Mem α → Run α) : List κ → Mem α → Run α
  | [], m => .ok m
  | k :: ks, m =>
    match body k m with
    | .ok m' => runList body ks m'
    | .error e => .error e

/-- The buffers have the given lengths. -/
def Sized (a b x n : Nat) (m : Mem α) : Prop :=
  m.matrix_1.length = a ∧ m.matrix_2.length = b ∧ m.aux.length = x ∧ m.result.length = n

/-- Length of each buffer in a state that is `Sized a b x n`. -/
def bufLen (a b x n : Nat) : Buf → Nat
  | .matrix_1 => a
  | .matrix_2 => b
  | .result => n
  | .aux => x

/-- Total description of a statement on the states satisfying `Inv`: it succeeds exactly
when `p` holds, then has effect `u` and keeps `Inv`; otherwise it stops with
`OutOfBounds`. -/
def Spec (Inv : Mem α → Prop) (f : Mem α → Run α) (p : Prop) (u : Mem α → Mem α) : Prop :=
  ∀ m, Inv m →
    (p → f m = .ok (u m) ∧ Inv (u m)) ∧ (¬p → ∃ ms, f m = .error (.OutOfBounds, ms))

/-- Effect of a successful write of `v` to `result[i]`, with the accesses `L` logged. -/
def Mem.put (i : Nat) (v : α) (L : List Access) (m : Mem α) : Mem α :=
  { m with result := m.result.set i v, log := m.log ++ L }

/-- Effect of a successful write of `v` to `aux[i]`, with the accesses `L` logged. -/
def Mem.putAux (i : Nat) (v : α) (L : List Access) (m : Mem α) : Mem α :=
  { m with aux := m.aux.set i v, log := m.log ++ L }

/-- Accesses of one statement `result[i] += matrix_1[ia]*b[ib];`. -/
def accLog (i ia : Nat) (b : Buf) (ib : Nat) : List Access :=
  [.read .matrix_1 ia, .read b ib, .read .result i, .write .result i]

/-- Value of an accumulator that starts at `init` and receives the products
`A[ia k] * X[ib k]` one at a time, `k` running through `ks` from left to right. -/
def accumulate [Zero α] [Add α] [Mul α] (A X : List α) (ia ib : Nat → Nat) (ks : List Nat)
    (init : α) : α :=
  ks.foldl (fun acc k => acc + A.getD (ia k) 0 * X.getD (ib k) 0) init

/-- The pairs `(r, c)` with `r` from `rs` and `c` from `cs`, in the order in which a loop
over `rs` with an inner loop over `cs` visits them. -/
def pairs (rs cs : List Nat) : List (Nat × Nat) :=
  rs.flatMap fun r => cs.map fun c => (r, c)

/-- Accesses of a two-level loop nest whose cell `(r, c)` performs the accesses `lg r c`. -/
def nestLog (lg : Nat → Nat → List Access) (rows cols : Nat) : List Access :=
  (pairs (List.range rows) (List.range cols)).flatMap fun p => lg p.1 p.2

/-- Accesses of one statement `aux[r + c*r_2] = matrix_2[c + r*c_2];`. -/
def copyLog (r_2 c_2 r c : Nat) : List Access :=
  [.read .matrix_2 (u32 (c + r * c_2)), .write .aux (u32 (r + c * r_2))]

/-- Reduction indices in the order in which a stride-2 loop of `n` iterations from `s`
with body `k`, `k+1` visits them. -/
def upPairs (s n : Nat) : List Nat := (List.range' s n 2).flatMap fun k => [k, k + 1]

/-- Reduction indices in the order in which a stride-2 loop of `n` iterations from 1 with
body `k`, `k-1` visits them. -/
def downPairs (n : Nat) : List Nat := (List.range' 1 n 2).flatMap fun k => [k, k - 1]

/-- Accesses of a cell that is zeroed and then accumulates the products of `ks`. -/
def cellLog (i : Nat) (ia ib : Nat → Nat) (b : Buf) (ks : List Nat) : List Access :=
  .write .result i :: ks.flatMap fun k => accLog i (ia k) b (ib k)

/-- The exact dot product `∑ k < len, A[ia k] * X[ib k]`. -/
def dot [Semiring α] (A X : List α) (ia ib : Nat → Nat) (len : Nat) : α :=
  ∑ k ∈ Finset.range len, A.getD (ia k) 0 * X.getD (ib k) 0

/-- All accesses of one output cell are within the buffers: the cell index is below the
length `n` of `result`, and for every `k < len` the operand indices are below the lengths
`a` and `l` of the two operand buffers. -/
def cellOk (a l n i : Nat) (ia ib : Nat → Nat) (len : Nat) : Prop :=
  i < n ∧ ∀ k, k < len → ia k < a ∧ ib k < l

/-- The list obtained by writing `val r c` at index `idx r c` for every `r < rows` and
`c < cols`, row by row. -/
def fill (idx : Nat → Nat → Nat) (val : Nat → Nat → α) (rows cols : Nat) (R : List α) :
    List α :=
  (pairs (List.range rows) (List.range cols)).foldl
    (fun R p => R.set (idx p.1 p.2) (val p.1 p.2)) R

/-- The `C x C` identity matrix in row-major order: 1 at the indices `c + c*C` with
`c < C`, 0 elsewhere. -/
def identity [Zero α] [One α] (C : Nat) : List α :=
  (List.range (C * C)).map fun j => if ∃ c, c < C ∧ j = c + c * C then 1 else 0

/-! ## Closed forms of the four multipliers -/

/-- The result buffer after the loop nest of `basic_multiplication` and
`parallel_multiplication`: cell `c + r*c_2` receives the dot product of row `r` of `A` and
column `c` of `B`, all indices being `unsigned int` values. -/
def basic_result [Semiring α] (A B : List α) (r_1 c_1 r_2 c_2 : Nat) (R : List α) : List α :=
  fill (fun r c => u32 (c + r * c_2))
    (fun r c => dot A B (fun k => u32 (k + r * c_1)) (fun k => u32 (c + k * c_2)) r_2)
    r_1 c_2 R

/-- The result buffer after the multiply phase of the two optimiced multipliers: cell
`c + r*c_2` receives `∑ k < r_2, A[k + r*c_1] * X[k + c*c_2]`, where `X` is the scratch
buffer. -/
def optimiced_result [Semiring α] (A X : List α) (r_1 c_1 r_2 c_2 : Nat) (R : List α) :
    List α :=
  fill (fun r c => u32 (c + r * c_2))
    (fun r c => dot A X (fun k => u32 (k + r * c_1)) (fun k => u32 (k + c * c_2)) r_2)
    r_1 c_2 R

/-- The scratch buffer after the copy loops: index `r + c*r_2` receives `B[c + r*c_2]`. -/
def transposed [Zero α] (B : List α) (r_2 c_2 : Nat) (X : List α) : List α :=
  fill (fun r c => u32 (r + c * r_2)) (fun r c => B.getD (u32 (c + r * c_2)) 0) r_2 c_2 X

/-- Every access of the loop nest of `basic_multiplication` is within its buffer, the
buffers `matrix_1`, `matrix_2`, `result` having lengths `a`, `b`, `n`. -/
def basic_ok (a b n r_1 c_1 r_2 c_2 : Nat) : Prop :=
  ∀ r, r < r_1 → ∀ c, c < c_2 →
    cellOk a b n (u32 (c + r * c_2)) (fun k => u32 (k + r * c_1)) (fun k => u32 (c + k * c_2))
      r_2

/-- Every access of the copy loops is within its buffer, `matrix_2` and `aux` having
lengths `b` and `x`. -/
def copy_ok (b x r_2 c_2 : Nat) : Prop :=
  ∀ r, r < r_2 → ∀ c, c < c_2 → u32 (c + r * c_2) < b ∧ u32 (r + c * r_2) < x

/-- Every access of the multiply phase of an optimiced multiplier is within its buffer,
the buffers `matrix_1`, `aux`, `result` having lengths `a`, `x`, `n`. -/
def optimiced_ok (a x n r_1 c_1 r_2 c_2 : Nat) : Prop :=
  ∀ r, r < r_1 → ∀ c, c < c_2 →
    cellOk a x n (u32 (c + r * c_2)) (fun k => u32 (k + r * c_1)) (fun k => u32 (k + c * c_2))
      r_2

/-- Accesses of one output cell of `basic_multiplication` and `parallel_multiplication`. -/
def basic_cell_log (c_1 r_2 c_2 r c : Nat) : List Access :=
  cellLog (u32 (c + r * c_2)) (fun k => u32 (k + r * c_1)) (fun k => u32 (c + k * c_2))
    .matrix_2 (List.range r_2)

/-- Accesses of one output cell of `optimiced_multiplication`. -/
def optimiced_cell_log (c_1 r_2 c_2 r c : Nat) : List Access :=
  if r_2 % 2 = 0 then
    cellLog (u32 (c + r * c_2)) (fun k => u32 (k + r * c_1)) (fun k => u32 (k + c * c_2))
      .aux (upPairs 0 (r_2 / 2))
  else
    [.read .matrix_1 (u32 (r * c_1)), .read .aux (u32 (c * c_2)),
        .write .result (u32 (c + r * c_2))] ++
      (upPairs 1 (r_2 / 2)).flatMap fun k =>
        accLog (u32 (c + r * c_2)) (u32 (k + r * c_1)) .aux (u32 (k + c * c_2))

/-- Accesses of one output cell of `optimiced_parallel_multiplication`. -/
def optimiced_parallel_cell_log (c_1 r_2 c_2 r c : Nat) : List Access :=
  if r_2 % 2 = 0 then
    cellLog (u32 (c + r * c_2)) (fun k => u32 (k + r * c_1)) (fun k => u32 (k + c * c_2))
      .aux (downPairs (r_2 / 2))
  else
    cellLog (u32 (c + r * c_2)) (fun k => u32 (k + r * c_1)) (fun k => u32 (k + c * c_2))
      .aux (downPairs (r_2 / 2) ++ [r_2 - 1])

/-- State after a successful run of the loop nest of `basic_multiplication`. -/
def basic_final [Semiring α] (r_1 c_1 r_2 c_2 : Nat) (m : Mem α) : Mem α :=
  { m with
    result := basic_result m.matrix_1 m.matrix_2 r_1 c_1 r_2 c_2 m.result
    log := m.log ++ nestLog (basic_cell_log c_1 r_2 c_2) r_1 c_2 }

/-- State after a successful run of an optimiced multiplier whose output cells perform
the accesses `lg`: the scratch buffer was allocated, filled, used and freed. -/
def optimiced_final [Semiring α] (lg : Nat → Nat → List Access) (r_1 c_1 r_2 c_2 : Nat)
    (m : Mem α) : Mem α :=
  { m with
    result := optimiced_result m.matrix_1
      (transposed m.matrix_2 r_2 c_2 ((List.range (u32 (r_2 * c_2))).map m.heap))
      r_1 c_1 r_2 c_2 m.result
    aux := []
    log := m.log ++ nestLog (copyLog r_2 c_2) r_2 c_2 ++ nestLog lg r_1 c_2 }

/-! ## Accesses and their indices -/

/-- The buffer an access touches. -/
def Access.buf : Access → Buf
  | .read b _ => b
  | .write b _ => b

/-- The index an access touches. -/
def Access.index : Access → Nat
  | .read _ i => i
  | .write _ i => i

/-- The access lies within its buffer, the buffers being those of the state `m`. -/
def Access.within (m : Mem α) (a : Access) : Prop := a.index < (m.buf a.buf).length

/-- The reduction of one output cell the way `basic_multiplication` performs it
(lines 12-15), for any operand buffer `b` and index functions: the cell is set to zero,
then the products `matrix_1[ia k] * b[ib k]` are added one at a time for
`k = 0, 1, ..., len-1`. -/
def ascending_cell [Zero α] [Add α] [Mul α] (i : Nat) (ia : Nat → Nat) (b : Buf)
    (ib : Nat → Nat) (len : Nat) : Mem α → Run α :=
  andThen (assign_zero i) (forLoop 0 len 1 fun k => add_product i (ia k) b (ib k))

/-! ## Row bodies of the work-shared loops -/

/-- Lines 102-108 and 113-120 of `optimiced_parallel_multiplication`: the body of the
work-shared `r` loop of the multiply phase, in the branch chosen by the parity of `r_2`. -/
def optimiced_parallel_row [Zero α] [Add α] [Mul α] (c_1 r_2 c_2 r : Nat) : Mem α → Run α :=
  if r_2 % 2 = 0 then
    forLoop 0 c_2 1 fun c => optimiced_parallel_even_cell c_1 r_2 c_2 r c
  else
    forLoop 0 c_2 1 fun c => optimiced_parallel_odd_cell c_1 r_2 c_2 r c

/-- The accesses performed by a run that started in the state `m`, whether the run
completed or stopped on an error. -/
def performed (m : Mem α) (x : Run α) : List Access := (finalMem x).log.drop m.log.length

/-- The access is not an access to `result` outside the slice `[r*c_2, (r+1)*c_2)` of
row `r`. -/
def Access.inRow (c_2 r : Nat) (a : Access) : Prop :=
  a.buf = .result → r * c_2 ≤ a.index ∧ a.index < (r + 1) * c_2

/-- Every run of `f` appends to the log only accesses that satisfy `Q`, also when it stops
on an error. -/
def Logs (Q : Access → Prop) (f : Mem α → Run α) : Prop :=
  ∀ m, ∃ L, (finalMem (f m)).log = m.log ++ L ∧ ∀ a ∈ L, Q a

/-! ## `try_all_functions` (lines 133-188) -/

/-- The four timing lines of `try_all_functions`: `Normal Time`, `Optimiced Time`,
`Parallel Time` and `Final Time`. -/
inductive Label where
  | Normal
  | Optimiced
  | Parallel
  | Final
  deriving DecidableEq, Repr

/-- One item written to standard output: a result value (`printf("%.1f ",result[i])`), the
line break after the values, or a timing line.  The elapsed time itself is a wall-clock
reading and is left out. -/
inductive Out (α : Type) where
  | value (v : α)
  | newline
  | time (l : Label)
  deriving DecidableEq, Repr

/-- Outcome of a part of `try_all_functions`: memory and the output so far, after a normal
end or at the point where execution stopped. -/
abbrev Printing (α : Type) := Except (Err × Mem α × List (Out α)) (Mem α × List (Out α))

/-- Iterations of `for(int i = 0; i<c_2 && i<5; ++i) printf("%.1f ",result[i]);`, at most
`fuel` of them. -/
def print_loop (c_2 : Nat) : Nat → Nat → Mem α × List (Out α) → Printing α
  | 0, _, s => .ok s
  | fuel + 1, i, (m, out) =>
    if i < c_2 ∧ i < 5 then
      match load .result i m with
      | .ok (v, m') => print_loop c_2 fuel (i + 1) (m', out ++ [.value v])
      | .error (e, m') => .error (e, m', out)
    else .ok (m, out)

/-- The loop `for(int i = 0; i<c_2 && i<5; ++i) printf("%.1f ",result[i]);`: the condition
`i<5` ends it after five iterations at the latest. -/
def print_values (c_2 : Nat) (s : Mem α × List (Out α)) : Printing α :=
  print_loop c_2 5 0 s

/-- One of the four blocks of `try_all_functions`: the call of a multiplier, the printing
of the leading values of `result`, the line break and the timing line. -/
def timed_call (c_2 : Nat) (f : Mem α → Run α) (l : Label) (s : Mem α × List (Out α)) :
    Printing α :=
  match f s.1 with
  | .error (e, m') => .error (e, m', s.2)
  | .ok m' =>
    match print_values c_2 (m', s.2) with
    | .error e => .error e
    | .ok (m'', out) => .ok (m'', out ++ [.newline, .time l])

/-- Lines 133-188: the four multipliers are called in turn on the same arguments, each
call followed by its printing. -/
def try_all_functions [Zero α] [Add α] [Mul α] (r_1 c_1 r_2 c_2 : Nat) (m : Mem α) :
    Printing α :=
  match timed_call c_2 (basic_multiplication r_1 c_1 r_2 c_2) .Normal (m, []) with
  | .error e => .error e
  | .ok s_1 =>
    match timed_call c_2 (optimiced_multiplication r_1 c_1 r_2 c_2) .Optimiced s_1 with
    | .error e => .error e
    | .ok s_2 =>
      match timed_call c_2 (parallel_multiplication r_1 c_1 r_2 c_2) .Parallel s_2 with
      | .error e => .error e
      | .ok s_3 =>
        timed_call c_2 (optimiced_parallel_multiplication r_1 c_1 r_2 c_2) .Final s_3

/-- What has been written to standard output when a run of `try_all_functions` ends or
stops. -/
def printed : Printing α → List (Out α)
  | .ok (_, out) => out
  | .error (_, _, out) => out

/-- The error a run of `try_all_functions` stopped with, if any. -/
def stopped : Printing α → Option Err
  | .ok _ => none
  | .error (e, _) => some e

/-- The output of one block of `try_all_functions` when the result buffer holds `R` after
the call: the first `min c_2 5` entries of `R`, the line break, the timing line. -/
def block (c_2 : Nat) (l : Label) (R : List α) : List (Out α) :=
  (R.take (min c_2 5)).map Out.value ++ [.newline, .time l]

/-- The memory in which a run of `try_all_functions` ended or stopped. -/
def lastMem : Printing α → Mem α
  | .ok (m, _) => m
  | .error (_, m, _) => m

/-- The state after some further accesses have been logged. -/
def Mem.withReads (m : Mem α) (L : List Access) : Mem α := { m with log := m.log ++ L }

theorem runList_append {κ : Type} (body : κ → Mem α → Run α) (xs ys : List κ) (m : Mem α) :
    runList body (xs ++ ys) m = andThen (runList body xs) (runList body ys) m := by
  induction xs generalizing m with
  | nil => simp [runList, andThen]
  | cons k ks ih =>
    simp only [List.cons_append, runList, andThen]
    cases h : body k m with
    | error e => simp
    | ok m' => simp [ih, andThen]

theorem loop_step_one (body : Nat → Mem α → Run α) (bound : Nat) :
    ∀ fuel k m, bound ≤ k + fuel →
      loop body bound 1 fuel k m = runList body (List.range' k (bound - k)) m := by
  intro fuel
  induction fuel with
  | zero =>
    intro k m h
    have : bound - k = 0 := by omega
    simp [loop, this, runList]
  | succ fuel ih =>
    intro k m h
    by_cases hk : k < bound
    · have hc : bound - k = (bound - (k + 1)) + 1 := by omega
      rw [hc, List.range'_succ]
      simp only [loop, hk, if_true, runList]
      cases hb : body k m with
      | error e => rfl
      | ok m' => exact ih (k + 1) m' (by omega)
    · have : bound - k = 0 := by omega
      simp [loop, hk, this, runList]

theorem loop_step_two (body : Nat → Mem α → Run α) (bound : Nat) :
    ∀ fuel k m, bound ≤ k + fuel →
      loop body bound 2 fuel k m = runList body (List.range' k ((bound - k + 1) / 2) 2) m := by
  intro fuel
  induction fuel with
  | zero =>
    intro k m h
    have : (bound - k + 1) / 2 = 0 := by omega
    simp [loop, this, runList]
  | succ fuel ih =>
    intro k m h
    by_cases hk : k < bound
    · have hc : (bound - k + 1) / 2 = (bound - (k + 2) + 1) / 2 + 1 := by omega
      rw [hc, List.range'_succ]
      simp only [loop, hk, if_true, runList]
      cases hb : body k m with
      | error e => rfl
      | ok m' => exact ih (k + 2) m' (by omega)
    · have : (bound - k + 1) / 2 = 0 := by omega
      simp [loop, hk, this, runList]

/-- A unit-stride loop from 0 runs its body on `0, 1, ..., n-1`: the fuel suffices. -/
theorem forLoop_one (n : Nat) (body : Nat → Mem α → Run α) :
    forLoop 0 n 1 body = runList body (List.range n) := by
  funext m
  rw [forLoop, loop_step_one body n n 0 m (by omega), List.range_eq_range']
  rfl

/-- A stride-2 loop from `s` runs its body on `s, s+2, ...` below `n`: the fuel suffices. -/
theorem forLoop_two (s n : Nat) (body : Nat → Mem α → Run α) :
    forLoop s n 2 body = runList body (List.range' s ((n - s + 1) / 2) 2) := by
  funext m
  rw [forLoop, loop_step_two body n n s m (by omega)]

/-! ## Composition of total descriptions -/

theorem Spec.andThen {Inv : Mem α → Prop} {f g : Mem α → Run α} {p q : Prop}
    {u v : Mem α → Mem α} (hf : Spec Inv f p u) (hg : Spec Inv g q v) :
    Spec Inv (andThen f g) (p ∧ q) (fun m => v (u m)) := by
  intro m hm
  obtain ⟨h1, h2⟩ := hf m hm
  constructor
  · rintro ⟨hp, hq⟩
    obtain ⟨e1, i1⟩ := h1 hp
    obtain ⟨e2, i2⟩ := (hg (u m) i1).1 hq
    exact ⟨by simp [MatMul.andThen, e1, e2], i2⟩
  · intro hn
    by_cases hp : p
    · obtain ⟨e1, i1⟩ := h1 hp
      obtain ⟨ms, e2⟩ := (hg (u m) i1).2 (fun hq => hn ⟨hp, hq⟩)
      exact ⟨ms, by simp [MatMul.andThen, e1, e2]⟩
    · obtain ⟨ms, e1⟩ := h2 hp
      exact ⟨ms, by simp [MatMul.andThen, e1]⟩

theorem Spec.congr {Inv : Mem α → Prop} {f : Mem α → Run α} {p q : Prop}
    {u v : Mem α → Mem α} (hf : Spec Inv f p u) (hpq : q ↔ p)
    (huv : ∀ m, Inv m → p → u m = v m) : Spec Inv f q v := by
  intro m hm
  obtain ⟨h1, h2⟩ := hf m hm
  constructor
  · intro hq
    have hp := hpq.1 hq
    rw [← huv m hm hp]
    exact h1 hp
  · intro hq
    exact h2 (fun hp => hq (hpq.2 hp))

theorem Spec.runList {κ : Type} {Inv : Mem α → Prop} {body : κ → Mem α → Run α}
    {p : κ → Prop} {u : κ → Mem α → Mem α} (ks : List κ)
    (h : ∀ k ∈ ks, Spec Inv (body k) (p k) (u k)) :
    Spec Inv (runList body ks) (∀ k ∈ ks, p k) (fun m => ks.foldl (fun m k => u k m) m) := by
  induction ks with
  | nil =>
    intro m hm
    simp [MatMul.runList, hm]
  | cons k ks ih =>
    have hk := h k (List.mem_cons_self k ks)
    have ih := ih (fun j hj => h j (List.mem_cons_of_mem k hj))
    intro m hm
    obtain ⟨h1, h2⟩ := hk m hm
    constructor
    · intro hall
      obtain ⟨e1, i1⟩ := h1 (hall k (List.mem_cons_self k ks))
      obtain ⟨e2, i2⟩ := (ih (u k m) i1).1 (fun j hj => hall j (List.mem_cons_of_mem k hj))
      exact ⟨by simp [MatMul.runList, e1, e2], by simpa using i2⟩
    · intro hn
      by_cases hp : p k
      · obtain ⟨e1, i1⟩ := h1 hp
        have : ¬ ∀ j ∈ ks, p j := by
          intro hall
          apply hn
          intro j hj
          rcases List.mem_cons.1 hj with rfl | hj
          · exact hp
          · exact hall j hj
        obtain ⟨ms, e2⟩ := (ih (u k m) i1).2 this
        exact ⟨ms, by simp [MatMul.runList, e1, e2]⟩
      · obtain ⟨ms, e1⟩ := h2 hp
        exact ⟨ms, by simp [MatMul.runList, e1]⟩

theorem buf_length {a b x n : Nat} {m : Mem α} (h : Sized a b x n m) (bf : Buf) :
    (m.buf bf).length = bufLen a b x n bf := by
  obtain ⟨h1, h2, h3, h4⟩ := h
  cases bf <;> simp [Mem.buf, bufLen, *]

theorem load_ok (bf : Buf) (i : Nat) (m : Mem α) [Zero α] (h : i < (m.buf bf).length) :
    load bf i m = .ok ((m.buf bf).getD i 0, m.logged (.read bf i)) := by
  simp [load, List.getElem?_eq_getElem h, List.getD_eq_getElem _ _ h]

theorem load_error (bf : Buf) (i : Nat) (m : Mem α) (h : ¬ i < (m.buf bf).length) :
    load bf i m = .error (.OutOfBounds, m.logged (.read bf i)) := by
  simp [load, List.getElem?_eq_none (Nat.le_of_not_lt h)]

theorem assign_zero_spec [Zero α] (a b x n i : Nat) :
    Spec (Sized a b x n) (assign_zero (α := α) i) (i < n) (Mem.put i 0 [.write .result i]) := by
  intro m hm
  obtain ⟨h1, h2, h3, h4⟩ := hm
  constructor
  · intro hi
    refine ⟨?_, ?_⟩
    · simp [assign_zero, store, Mem.buf, h4, hi, Mem.setBuf, Mem.logged, Mem.put]
    · simp [Sized, Mem.put, *]
  · intro hi
    simp [assign_zero, store, Mem.buf, h4, hi]

theorem add_product_spec [Zero α] [Add α] [Mul α] (a b x n i ia : Nat) (bf : Buf) (ib : Nat) :
    Spec (Sized a b x n) (add_product (α := α) i ia bf ib)
      (ia < a ∧ ib < bufLen a b x n bf ∧ i < n)
      (fun m => m.put i (m.result.getD i 0 + m.matrix_1.getD ia 0 * (m.buf bf).getD ib 0)
        (accLog i ia bf ib)) := by
  intro m hm
  have hb := buf_length hm bf
  obtain ⟨h1, h2, h3, h4⟩ := hm
  constructor
  · rintro ⟨ha, hib, hi⟩
    refine ⟨?_, ?_⟩
    · rw [add_product, load_ok .matrix_1 ia m (by simpa [Mem.buf, h1] using ha)]
      simp only []
      rw [load_ok bf ib _ (by cases bf <;> simpa [Mem.buf, Mem.logged, bufLen, *] using hib)]
      simp only []
      rw [load_ok .result i _ (by simpa [Mem.buf, Mem.logged, h4] using hi)]
      simp only [store]
      rw [if_pos (by simpa [Mem.buf, Mem.logged, h4] using hi)]
      cases bf <;> simp [Mem.buf, Mem.logged, Mem.setBuf, Mem.put, accLog]
    · simp [Sized, Mem.put, *]
  · intro hn
    by_cases ha : ia < a
    · by_cases hib : ib < bufLen a b x n bf
      · have hi : ¬ i < n := fun hi => hn ⟨ha, hib, hi⟩
        rw [add_product, load_ok .matrix_1 ia m (by simpa [Mem.buf, h1] using ha)]
        simp only []
        rw [load_ok bf ib _ (by cases bf <;> simpa [Mem.buf, Mem.logged, bufLen, *] using hib)]
        simp only []
        rw [load_error .result i _ (by simpa [Mem.buf, Mem.logged, h4] using hi)]
        exact ⟨_, rfl⟩
      · rw [add_product, load_ok .matrix_1 ia m (by simpa [Mem.buf, h1] using ha)]
        simp only []
        rw [load_error bf ib _ (by cases bf <;> simpa [Mem.buf, Mem.logged, bufLen, *] using hib)]
        exact ⟨_, rfl⟩
    · rw [add_product, load_error .matrix_1 ia m (by simpa [Mem.buf, h1] using ha)]
      exact ⟨_, rfl⟩

theorem assign_product_spec [Zero α] [Add α] [Mul α] (a b x n i ia ib : Nat) :
    Spec (Sized a b x n) (assign_product (α := α) i ia ib) (ia < a ∧ ib < x ∧ i < n)
      (fun m => m.put i (m.matrix_1.getD ia 0 * m.aux.getD ib 0)
        [.read .matrix_1 ia, .read .aux ib, .write .result i]) := by
  intro m hm
  obtain ⟨h1, h2, h3, h4⟩ := hm
  constructor
  · rintro ⟨ha, hib, hi⟩
    refine ⟨?_, ?_⟩
    · rw [assign_product, load_ok .matrix_1 ia m (by simpa [Mem.buf, h1] using ha)]
      simp only []
      rw [load_ok .aux ib _ (by simpa [Mem.buf, Mem.logged, h3] using hib)]
      simp only [store]
      rw [if_pos (by simpa [Mem.buf, Mem.logged, h4] using hi)]
      simp [Mem.buf, Mem.logged, Mem.setBuf, Mem.put]
    · simp [Sized, Mem.put, *]
  · intro hn
    by_cases ha : ia < a
    · by_cases hib : ib < x
      · have hi : ¬ i < n := fun hi => hn ⟨ha, hib, hi⟩
        rw [assign_product, load_ok .matrix_1 ia m (by simpa [Mem.buf, h1] using ha)]
        simp only []
        rw [load_ok .aux ib _ (by simpa [Mem.buf, Mem.logged, h3] using hib)]
        simp only [store]
        rw [if_neg (by simpa [Mem.buf, Mem.logged, h4] using hi)]
        exact ⟨_, rfl⟩
      · rw [assign_product, load_ok .matrix_1 ia m (by simpa [Mem.buf, h1] using ha)]
        simp only []
        rw [load_error .aux ib _ (by simpa [Mem.buf, Mem.logged, h3] using hib)]
        exact ⟨_, rfl⟩
    · rw [assign_product, load_error .matrix_1 ia m (by simpa [Mem.buf, h1] using ha)]
      exact ⟨_, rfl⟩

theorem copy_element_spec [Zero α] (a b x n i j : Nat) :
    Spec (Sized a b x n) (copy_element (α := α) i j) (j < b ∧ i < x)
      (fun m => m.putAux i (m.matrix_2.getD j 0) [.read .matrix_2 j, .write .aux i]) := by
  intro m hm
  obtain ⟨h1, h2, h3, h4⟩ := hm
  constructor
  · rintro ⟨hj, hi⟩
    refine ⟨?_, ?_⟩
    · rw [copy_element, load_ok .matrix_2 j m (by simpa [Mem.buf, h2] using hj)]
      simp only [store]
      rw [if_pos (by simpa [Mem.buf, Mem.logged, h3] using hi)]
      simp [Mem.buf, Mem.logged, Mem.setBuf, Mem.putAux]
    · simp [Sized, Mem.putAux, *]
  · intro hn
    by_cases hj : j < b
    · have hi : ¬ i < x := fun hi => hn ⟨hj, hi⟩
      rw [copy_element, load_ok .matrix_2 j m (by simpa [Mem.buf, h2] using hj)]
      simp only [store]
      rw [if_neg (by simpa [Mem.buf, Mem.logged, h3] using hi)]
      exact ⟨_, rfl⟩
    · rw [copy_element, load_error .matrix_2 j m (by simpa [Mem.buf, h2] using hj)]
      exact ⟨_, rfl⟩

/-! ## Nested loops and paired bodies -/

theorem runList_map {κ ι : Type} (body : κ → Mem α → Run α) (f : ι → κ) (ks : List ι) :
    runList body (ks.map f) = runList (fun j => body (f j)) ks := by
  funext m
  induction ks generalizing m with
  | nil => rfl
  | cons k ks ih =>
    simp only [List.map_cons, runList]
    cases body (f k) m with
    | error e => rfl
    | ok m' => exact ih m'

theorem runList_product (body : Nat → Nat → Mem α → Run α) (rs cs : List Nat) :
    runList (fun r => runList (body r) cs) rs =
      runList (fun p : Nat × Nat => body p.1 p.2) (pairs rs cs) := by
  funext m
  induction rs generalizing m with
  | nil => rfl
  | cons r rs ih =>
    rw [pairs, List.flatMap_cons, runList_append, runList_map]
    simp only [runList, andThen]
    cases runList (body r) cs m with
    | error e => rfl
    | ok m' => exact ih m'

theorem runList_pairs (f : Nat → Mem α → Run α) (g1 g2 : Nat → Nat) (ks : List Nat) :
    runList (fun k => andThen (f (g1 k)) (f (g2 k))) ks =
      runList f (ks.flatMap fun k => [g1 k, g2 k]) := by
  funext m
  induction ks generalizing m with
  | nil => rfl
  | cons k ks ih =>
    simp only [List.flatMap_cons, List.cons_append, List.nil_append, runList, andThen]
    cases f (g1 k) m with
    | error e => rfl
    | ok m1 =>
      simp only []
      cases f (g2 k) m1 with
      | error e => rfl
      | ok m2 => exact ih m2

theorem runList_concat (f : Nat → Mem α → Run α) (ks : List Nat) (k : Nat) :
    andThen (runList f ks) (f k) = runList f (ks ++ [k]) := by
  funext m
  rw [runList_append]
  simp only [andThen, runList]
  cases runList f ks m with
  | error e => rfl
  | ok m1 =>
    simp only []
    cases f k m1 <;> rfl

/-! ## Effects of writes -/

theorem put_put (m : Mem α) (i : Nat) (v w : α) (L M : List Access) :
    (m.put i v L).put i w M = m.put i w (L ++ M) := by
  simp [Mem.put, List.set_set, List.append_assoc]

theorem put_buf (m : Mem α) (i : Nat) (v : α) (L : List Access) (bf : Buf)
    (h : bf ≠ .result) : (m.put i v L).buf bf = m.buf bf := by
  cases bf <;> simp_all [Mem.put, Mem.buf]

theorem put_getD [Zero α] (m : Mem α) (i : Nat) (v : α) (L : List Access)
    (h : i < m.result.length) : (m.put i v L).result.getD i 0 = v := by
  simp [Mem.put, List.getD_eq_getElem?_getD, List.getElem?_set_self h]

theorem foldl_accum [Zero α] [Add α] [Mul α] (i : Nat) (ia ib : Nat → Nat) (bf : Buf)
    (hbf : bf ≠ .result) (ks : List Nat) :
    ∀ m : Mem α, i < m.result.length →
      ks.foldl (fun m k => m.put i
          (m.result.getD i 0 + m.matrix_1.getD (ia k) 0 * (m.buf bf).getD (ib k) 0)
          (accLog i (ia k) bf (ib k))) m =
        m.put i (accumulate m.matrix_1 (m.buf bf) ia ib ks (m.result.getD i 0))
          (ks.flatMap fun k => accLog i (ia k) bf (ib k)) := by
  induction ks with
  | nil =>
    intro m hi
    have : m.result.set i (m.result.getD i 0) = m.result := by
      apply List.ext_getElem?
      intro j
      by_cases hj : i = j
      · subst hj
        simp [List.getElem?_set_self hi, List.getD_eq_getElem _ _ hi,
          List.getElem?_eq_getElem hi]
      · simp [List.getElem?_set_ne hj]
    simp only [accumulate, Mem.put, List.foldl_nil, List.flatMap_nil, List.append_nil, this]
  | cons k ks ih =>
    intro m hi
    rw [List.foldl_cons, ih _ (by simpa [Mem.put] using hi), put_put, put_getD m i _ _ hi,
      put_buf m i _ _ bf hbf]
    simp [accumulate, Mem.put]

/-- A run of accumulating statements on one cell `i < n`. -/
theorem accum_run_spec [Zero α] [Add α] [Mul α] (a b x n i : Nat) (hi : i < n)
    (ia ib : Nat → Nat) (bf : Buf) (hbf : bf ≠ .result) (ks : List Nat) :
    Spec (Sized a b x n) (runList (fun k => add_product (α := α) i (ia k) bf (ib k)) ks)
      (∀ k ∈ ks, ia k < a ∧ ib k < bufLen a b x n bf)
      (fun m => m.put i (accumulate m.matrix_1 (m.buf bf) ia ib ks (m.result.getD i 0))
        (ks.flatMap fun k => accLog i (ia k) bf (ib k))) := by
  refine Spec.congr (Spec.runList ks fun k _ => add_product_spec a b x n i (ia k) bf (ib k))
    ?_ ?_
  · constructor
    · intro h k hk
      exact ⟨(h k hk).1, (h k hk).2, hi⟩
    · intro h k hk
      exact ⟨(h k hk).1, (h k hk).2.1⟩
  · intro m hm _
    exact foldl_accum i ia ib bf hbf ks m (by rw [hm.2.2.2]; exact hi)

/-- A cell that is zeroed and then accumulates the products of `ks`. -/
theorem zero_then_accum_spec [Zero α] [Add α] [Mul α] (a b x n i : Nat)
    (ia ib : Nat → Nat) (bf : Buf) (hbf : bf ≠ .result) (ks : List Nat) :
    Spec (Sized a b x n)
      (andThen (assign_zero (α := α) i) (runList (fun k => add_product i (ia k) bf (ib k)) ks))
      (i < n ∧ ∀ k ∈ ks, ia k < a ∧ ib k < bufLen a b x n bf)
      (fun m => m.put i (accumulate m.matrix_1 (m.buf bf) ia ib ks 0)
        (cellLog i ia ib bf ks)) := by
  by_cases hi : i < n
  · refine Spec.congr
      (Spec.andThen (assign_zero_spec a b x n i) (accum_run_spec a b x n i hi ia ib bf hbf ks))
      Iff.rfl ?_
    intro m hm _
    have hl : i < m.result.length := by rw [hm.2.2.2]; exact hi
    simp only [put_put, put_getD m i _ _ hl, put_buf m i _ _ bf hbf]
    simp [Mem.put, cellLog]
  · intro m hm
    constructor
    · intro h
      exact absurd h.1 hi
    · intro _
      obtain ⟨ms, e⟩ := (assign_zero_spec (α := α) a b x n i m hm).2 hi
      exact ⟨ms, by simp [andThen, e]⟩

/-- A cell that is initialised with one product and then accumulates the products of
`ks`. -/
theorem product_then_accum_spec [Zero α] [Add α] [Mul α] (a b x n i i0 j0 : Nat)
    (ia ib : Nat → Nat) (ks : List Nat) :
    Spec (Sized a b x n)
      (andThen (assign_product (α := α) i i0 j0)
        (runList (fun k => add_product i (ia k) .aux (ib k)) ks))
      ((i0 < a ∧ j0 < x ∧ i < n) ∧ ∀ k ∈ ks, ia k < a ∧ ib k < x)
      (fun m => m.put i
        (accumulate m.matrix_1 m.aux ia ib ks (m.matrix_1.getD i0 0 * m.aux.getD j0 0))
        ([.read .matrix_1 i0, .read .aux j0, .write .result i] ++
          ks.flatMap fun k => accLog i (ia k) .aux (ib k))) := by
  by_cases hi : i < n
  · refine Spec.congr
      (Spec.andThen (assign_product_spec a b x n i i0 j0)
        (accum_run_spec a b x n i hi ia ib .aux (by decide) ks))
      Iff.rfl ?_
    intro m hm _
    have hl : i < m.result.length := by rw [hm.2.2.2]; exact hi
    simp only [put_put, put_getD m i _ _ hl, put_buf m i _ _ .aux (by decide)]
    simp [Mem.put, Mem.buf]
  · intro m hm
    constructor
    · intro h
      exact absurd h.1.2.2 hi
    · intro _
      obtain ⟨ms, e⟩ := (assign_product_spec (α := α) a b x n i i0 j0 m hm).2
        (fun h => hi h.2.2)
      exact ⟨ms, by simp [andThen, e]⟩

/-! ## The orders in which the reduction indices are visited -/

theorem upPairs_eq (s n : Nat) : upPairs s n = List.range' s (2 * n) := by
  induction n generalizing s with
  | zero => rfl
  | succ n ih =>
    have h2 : 2 * (n + 1) = (2 * n + 1) + 1 := by ring
    rw [upPairs, List.range'_succ, List.flatMap_cons, h2, List.range'_succ, List.range'_succ]
    have := ih (s + 2)
    rw [upPairs] at this
    rw [this]
    rfl

theorem upPairs_zero (n : Nat) : upPairs 0 n = List.range (2 * n) := by
  rw [upPairs_eq, List.range_eq_range']

theorem downPairs_succ (n : Nat) :
    downPairs (n + 1) = downPairs n ++ [2 * n + 1, 2 * n] := by
  rw [downPairs, List.range'_concat, List.flatMap_append, ← downPairs]
  simp [Nat.add_comm]

theorem downPairs_perm (n : Nat) : (downPairs n).Perm (List.range (2 * n)) := by
  induction n with
  | zero => exact List.Perm.refl _
  | succ n ih =>
    have h2 : 2 * (n + 1) = (2 * n + 1) + 1 := by ring
    rw [downPairs_succ, h2, List.range_succ, List.range_succ, List.append_assoc]
    exact List.Perm.append ih (List.Perm.swap _ _ _)

theorem downPairs_concat_perm (n : Nat) :
    (downPairs n ++ [2 * n]).Perm (List.range (2 * n + 1)) := by
  rw [List.range_succ]
  exact List.Perm.append (downPairs_perm n) (List.Perm.refl _)

/-! ## Accumulation in a semiring -/

theorem accumulate_eq_sum [Semiring α] (A X : List α) (ia ib : Nat → Nat) (ks : List Nat)
    (init : α) :
    accumulate A X ia ib ks init =
      init + (ks.map fun k => A.getD (ia k) 0 * X.getD (ib k) 0).sum := by
  induction ks generalizing init with
  | nil => simp [accumulate]
  | cons k ks ih =>
    have := ih (init + A.getD (ia k) 0 * X.getD (ib k) 0)
    simp only [accumulate, List.foldl_cons, List.map_cons, List.sum_cons] at this ⊢
    rw [this, add_assoc]

theorem sum_map_range [AddCommMonoid α] (f : Nat → α) (n : Nat) :
    ((List.range n).map f).sum = ∑ k ∈ Finset.range n, f k := by
  induction n with
  | zero => simp
  | succ n ih => rw [List.sum_range_succ, Finset.sum_range_succ, ih]

theorem accumulate_perm [Semiring α] (A X : List α) (ia ib : Nat → Nat) (ks : List Nat)
    (len : Nat) (h : ks.Perm (List.range len)) :
    accumulate A X ia ib ks 0 = dot A X ia ib len := by
  rw [accumulate_eq_sum, zero_add, (h.map _).sum_eq, sum_map_range, dot]

theorem accumulate_peeled [Semiring α] (A X : List α) (ia ib : Nat → Nat) (n : Nat) :
    accumulate A X ia ib (List.range' 1 n) (A.getD (ia 0) 0 * X.getD (ib 0) 0) =
      dot A X ia ib (n + 1) := by
  rw [accumulate_eq_sum, dot, ← sum_map_range, List.range_eq_range', List.range'_succ]
  simp

/-! ## The five kinds of output cell -/

theorem basic_cell_spec [Semiring α] (a b x n c_1 r_2 c_2 r c : Nat) :
    Spec (Sized a b x n) (basic_cell (α := α) c_1 r_2 c_2 r c)
      (cellOk a b n (u32 (c + r * c_2)) (fun k => u32 (k + r * c_1))
        (fun k => u32 (c + k * c_2)) r_2)
      (fun m => m.put (u32 (c + r * c_2))
        (dot m.matrix_1 m.matrix_2 (fun k => u32 (k + r * c_1)) (fun k => u32 (c + k * c_2)) r_2)
        (cellLog (u32 (c + r * c_2)) (fun k => u32 (k + r * c_1)) (fun k => u32 (c + k * c_2))
          .matrix_2 (List.range r_2))) := by
  have e : basic_cell (α := α) c_1 r_2 c_2 r c =
      andThen (assign_zero (u32 (c + r * c_2)))
        (runList (fun k => add_product (u32 (c + r * c_2)) (u32 (k + r * c_1)) .matrix_2
          (u32 (c + k * c_2))) (List.range r_2)) := by
    rw [basic_cell, forLoop_one]
  rw [e]
  refine Spec.congr (zero_then_accum_spec a b x n _ _ _ .matrix_2 (by decide) _) ?_ ?_
  · simp [cellOk, bufLen]
  · intro m _ _
    simp only [Mem.buf]
    rw [accumulate_perm _ _ _ _ _ r_2 (List.Perm.refl _)]

theorem parallel_cell_spec [Semiring α] (a b x n c_1 r_2 c_2 r c : Nat) :
    Spec (Sized a b x n) (parallel_cell (α := α) c_1 r_2 c_2 r c)
      (cellOk a b n (u32 (c + r * c_2)) (fun k => u32 (k + r * c_1))
        (fun k => u32 (c + k * c_2)) r_2)
      (fun m => m.put (u32 (c + r * c_2))
        (dot m.matrix_1 m.matrix_2 (fun k => u32 (k + r * c_1)) (fun k => u32 (c + k * c_2)) r_2)
        (cellLog (u32 (c + r * c_2)) (fun k => u32 (k + r * c_1)) (fun k => u32 (c + k * c_2))
          .matrix_2 (List.range r_2))) :=
  basic_cell_spec a b x n c_1 r_2 c_2 r c

theorem optimiced_even_cell_eq [Zero α] [Add α] [Mul α] (c_1 r_2 c_2 r c : Nat)
    (h : r_2 % 2 = 0) :
    optimiced_even_cell (α := α) c_1 r_2 c_2 r c =
      andThen (assign_zero (u32 (c + r * c_2)))
        (runList (fun k => add_product (u32 (c + r * c_2)) (u32 (k + r * c_1)) .aux
          (u32 (k + c * c_2))) (upPairs 0 (r_2 / 2))) := by
  have hn : (r_2 - 0 + 1) / 2 = r_2 / 2 := by omega
  rw [optimiced_even_cell, forLoop_two, hn]
  exact congrArg (andThen _)
    (runList_pairs (fun k => add_product (u32 (c + r * c_2)) (u32 (k + r * c_1)) .aux
      (u32 (k + c * c_2))) (fun k => k) (fun k => k + 1) _)

theorem optimiced_even_cell_spec [Semiring α] (a b x n c_1 r_2 c_2 r c : Nat)
    (h : r_2 % 2 = 0) :
    Spec (Sized a b x n) (optimiced_even_cell (α := α) c_1 r_2 c_2 r c)
      (cellOk a x n (u32 (c + r * c_2)) (fun k => u32 (k + r * c_1))
        (fun k => u32 (k + c * c_2)) r_2)
      (fun m => m.put (u32 (c + r * c_2))
        (dot m.matrix_1 m.aux (fun k => u32 (k + r * c_1)) (fun k => u32 (k + c * c_2)) r_2)
        (cellLog (u32 (c + r * c_2)) (fun k => u32 (k + r * c_1)) (fun k => u32 (k + c * c_2))
          .aux (upPairs 0 (r_2 / 2)))) := by
  have h2 : 2 * (r_2 / 2) = r_2 := by omega
  have hl : upPairs 0 (r_2 / 2) = List.range r_2 := by rw [upPairs_zero, h2]
  rw [optimiced_even_cell_eq c_1 r_2 c_2 r c h]
  refine Spec.congr (zero_then_accum_spec a b x n _ _ _ .aux (by decide) _) ?_ ?_
  · simp [cellOk, bufLen, hl]
  · intro m _ _
    simp only [Mem.buf]
    rw [accumulate_perm _ _ _ _ _ r_2 (by rw [hl])]

theorem optimiced_odd_cell_eq [Zero α] [Add α] [Mul α] (c_1 r_2 c_2 r c : Nat)
    (h : r_2 % 2 = 1) :
    optimiced_odd_cell (α := α) c_1 r_2 c_2 r c =
      andThen (assign_product (u32 (c + r * c_2)) (u32 (r * c_1)) (u32 (c * c_2)))
        (runList (fun k => add_product (u32 (c + r * c_2)) (u32 (k + r * c_1)) .aux
          (u32 (k + c * c_2))) (upPairs 1 (r_2 / 2))) := by
  have hn : (r_2 - 1 + 1) / 2 = r_2 / 2 := by omega
  rw [optimiced_odd_cell, forLoop_two, hn]
  exact congrArg (andThen _)
    (runList_pairs (fun k => add_product (u32 (c + r * c_2)) (u32 (k + r * c_1)) .aux
      (u32 (k + c * c_2))) (fun k => k) (fun k => k + 1) _)

theorem optimiced_odd_cell_spec [Semiring α] (a b x n c_1 r_2 c_2 r c : Nat)
    (h : r_2 % 2 = 1) :
    Spec (Sized a b x n) (optimiced_odd_cell (α := α) c_1 r_2 c_2 r c)
      (cellOk a x n (u32 (c + r * c_2)) (fun k => u32 (k + r * c_1))
        (fun k => u32 (k + c * c_2)) r_2)
      (fun m => m.put (u32 (c + r * c_2))
        (dot m.matrix_1 m.aux (fun k => u32 (k + r * c_1)) (fun k => u32 (k + c * c_2)) r_2)
        ([.read .matrix_1 (u32 (r * c_1)), .read .aux (u32 (c * c_2)),
            .write .result (u32 (c + r * c_2))] ++
          (upPairs 1 (r_2 / 2)).flatMap fun k =>
            accLog (u32 (c + r * c_2)) (u32 (k + r * c_1)) .aux (u32 (k + c * c_2)))) := by
  have h2 : 2 * (r_2 / 2) = r_2 - 1 := by omega
  have h3 : r_2 = (r_2 - 1) + 1 := by omega
  have hl : upPairs 1 (r_2 / 2) = List.range' 1 (r_2 - 1) := by rw [upPairs_eq, h2]
  rw [optimiced_odd_cell_eq c_1 r_2 c_2 r c h]
  refine Spec.congr (product_then_accum_spec a b x n _ _ _ _ _ _) ?_ ?_
  · rw [hl]
    simp only [cellOk, List.mem_range'_1]
    constructor
    · rintro ⟨hi, hk⟩
      have h0 := hk 0 (by omega)
      simp only [Nat.zero_add] at h0
      exact ⟨⟨h0.1, h0.2, hi⟩, fun k hk' => hk k (by omega)⟩
    · rintro ⟨⟨h0, h1, hi⟩, hk⟩
      refine ⟨hi, fun k hk' => ?_⟩
      rcases Nat.eq_zero_or_pos k with rfl | hpos
      · simpa using ⟨h0, h1⟩
      · exact hk k (by omega)
  · intro m _ _
    have := accumulate_peeled m.matrix_1 m.aux (fun k => u32 (k + r * c_1))
      (fun k => u32 (k + c * c_2)) (r_2 - 1)
    simp only [Nat.zero_add] at this
    rw [hl, this, ← h3]

theorem optimiced_parallel_pairs_eq [Zero α] [Add α] [Mul α] (c_1 r_2 c_2 r c : Nat) :
    optimiced_parallel_pairs (α := α) c_1 r_2 c_2 r c =
      runList (fun k => add_product (u32 (c + r * c_2)) (u32 (k + r * c_1)) .aux
        (u32 (k + c * c_2))) (downPairs ((r_2 - 1 + 1) / 2)) := by
  rw [optimiced_parallel_pairs, forLoop_two]
  exact runList_pairs (fun k => add_product (u32 (c + r * c_2)) (u32 (k + r * c_1)) .aux
    (u32 (k + c * c_2))) (fun k => k) (fun k => k - 1) _

theorem optimiced_parallel_even_cell_spec [Semiring α] (a b x n c_1 r_2 c_2 r c : Nat)
    (h : r_2 % 2 = 0) :
    Spec (Sized a b x n) (optimiced_parallel_even_cell (α := α) c_1 r_2 c_2 r c)
      (cellOk a x n (u32 (c + r * c_2)) (fun k => u32 (k + r * c_1))
        (fun k => u32 (k + c * c_2)) r_2)
      (fun m => m.put (u32 (c + r * c_2))
        (dot m.matrix_1 m.aux (fun k => u32 (k + r * c_1)) (fun k => u32 (k + c * c_2)) r_2)
        (cellLog (u32 (c + r * c_2)) (fun k => u32 (k + r * c_1)) (fun k => u32 (k + c * c_2))
          .aux (downPairs (r_2 / 2)))) := by
  have hn : (r_2 - 1 + 1) / 2 = r_2 / 2 := by omega
  have h2 : 2 * (r_2 / 2) = r_2 := by omega
  have hp : (downPairs (r_2 / 2)).Perm (List.range r_2) := by
    have := downPairs_perm (r_2 / 2)
    rwa [h2] at this
  rw [optimiced_parallel_even_cell, optimiced_parallel_pairs_eq, hn]
  refine Spec.congr (zero_then_accum_spec a b x n _ _ _ .aux (by decide) _) ?_ ?_
  · simp [cellOk, bufLen, hp.mem_iff]
  · intro m _ _
    simp only [Mem.buf]
    rw [accumulate_perm _ _ _ _ _ r_2 hp]

theorem optimiced_parallel_odd_cell_spec [Semiring α] (a b x n c_1 r_2 c_2 r c : Nat)
    (h : r_2 % 2 = 1) :
    Spec (Sized a b x n) (optimiced_parallel_odd_cell (α := α) c_1 r_2 c_2 r c)
      (cellOk a x n (u32 (c + r * c_2)) (fun k => u32 (k + r * c_1))
        (fun k => u32 (k + c * c_2)) r_2)
      (fun m => m.put (u32 (c + r * c_2))
        (dot m.matrix_1 m.aux (fun k => u32 (k + r * c_1)) (fun k => u32 (k + c * c_2)) r_2)
        (cellLog (u32 (c + r * c_2)) (fun k => u32 (k + r * c_1)) (fun k => u32 (k + c * c_2))
          .aux (downPairs (r_2 / 2) ++ [r_2 - 1]))) := by
  have hn : (r_2 - 1 + 1) / 2 = r_2 / 2 := by omega
  have h2 : r_2 - 1 = 2 * (r_2 / 2) := by omega
  have hp : (downPairs (r_2 / 2) ++ [r_2 - 1]).Perm (List.range r_2) := by
    have := downPairs_concat_perm (r_2 / 2)
    rw [← h2] at this
    have h4 : r_2 - 1 + 1 = r_2 := by omega
    rwa [h4] at this
  have e : optimiced_parallel_odd_cell (α := α) c_1 r_2 c_2 r c =
      andThen (assign_zero (u32 (c + r * c_2)))
        (runList (fun k => add_product (u32 (c + r * c_2)) (u32 (k + r * c_1)) .aux
          (u32 (k + c * c_2))) (downPairs (r_2 / 2) ++ [r_2 - 1])) := by
    rw [optimiced_parallel_odd_cell, optimiced_parallel_pairs_eq, hn]
    exact congrArg (andThen _)
      (runList_concat (fun k => add_product (u32 (c + r * c_2)) (u32 (k + r * c_1)) .aux
        (u32 (k + c * c_2))) _ _)
  rw [e]
  refine Spec.congr (zero_then_accum_spec a b x n _ _ _ .aux (by decide) _) ?_ ?_
  · simp only [cellOk, bufLen, hp.mem_iff, List.mem_range]
  · intro m _ _
    simp only [Mem.buf]
    rw [accumulate_perm _ _ _ _ _ r_2 hp]

/-! ## Lists written cell by cell -/

theorem mem_pairs (rs cs : List Nat) (r c : Nat) :
    (r, c) ∈ pairs rs cs ↔ r ∈ rs ∧ c ∈ cs := by
  simp only [pairs, List.mem_flatMap, List.mem_map, Prod.mk.injEq]
  constructor
  · rintro ⟨r', hr, c', hc, rfl, rfl⟩
    exact ⟨hr, hc⟩
  · rintro ⟨hr, hc⟩
    exact ⟨r, hr, c, hc, rfl, rfl⟩

theorem forall_pairs (rows cols : Nat) (P : Nat → Nat → Prop) :
    (∀ p ∈ pairs (List.range rows) (List.range cols), P p.1 p.2) ↔
      ∀ r, r < rows → ∀ c, c < cols → P r c := by
  constructor
  · intro h r hr c hc
    exact h (r, c) ((mem_pairs _ _ r c).2 ⟨List.mem_range.2 hr, List.mem_range.2 hc⟩)
  · rintro h ⟨r, c⟩ hp
    obtain ⟨hr, hc⟩ := (mem_pairs _ _ r c).1 hp
    exact h r (List.mem_range.1 hr) c (List.mem_range.1 hc)

theorem foldl_set_length {κ : Type} (idx : κ → Nat) (val : κ → α) (ks : List κ) :
    ∀ R : List α, (ks.foldl (fun R a => R.set (idx a) (val a)) R).length = R.length := by
  induction ks with
  | nil => intro R; rfl
  | cons k ks ih => intro R; rw [List.foldl_cons, ih, List.length_set]

theorem foldl_set_frame {κ : Type} (idx : κ → Nat) (val : κ → α) (j : Nat) (ks : List κ)
    (h : ∀ a ∈ ks, idx a ≠ j) :
    ∀ R : List α, (ks.foldl (fun R a => R.set (idx a) (val a)) R)[j]? = R[j]? := by
  induction ks with
  | nil => intro R; rfl
  | cons k ks ih =>
    intro R
    rw [List.foldl_cons, ih (fun a ha => h a (List.mem_cons_of_mem k ha)),
      List.getElem?_set_ne (h k (List.mem_cons_self k ks))]

theorem foldl_set_get {κ : Type} (idx : κ → Nat) (val : κ → α) (ks : List κ)
    (hinj : ∀ a ∈ ks, ∀ b ∈ ks, idx a = idx b → a = b) :
    ∀ R : List α, (∀ a ∈ ks, idx a < R.length) → ∀ a ∈ ks,
      (ks.foldl (fun R a => R.set (idx a) (val a)) R)[idx a]? = some (val a) := by
  induction ks with
  | nil => intro R _ a ha; cases ha
  | cons k ks ih =>
    intro R hlt a ha
    rw [List.foldl_cons]
    by_cases hmem : a ∈ ks
    · exact ih (fun a ha b hb => hinj a (List.mem_cons_of_mem k ha) b (List.mem_cons_of_mem k hb))
        _ (fun b hb => by rw [List.length_set]; exact hlt b (List.mem_cons_of_mem k hb)) a hmem
    · have hak : a = k := by
        rcases List.mem_cons.1 ha with h | h
        · exact h
        · exact absurd h hmem
      subst hak
      rw [foldl_set_frame idx val (idx a) ks ?_, List.getElem?_set_self (hlt a ha)]
      intro b hb hidx
      have := hinj b (List.mem_cons_of_mem a hb) a ha hidx
      exact hmem (this ▸ hb)

theorem fill_length (idx : Nat → Nat → Nat) (val : Nat → Nat → α) (rows cols : Nat)
    (R : List α) : (fill idx val rows cols R).length = R.length :=
  foldl_set_length _ _ _ R

theorem fill_frame (idx : Nat → Nat → Nat) (val : Nat → Nat → α) (rows cols : Nat)
    (R : List α) (j : Nat) (h : ∀ r, r < rows → ∀ c, c < cols → idx r c ≠ j) :
    (fill idx val rows cols R)[j]? = R[j]? :=
  foldl_set_frame _ _ j _ ((forall_pairs rows cols fun r c => idx r c ≠ j).2 h) R

theorem fill_get (idx : Nat → Nat → Nat) (val : Nat → Nat → α) (rows cols : Nat)
    (R : List α)
    (hinj : ∀ r, r < rows → ∀ c, c < cols → ∀ r', r' < rows → ∀ c', c' < cols →
      idx r c = idx r' c' → r = r' ∧ c = c')
    (hlt : ∀ r, r < rows → ∀ c, c < cols → idx r c < R.length)
    (r c : Nat) (hr : r < rows) (hc : c < cols) :
    (fill idx val rows cols R)[idx r c]? = some (val r c) := by
  refine foldl_set_get (fun p : Nat × Nat => idx p.1 p.2) (fun p => val p.1 p.2) _ ?_ R
    ((forall_pairs rows cols fun r c => idx r c < R.length).2 hlt) (r, c)
    ((mem_pairs _ _ r c).2 ⟨List.mem_range.2 hr, List.mem_range.2 hc⟩)
  rintro ⟨r1, c1⟩ h1 ⟨r2, c2⟩ h2 he
  obtain ⟨hr1, hc1⟩ := (mem_pairs _ _ r1 c1).1 h1
  obtain ⟨hr2, hc2⟩ := (mem_pairs _ _ r2 c2).1 h2
  obtain ⟨e1, e2⟩ := hinj r1 (List.mem_range.1 hr1) c1 (List.mem_range.1 hc1) r2
    (List.mem_range.1 hr2) c2 (List.mem_range.1 hc2) he
  rw [e1, e2]

/-! ## Loop nests -/

theorem foldl_put {κ : Type} (idx : κ → Nat) (val : κ → Mem α → α) (lg : κ → List Access)
    (hval : ∀ a (m : Mem α) i v L, val a (m.put i v L) = val a m) (ks : List κ) :
    ∀ m : Mem α, ks.foldl (fun m a => m.put (idx a) (val a m) (lg a)) m =
      { m with
        result := ks.foldl (fun R a => R.set (idx a) (val a m)) m.result
        log := m.log ++ ks.flatMap lg } := by
  induction ks with
  | nil => intro m; simp
  | cons k ks ih =>
    intro m
    rw [List.foldl_cons, ih]
    simp only [hval]
    simp [Mem.put, List.append_assoc]

theorem foldl_putAux {κ : Type} (idx : κ → Nat) (val : κ → Mem α → α) (lg : κ → List Access)
    (hval : ∀ a (m : Mem α) i v L, val a (m.putAux i v L) = val a m) (ks : List κ) :
    ∀ m : Mem α, ks.foldl (fun m a => m.putAux (idx a) (val a m) (lg a)) m =
      { m with
        aux := ks.foldl (fun R a => R.set (idx a) (val a m)) m.aux
        log := m.log ++ ks.flatMap lg } := by
  induction ks with
  | nil => intro m; simp
  | cons k ks ih =>
    intro m
    rw [List.foldl_cons, ih]
    simp only [hval]
    simp [Mem.putAux, List.append_assoc]

theorem nest_eq (cell : Nat → Nat → Mem α → Run α) (rows cols : Nat) :
    (forLoop 0 rows 1 fun r => forLoop 0 cols 1 fun c => cell r c) =
      runList (fun p : Nat × Nat => cell p.1 p.2)
        (pairs (List.range rows) (List.range cols)) := by
  simp only [forLoop_one]
  exact runList_product cell _ _

/-- A loop nest over the cells of `result`, each cell writing one value that does not
depend on `result`. -/
theorem nest_spec (a b x n : Nat) (cell : Nat → Nat → Mem α → Run α)
    (ok : Nat → Nat → Prop) (idx : Nat → Nat → Nat) (val : Nat → Nat → Mem α → α)
    (lg : Nat → Nat → List Access)
    (hval : ∀ r c (m : Mem α) i v L, val r c (m.put i v L) = val r c m)
    (hcell : ∀ r c, Spec (Sized a b x n) (cell r c) (ok r c)
      (fun m => m.put (idx r c) (val r c m) (lg r c)))
    (rows cols : Nat) :
    Spec (Sized a b x n) (forLoop 0 rows 1 fun r => forLoop 0 cols 1 fun c => cell r c)
      (∀ r, r < rows → ∀ c, c < cols → ok r c)
      (fun m => { m with
        result := fill idx (fun r c => val r c m) rows cols m.result
        log := m.log ++ nestLog lg rows cols }) := by
  rw [nest_eq]
  refine Spec.congr (Spec.runList _ fun p _ => hcell p.1 p.2) ?_ ?_
  · exact (forall_pairs rows cols ok).symm
  · intro m _ _
    exact foldl_put (fun p : Nat × Nat => idx p.1 p.2) (fun p m => val p.1 p.2 m)
      (fun p => lg p.1 p.2) (fun p => hval p.1 p.2) _ m

/-- The loop nest that copies `matrix_2` into `aux`. -/
theorem copy_nest_spec [Zero α] (a b x n r_2 c_2 : Nat) :
    Spec (Sized a b x n)
      (forLoop 0 r_2 1 fun r => forLoop 0 c_2 1 fun c =>
        copy_element (α := α) (u32 (r + c * r_2)) (u32 (c + r * c_2)))
      (∀ r, r < r_2 → ∀ c, c < c_2 → u32 (c + r * c_2) < b ∧ u32 (r + c * r_2) < x)
      (fun m => { m with
        aux := fill (fun r c => u32 (r + c * r_2))
          (fun r c => m.matrix_2.getD (u32 (c + r * c_2)) 0) r_2 c_2 m.aux
        log := m.log ++ nestLog (copyLog r_2 c_2) r_2 c_2 }) := by
  rw [nest_eq]
  refine Spec.congr
    (Spec.runList _ fun p _ => copy_element_spec a b x n (u32 (p.1 + p.2 * r_2))
      (u32 (p.2 + p.1 * c_2))) ?_ ?_
  · exact (forall_pairs r_2 c_2 _).symm
  · intro m _ _
    exact foldl_putAux (fun p : Nat × Nat => u32 (p.1 + p.2 * r_2))
      (fun p m => m.matrix_2.getD (u32 (p.2 + p.1 * c_2)) 0)
      (fun p => copyLog r_2 c_2 p.1 p.2) (fun p m i v L => rfl) _ m

/-! ## The four multipliers in closed form -/

theorem basic_nest_spec [Semiring α] (a b x n r_1 c_1 r_2 c_2 : Nat) :
    Spec (Sized a b x n)
      (forLoop 0 r_1 1 fun r => forLoop 0 c_2 1 fun c => basic_cell (α := α) c_1 r_2 c_2 r c)
      (basic_ok a b n r_1 c_1 r_2 c_2) (basic_final r_1 c_1 r_2 c_2) :=
  nest_spec a b x n (basic_cell c_1 r_2 c_2) _ (fun r c => u32 (c + r * c_2))
    (fun r c m => dot m.matrix_1 m.matrix_2 (fun k => u32 (k + r * c_1))
      (fun k => u32 (c + k * c_2)) r_2)
    (basic_cell_log c_1 r_2 c_2) (fun _ _ _ _ _ _ => rfl)
    (fun r c => basic_cell_spec a b x n c_1 r_2 c_2 r c) r_1 c_2

/-- Closed form of `basic_multiplication` on every state with matching inner dimensions. -/
theorem basic_multiplication_run [Semiring α] (r_1 c_1 r_2 c_2 : Nat) (m : Mem α)
    (h : c_1 = r_2) :
    (basic_ok m.matrix_1.length m.matrix_2.length m.result.length r_1 c_1 r_2 c_2 →
        basic_multiplication r_1 c_1 r_2 c_2 m = .ok (basic_final r_1 c_1 r_2 c_2 m)) ∧
      (¬ basic_ok m.matrix_1.length m.matrix_2.length m.result.length r_1 c_1 r_2 c_2 →
        ∃ ms, basic_multiplication r_1 c_1 r_2 c_2 m = .error (.OutOfBounds, ms)) := by
  have hs := basic_nest_spec (α := α) m.matrix_1.length m.matrix_2.length m.aux.length
    m.result.length r_1 c_1 r_2 c_2 m ⟨rfl, rfl, rfl, rfl⟩
  rw [basic_multiplication, if_pos h]
  exact ⟨fun hp => (hs.1 hp).1, hs.2⟩

/-- Closed form of `parallel_multiplication` on every state with matching inner
dimensions. -/
theorem parallel_multiplication_run [Semiring α] (r_1 c_1 r_2 c_2 : Nat) (m : Mem α)
    (h : c_1 = r_2) :
    (basic_ok m.matrix_1.length m.matrix_2.length m.result.length r_1 c_1 r_2 c_2 →
        parallel_multiplication r_1 c_1 r_2 c_2 m = .ok (basic_final r_1 c_1 r_2 c_2 m)) ∧
      (¬ basic_ok m.matrix_1.length m.matrix_2.length m.result.length r_1 c_1 r_2 c_2 →
        ∃ ms, parallel_multiplication r_1 c_1 r_2 c_2 m = .error (.OutOfBounds, ms)) :=
  basic_multiplication_run r_1 c_1 r_2 c_2 m h

theorem optimiced_multiply_spec [Semiring α] (a b x n r_1 c_1 r_2 c_2 : Nat) :
    Spec (Sized a b x n) (optimiced_multiply (α := α) r_1 c_1 r_2 c_2)
      (optimiced_ok a x n r_1 c_1 r_2 c_2)
      (fun m => { m with
        result := optimiced_result m.matrix_1 m.aux r_1 c_1 r_2 c_2 m.result
        log := m.log ++ nestLog (optimiced_cell_log c_1 r_2 c_2) r_1 c_2 }) := by
  by_cases h : r_2 % 2 = 0
  · have hl : optimiced_cell_log c_1 r_2 c_2 = fun r c =>
        cellLog (u32 (c + r * c_2)) (fun k => u32 (k + r * c_1)) (fun k => u32 (k + c * c_2))
          .aux (upPairs 0 (r_2 / 2)) := by
      funext r c
      simp [optimiced_cell_log, h]
    simp only [optimiced_multiply, h, if_true]
    rw [hl]
    exact nest_spec a b x n (optimiced_even_cell c_1 r_2 c_2) _ (fun r c => u32 (c + r * c_2))
      (fun r c m => dot m.matrix_1 m.aux (fun k => u32 (k + r * c_1))
        (fun k => u32 (k + c * c_2)) r_2) _ (fun _ _ _ _ _ _ => rfl)
      (fun r c => optimiced_even_cell_spec a b x n c_1 r_2 c_2 r c h) r_1 c_2
  · have h1 : r_2 % 2 = 1 := by omega
    have hl : optimiced_cell_log c_1 r_2 c_2 = fun r c =>
        [.read .matrix_1 (u32 (r * c_1)), .read .aux (u32 (c * c_2)),
            .write .result (u32 (c + r * c_2))] ++
          (upPairs 1 (r_2 / 2)).flatMap fun k =>
            accLog (u32 (c + r * c_2)) (u32 (k + r * c_1)) .aux (u32 (k + c * c_2)) := by
      funext r c
      simp [optimiced_cell_log, h]
    simp only [optimiced_multiply, h, if_false]
    rw [hl]
    exact nest_spec a b x n (optimiced_odd_cell c_1 r_2 c_2) _ (fun r c => u32 (c + r * c_2))
      (fun r c m => dot m.matrix_1 m.aux (fun k => u32 (k + r * c_1))
        (fun k => u32 (k + c * c_2)) r_2) _ (fun _ _ _ _ _ _ => rfl)
      (fun r c => optimiced_odd_cell_spec a b x n c_1 r_2 c_2 r c h1) r_1 c_2

theorem optimiced_parallel_multiply_spec [Semiring α] (a b x n r_1 c_1 r_2 c_2 : Nat) :
    Spec (Sized a b x n) (optimiced_parallel_multiply (α := α) r_1 c_1 r_2 c_2)
      (optimiced_ok a x n r_1 c_1 r_2 c_2)
      (fun m => { m with
        result := optimiced_result m.matrix_1 m.aux r_1 c_1 r_2 c_2 m.result
        log := m.log ++ nestLog (optimiced_parallel_cell_log c_1 r_2 c_2) r_1 c_2 }) := by
  by_cases h : r_2 % 2 = 0
  · have hl : optimiced_parallel_cell_log c_1 r_2 c_2 = fun r c =>
        cellLog (u32 (c + r * c_2)) (fun k => u32 (k + r * c_1)) (fun k => u32 (k + c * c_2))
          .aux (downPairs (r_2 / 2)) := by
      funext r c
      simp [optimiced_parallel_cell_log, h]
    simp only [optimiced_parallel_multiply, h, if_true]
    rw [hl]
    exact nest_spec a b x n (optimiced_parallel_even_cell c_1 r_2 c_2) _
      (fun r c => u32 (c + r * c_2))
      (fun r c m => dot m.matrix_1 m.aux (fun k => u32 (k + r * c_1))
        (fun k => u32 (k + c * c_2)) r_2) _ (fun _ _ _ _ _ _ => rfl)
      (fun r c => optimiced_parallel_even_cell_spec a b x n c_1 r_2 c_2 r c h) r_1 c_2
  · have h1 : r_2 % 2 = 1 := by omega
    have hl : optimiced_parallel_cell_log c_1 r_2 c_2 = fun r c =>
        cellLog (u32 (c + r * c_2)) (fun k => u32 (k + r * c_1)) (fun k => u32 (k + c * c_2))
          .aux (downPairs (r_2 / 2) ++ [r_2 - 1]) := by
      funext r c
      simp [optimiced_parallel_cell_log, h]
    simp only [optimiced_parallel_multiply, h, if_false]
    rw [hl]
    exact nest_spec a b x n (optimiced_parallel_odd_cell c_1 r_2 c_2) _
      (fun r c => u32 (c + r * c_2))
      (fun r c m => dot m.matrix_1 m.aux (fun k => u32 (k + r * c_1))
        (fun k => u32 (k + c * c_2)) r_2) _ (fun _ _ _ _ _ _ => rfl)
      (fun r c => optimiced_parallel_odd_cell_spec a b x n c_1 r_2 c_2 r c h1) r_1 c_2

/-- Closed form of `optimiced_multiplication` on every state with matching inner
dimensions. -/
theorem optimiced_multiplication_run [Semiring α] (r_1 c_1 r_2 c_2 : Nat) (m : Mem α)
    (h : c_1 = r_2) :
    (copy_ok m.matrix_2.length (u32 (r_2 * c_2)) r_2 c_2 ∧
        optimiced_ok m.matrix_1.length (u32 (r_2 * c_2)) m.result.length r_1 c_1 r_2 c_2 →
        optimiced_multiplication r_1 c_1 r_2 c_2 m =
          .ok (optimiced_final (optimiced_cell_log c_1 r_2 c_2) r_1 c_1 r_2 c_2 m)) ∧
      (¬ (copy_ok m.matrix_2.length (u32 (r_2 * c_2)) r_2 c_2 ∧
        optimiced_ok m.matrix_1.length (u32 (r_2 * c_2)) m.result.length r_1 c_1 r_2 c_2) →
        ∃ ms, optimiced_multiplication r_1 c_1 r_2 c_2 m = .error (.OutOfBounds, ms)) := by
  have hs := Spec.andThen
    (copy_nest_spec (α := α) m.matrix_1.length m.matrix_2.length (u32 (r_2 * c_2))
      m.result.length r_2 c_2)
    (optimiced_multiply_spec (α := α) m.matrix_1.length m.matrix_2.length (u32 (r_2 * c_2))
      m.result.length r_1 c_1 r_2 c_2)
    (malloc_aux (u32 (r_2 * c_2)) m) ⟨rfl, rfl, by simp [malloc_aux], rfl⟩
  rw [optimiced_multiplication, optimiced_checked, if_pos h, optimiced_copy]
  constructor
  · intro hp
    rw [(hs.1 hp).1]
    simp [free_aux, optimiced_final, malloc_aux, transposed, List.append_assoc]
  · intro hp
    obtain ⟨ms, e⟩ := hs.2 hp
    exact ⟨ms, by rw [e]⟩

/-- Closed form of `optimiced_parallel_multiplication` on every state with matching inner
dimensions. -/
theorem optimiced_parallel_multiplication_run [Semiring α] (r_1 c_1 r_2 c_2 : Nat)
    (m : Mem α) (h : c_1 = r_2) :
    (copy_ok m.matrix_2.length (u32 (r_2 * c_2)) r_2 c_2 ∧
        optimiced_ok m.matrix_1.length (u32 (r_2 * c_2)) m.result.length r_1 c_1 r_2 c_2 →
        optimiced_parallel_multiplication r_1 c_1 r_2 c_2 m =
          .ok (optimiced_final (optimiced_parallel_cell_log c_1 r_2 c_2) r_1 c_1 r_2 c_2 m)) ∧
      (¬ (copy_ok m.matrix_2.length (u32 (r_2 * c_2)) r_2 c_2 ∧
        optimiced_ok m.matrix_1.length (u32 (r_2 * c_2)) m.result.length r_1 c_1 r_2 c_2) →
        ∃ ms, optimiced_parallel_multiplication r_1 c_1 r_2 c_2 m =
          .error (.OutOfBounds, ms)) := by
  have hs := Spec.andThen
    (copy_nest_spec (α := α) m.matrix_1.length m.matrix_2.length (u32 (r_2 * c_2))
      m.result.length r_2 c_2)
    (optimiced_parallel_multiply_spec (α := α) m.matrix_1.length m.matrix_2.length
      (u32 (r_2 * c_2)) m.result.length r_1 c_1 r_2 c_2)
    (malloc_aux (u32 (r_2 * c_2)) m) ⟨rfl, rfl, by simp [malloc_aux], rfl⟩
  rw [optimiced_parallel_multiplication, optimiced_parallel_checked, if_pos h,
    optimiced_parallel_copy]
  constructor
  · intro hp
    rw [(hs.1 hp).1]
    simp [free_aux, optimiced_final, malloc_aux, transposed, List.append_assoc]
  · intro hp
    obtain ⟨ms, e⟩ := hs.2 hp
    exact ⟨ms, by rw [e]⟩

/-! ## Row-major indices -/

theorem u32_of_lt {n : Nat} (h : n < 4294967296) : u32 n = n := Nat.mod_eq_of_lt h

theorem index_lt {r c rows cols : Nat} (hr : r < rows) (hc : c < cols) :
    c + r * cols < rows * cols := by
  have h1 : (r + 1) * cols ≤ rows * cols := Nat.mul_le_mul_right _ hr
  have h2 : (r + 1) * cols = r * cols + cols := Nat.succ_mul r cols
  omega

theorem index_inj {r c r' c' cols : Nat} (hc : c < cols) (hc' : c' < cols)
    (h : c + r * cols = c' + r' * cols) : r = r' ∧ c = c' := by
  have hpos : 0 < cols := by omega
  have e1 : (c + r * cols) / cols = r := by
    rw [Nat.add_mul_div_right _ _ hpos, Nat.div_eq_of_lt hc, Nat.zero_add]
  have e2 : (c' + r' * cols) / cols = r' := by
    rw [Nat.add_mul_div_right _ _ hpos, Nat.div_eq_of_lt hc', Nat.zero_add]
  have hr : r = r' := by rw [← e1, ← e2, h]
  subst hr
  exact ⟨rfl, by omega⟩

theorem u32_index {r c rows cols : Nat} (hr : r < rows) (hc : c < cols)
    (h32 : rows * cols ≤ 4294967296) : u32 (c + r * cols) = c + r * cols :=
  u32_of_lt (lt_of_lt_of_le (index_lt hr hc) h32)

/-- Under the size bounds the cells written by a row-major loop nest hold the values
written, and every other index keeps its content. -/
theorem fill_rowmajor (val : Nat → Nat → α) (rows cols : Nat) (R : List α)
    (h32 : rows * cols ≤ 4294967296) (hlen : rows * cols ≤ R.length) :
    (∀ r, r < rows → ∀ c, c < cols →
        (fill (fun r c => u32 (c + r * cols)) val rows cols R)[c + r * cols]? =
          some (val r c)) ∧
      (∀ j, rows * cols ≤ j →
        (fill (fun r c => u32 (c + r * cols)) val rows cols R)[j]? = R[j]?) := by
  constructor
  · intro r hr c hc
    have := fill_get (fun r c => u32 (c + r * cols)) val rows cols R ?_ ?_ r c hr hc
    · simpa only [u32_index hr hc h32] using this
    · intro r hr c hc r' hr' c' hc' he
      simp only [u32_index hr hc h32, u32_index hr' hc' h32] at he
      exact index_inj hc hc' he
    · intro r hr c hc
      simp only [u32_index hr hc h32]
      exact lt_of_lt_of_le (index_lt hr hc) hlen
  · intro j hj
    apply fill_frame
    intro r hr c hc
    simp only [u32_index hr hc h32]
    have := index_lt hr hc
    omega

/-- Under the size bounds the copy loops leave the transpose of `B` in the scratch
buffer. -/
theorem transposed_get [Zero α] (B X : List α) (r_2 c_2 : Nat)
    (h32 : r_2 * c_2 ≤ 4294967296) (hlen : X.length = r_2 * c_2) (k c : Nat) (hk : k < r_2)
    (hc : c < c_2) :
    (transposed B r_2 c_2 X)[k + c * r_2]? = some (B.getD (c + k * c_2) 0) := by
  have h32' : c_2 * r_2 ≤ 4294967296 := by rw [Nat.mul_comm]; exact h32
  have := fill_get (fun r c => u32 (r + c * r_2))
    (fun r c => B.getD (u32 (c + r * c_2)) 0) r_2 c_2 X ?_ ?_ k c hk hc
  · simpa only [transposed, u32_index hc hk h32', u32_index hk hc h32] using this
  · intro r hr c hc r' hr' c' hc' he
    simp only [u32_index hc hr h32', u32_index hc' hr' h32'] at he
    exact (index_inj hr hr' he).symm
  · intro r hr c hc
    simp only [u32_index hc hr h32']
    rw [hlen, Nat.mul_comm r_2 c_2]
    exact index_lt hc hr

theorem basic_ok_of_sized (r_1 c_1 r_2 c_2 n : Nat) (h : c_1 = r_2)
    (hA : r_1 * c_1 ≤ 4294967296) (hB : r_2 * c_2 ≤ 4294967296)
    (hR : r_1 * c_2 ≤ 4294967296) (hn : r_1 * c_2 ≤ n) :
    basic_ok (r_1 * c_1) (r_2 * c_2) n r_1 c_1 r_2 c_2 := by
  intro r hr c hc
  refine ⟨?_, fun k hk => ⟨?_, ?_⟩⟩
  · rw [u32_index hr hc hR]
    exact lt_of_lt_of_le (index_lt hr hc) hn
  · show u32 (k + r * c_1) < r_1 * c_1
    rw [u32_index hr (h ▸ hk) hA]
    exact index_lt hr (h ▸ hk)
  · show u32 (c + k * c_2) < r_2 * c_2
    rw [u32_index hk hc hB]
    exact index_lt hk hc

theorem basic_result_get [Semiring α] (A B R : List α) (r_1 c_1 r_2 c_2 : Nat) (h : c_1 = r_2)
    (hA : r_1 * c_1 ≤ 4294967296) (hB : r_2 * c_2 ≤ 4294967296)
    (hR : r_1 * c_2 ≤ 4294967296) (hn : r_1 * c_2 ≤ R.length)
    (row col : Nat) (hrow : row < r_1) (hcol : col < c_2) :
    (basic_result A B r_1 c_1 r_2 c_2 R)[col + row * c_2]? =
      some (∑ k ∈ Finset.range r_2, A.getD (k + row * c_1) 0 * B.getD (col + k * c_2) 0) := by
  rw [basic_result, (fill_rowmajor _ r_1 c_2 R hR hn).1 row hrow col hcol, dot]
  congr 1
  apply Finset.sum_congr rfl
  intro k hk
  have hk' : k < r_2 := Finset.mem_range.1 hk
  rw [u32_index hrow (h ▸ hk') hA, u32_index hk' hcol hB]

theorem no_mismatch {x : Run α} {P : Prop} {u : Mem α}
    (h : (P → x = .ok u) ∧ (¬P → ∃ ms, x = .error (.OutOfBounds, ms))) :
    ¬ ∃ ms, x = .error (.DimensionMismatch, ms) := by
  rintro ⟨ms, e⟩
  by_cases hp : P
  · rw [h.1 hp] at e
    cases e
  · obtain ⟨ms', e'⟩ := h.2 hp
    rw [e'] at e
    cases e

theorem basic_mismatch [Zero α] [Add α] [Mul α] (r_1 c_1 r_2 c_2 : Nat) (m : Mem α)
    (h : c_1 ≠ r_2) :
    basic_multiplication r_1 c_1 r_2 c_2 m = .error (.DimensionMismatch, m) := by
  rw [basic_multiplication, if_neg h]

theorem parallel_mismatch [Zero α] [Add α] [Mul α] (r_1 c_1 r_2 c_2 : Nat) (m : Mem α)
    (h : c_1 ≠ r_2) :
    parallel_multiplication r_1 c_1 r_2 c_2 m = .error (.DimensionMismatch, m) := by
  rw [parallel_multiplication, if_neg h]

theorem optimiced_mismatch [Zero α] [Add α] [Mul α] (r_1 c_1 r_2 c_2 : Nat) (m : Mem α)
    (h : c_1 ≠ r_2) :
    optimiced_multiplication r_1 c_1 r_2 c_2 m =
      .error (.DimensionMismatch, malloc_aux (u32 (r_2 * c_2)) m) := by
  rw [optimiced_multiplication, optimiced_checked, if_neg h]

theorem optimiced_parallel_mismatch [Zero α] [Add α] [Mul α] (r_1 c_1 r_2 c_2 : Nat)
    (m : Mem α) (h : c_1 ≠ r_2) :
    optimiced_parallel_multiplication r_1 c_1 r_2 c_2 m =
      .error (.DimensionMismatch, malloc_aux (u32 (r_2 * c_2)) m) := by
  rw [optimiced_parallel_multiplication, optimiced_parallel_checked, if_neg h]

/-! ## Square right operands -/

theorem copy_ok_of_sized (r_2 c_2 : Nat) (hB : r_2 * c_2 < 4294967296) :
    copy_ok (r_2 * c_2) (u32 (r_2 * c_2)) r_2 c_2 := by
  have hB' : r_2 * c_2 ≤ 4294967296 := Nat.le_of_lt hB
  have hB'' : c_2 * r_2 ≤ 4294967296 := by rw [Nat.mul_comm]; exact hB'
  intro r hr c hc
  rw [u32_of_lt hB, u32_index hr hc hB', u32_index hc hr hB'']
  refine ⟨index_lt hr hc, ?_⟩
  rw [Nat.mul_comm r_2 c_2]
  exact index_lt hc hr

theorem optimiced_ok_square (r_1 s n : Nat) (hA : r_1 * s ≤ 4294967296)
    (hB : s * s < 4294967296) (hn : r_1 * s ≤ n) :
    optimiced_ok (r_1 * s) (u32 (s * s)) n r_1 s s s := by
  have hB' : s * s ≤ 4294967296 := Nat.le_of_lt hB
  intro r hr c hc
  refine ⟨?_, fun k hk => ⟨?_, ?_⟩⟩
  · rw [u32_index hr hc hA]
    exact lt_of_lt_of_le (index_lt hr hc) hn
  · show u32 (k + r * s) < r_1 * s
    rw [u32_index hr hk hA]
    exact index_lt hr hk
  · show u32 (k + c * s) < u32 (s * s)
    rw [u32_index hc hk hB', u32_of_lt hB]
    exact index_lt hc hk

/-- For a square right operand the multiply phase reads the transpose where the copy
loops wrote it, so each cell receives the dot product of a row of `A` and a column of
`B`. -/
theorem optimiced_result_get_square [Semiring α] (A B X R : List α) (r_1 s : Nat)
    (hA : r_1 * s ≤ 4294967296) (hB : s * s < 4294967296) (hX : X.length = s * s)
    (hn : r_1 * s ≤ R.length) (row col : Nat) (hrow : row < r_1) (hcol : col < s) :
    (optimiced_result A (transposed B s s X) r_1 s s s R)[col + row * s]? =
      some (∑ k ∈ Finset.range s, A.getD (k + row * s) 0 * B.getD (col + k * s) 0) := by
  have hB' : s * s ≤ 4294967296 := Nat.le_of_lt hB
  rw [optimiced_result, (fill_rowmajor _ r_1 s R hA hn).1 row hrow col hcol, dot]
  congr 1
  apply Finset.sum_congr rfl
  intro k hk
  have hk' : k < s := Finset.mem_range.1 hk
  rw [u32_index hrow hk' hA, u32_index hcol hk' hB', List.getD_eq_getElem?_getD _ (k + col * s),
    transposed_get B X s s hB' hX k col hk' hcol]
  rfl

/-! ## The identity matrix -/

theorem identity_getD [Semiring α] (C r c : Nat) (hr : r < C) (hc : c < C) :
    (identity (α := α) C).getD (c + r * C) 0 = if r = c then 1 else 0 := by
  have hlt : c + r * C < C * C := index_lt hr hc
  have hiff : (∃ c', c' < C ∧ c + r * C = c' + c' * C) ↔ r = c := by
    constructor
    · rintro ⟨c', hc', he⟩
      obtain ⟨h1, h2⟩ := index_inj hc hc' he
      rw [h1, h2]
    · intro h
      exact ⟨c, hc, by rw [h]⟩
  rw [List.getD_eq_getElem?_getD, identity, List.getElem?_map, List.getElem?_range hlt]
  simp only [Option.map_some', Option.getD_some, hiff]

theorem dot_identity [Semiring α] (A : List α) (C row col : Nat) (hcol : col < C) :
    (∑ k ∈ Finset.range C,
        A.getD (k + row * C) 0 * (identity (α := α) C).getD (col + k * C) 0) =
      A.getD (col + row * C) 0 := by
  rw [Finset.sum_eq_single col]
  · rw [identity_getD C col col hcol hcol, if_pos rfl, mul_one]
  · intro k hk hne
    rw [identity_getD C k col (Finset.mem_range.1 hk) hcol, if_neg hne, mul_zero]
  · intro h
    exact absurd (Finset.mem_range.2 hcol) h

theorem eq_of_cells (R A : List α) [Zero α] (rows cols : Nat) (hR : R.length = rows * cols)
    (hA : A.length = rows * cols)
    (h : ∀ r, r < rows → ∀ c, c < cols → R[c + r * cols]? = some (A.getD (c + r * cols) 0)) :
    R = A := by
  apply List.ext_getElem?
  intro j
  by_cases hj : j < rows * cols
  · have hpos : 0 < cols := by
      rcases Nat.eq_zero_or_pos cols with h0 | h0
      · rw [h0, Nat.mul_zero] at hj
        exact absurd hj (Nat.not_lt_zero j)
      · exact h0
    have hc : j % cols < cols := Nat.mod_lt j hpos
    have hr : j / cols < rows := by
      rw [Nat.div_lt_iff_lt_mul hpos]
      exact hj
    have hcell := h (j / cols) hr (j % cols) hc
    rw [Nat.mod_add_div' j cols] at hcell
    rw [hcell, List.getD_eq_getElem _ _ (by rw [hA]; exact hj),
      List.getElem?_eq_getElem (by rw [hA]; exact hj)]
  · rw [List.getElem?_eq_none (by rw [hR]; omega), List.getElem?_eq_none (by rw [hA]; omega)]

theorem basic_identity [Semiring α] (R C : Nat) (m : Mem α) (hA : m.matrix_1.length = R * C)
    (hB : m.matrix_2 = identity C) (hR : m.result.length = R * C)
    (hA32 : R * C ≤ 4294967296) (hB32 : C * C < 4294967296) :
    basic_multiplication R C C C m = .ok (basic_final R C C C m) ∧
      (basic_final R C C C m).result = m.matrix_1 := by
  have hB32' : C * C ≤ 4294967296 := Nat.le_of_lt hB32
  have hlenB : m.matrix_2.length = C * C := by rw [hB]; simp [identity]
  have hok : basic_ok m.matrix_1.length m.matrix_2.length m.result.length R C C C := by
    rw [hA, hlenB]
    exact basic_ok_of_sized R C C C _ rfl hA32 hB32' hA32 (Nat.le_of_eq hR.symm)
  refine ⟨(basic_multiplication_run R C C C m rfl).1 hok, ?_⟩
  apply eq_of_cells _ _ R C _ hA
  · intro r hr c hc
    show (basic_result m.matrix_1 m.matrix_2 R C C C m.result)[c + r * C]? = _
    rw [basic_result_get _ _ _ R C C C rfl hA32 hB32' hA32 (Nat.le_of_eq hR.symm) r c hr hc,
      hB, dot_identity _ C r c hc]
  · show (basic_result m.matrix_1 m.matrix_2 R C C C m.result).length = _
    rw [basic_result, fill_length, hR]

theorem optimiced_final_identity [Semiring α] (lg : Nat → Nat → List Access) (R C : Nat)
    (m : Mem α) (hA : m.matrix_1.length = R * C) (hB : m.matrix_2 = identity C)
    (hR : m.result.length = R * C) (hA32 : R * C ≤ 4294967296)
    (hB32 : C * C < 4294967296) :
    (optimiced_final lg R C C C m).result = m.matrix_1 := by
  apply eq_of_cells _ _ R C _ hA
  · intro r hr c hc
    show (optimiced_result m.matrix_1 (transposed m.matrix_2 C C _) R C C C m.result)[_]? = _
    rw [optimiced_result_get_square _ _ _ _ R C hA32 hB32
      (by rw [List.length_map, List.length_range, u32_of_lt hB32])
      (Nat.le_of_eq hR.symm) r c hr hc, hB, dot_identity _ C r c hc]
  · show (optimiced_result m.matrix_1 _ R C C C m.result).length = _
    rw [optimiced_result, fill_length, hR]

theorem optimiced_square_ok [Semiring α] (R C : Nat) (m : Mem α)
    (hA : m.matrix_1.length = R * C) (hB : m.matrix_2.length = C * C)
    (hR : R * C ≤ m.result.length) (hA32 : R * C ≤ 4294967296)
    (hB32 : C * C < 4294967296) :
    copy_ok m.matrix_2.length (u32 (C * C)) C C ∧
      optimiced_ok m.matrix_1.length (u32 (C * C)) m.result.length R C C C := by
  rw [hA, hB]
  exact ⟨copy_ok_of_sized C C hB32, optimiced_ok_square R C _ hA32 hB32 hR⟩

/-! ## Membership in the access logs -/

theorem mem_nestLog (lg : Nat → Nat → List Access) (rows cols : Nat) (a : Access) :
    a ∈ nestLog lg rows cols ↔ ∃ r, r < rows ∧ ∃ c, c < cols ∧ a ∈ lg r c := by
  simp only [nestLog, List.mem_flatMap]
  constructor
  · rintro ⟨⟨r, c⟩, hp, ha⟩
    obtain ⟨hr, hc⟩ := (mem_pairs _ _ r c).1 hp
    exact ⟨r, List.mem_range.1 hr, c, List.mem_range.1 hc, ha⟩
  · rintro ⟨r, hr, c, hc, ha⟩
    exact ⟨(r, c), (mem_pairs _ _ r c).2 ⟨List.mem_range.2 hr, List.mem_range.2 hc⟩, ha⟩

theorem mem_cellLog (i : Nat) (ia ib : Nat → Nat) (bf : Buf) (ks : List Nat) (a : Access) :
    a ∈ cellLog i ia ib bf ks ↔
      a = .write .result i ∨ ∃ k ∈ ks, a ∈ accLog i (ia k) bf (ib k) := by
  simp only [cellLog, List.mem_cons, List.mem_flatMap]

theorem mem_accLog (i ia : Nat) (bf : Buf) (ib : Nat) (a : Access) :
    a ∈ accLog i ia bf ib ↔
      a = .read .matrix_1 ia ∨ a = .read bf ib ∨ a = .read .result i ∨ a = .write .result i := by
  simp only [accLog, List.mem_cons, List.mem_singleton, List.not_mem_nil, or_false]

theorem u32_le (n : Nat) : u32 n ≤ n := Nat.mod_le n _

/-- With matching inner dimensions and buffers of the stated lengths, every access of the
loop nest of `basic_multiplication` is within its buffer, whatever the sizes. -/
theorem basic_ok_of_lengths (r_1 c_1 r_2 c_2 n : Nat) (h : c_1 = r_2) (hn : r_1 * c_2 ≤ n) :
    basic_ok (r_1 * c_1) (r_2 * c_2) n r_1 c_1 r_2 c_2 := by
  intro r hr c hc
  refine ⟨?_, fun k hk => ⟨?_, ?_⟩⟩
  · exact lt_of_le_of_lt (u32_le _) (lt_of_lt_of_le (index_lt hr hc) hn)
  · exact lt_of_le_of_lt (u32_le _) (index_lt hr (h ▸ hk))
  · exact lt_of_le_of_lt (u32_le _) (index_lt hk hc)

theorem pairs_nodup (rs cs : List Nat) (hrs : rs.Nodup) (hcs : cs.Nodup) :
    (pairs rs cs).Nodup :=
  List.Nodup.product hrs hcs

theorem count_write_aux (f g : Nat × Nat → Nat) (j : Nat) (ks : List (Nat × Nat)) :
    (ks.flatMap fun p => [Access.read .matrix_2 (g p), Access.write .aux (f p)]).count
        (.write .aux j) = (ks.map f).count j := by
  induction ks with
  | nil => rfl
  | cons p ks ih =>
    rw [List.flatMap_cons, List.count_append, ih, List.map_cons, List.count_cons]
    by_cases h : f p = j
    · subst h
      simp [List.count_cons, Nat.add_comm]
    · have h' : ¬ j = f p := fun e => h e.symm
      simp [List.count_cons, h, h']

/-- Under the size bound the copy loops write every index below `r_2*c_2` of `aux`
exactly once. -/
theorem copy_writes_once (r_2 c_2 j : Nat) (h32 : r_2 * c_2 ≤ 4294967296)
    (hj : j < r_2 * c_2) :
    (nestLog (copyLog r_2 c_2) r_2 c_2).count (.write .aux j) = 1 := by
  have h32' : c_2 * r_2 ≤ 4294967296 := by rw [Nat.mul_comm]; exact h32
  have e : nestLog (copyLog r_2 c_2) r_2 c_2 =
      (pairs (List.range r_2) (List.range c_2)).flatMap fun p =>
        [Access.read .matrix_2 (u32 (p.2 + p.1 * c_2)), Access.write .aux (u32 (p.1 + p.2 * r_2))] :=
    rfl
  rw [e, count_write_aux (fun p => u32 (p.1 + p.2 * r_2)) (fun p => u32 (p.2 + p.1 * c_2))]
  apply List.count_eq_one_of_mem
  · apply List.Nodup.map_on _ (pairs_nodup _ _ (List.nodup_range r_2) (List.nodup_range c_2))
    rintro ⟨r, c⟩ h1 ⟨r', c'⟩ h2 he
    obtain ⟨hr, hc⟩ := (mem_pairs _ _ r c).1 h1
    obtain ⟨hr', hc'⟩ := (mem_pairs _ _ r' c').1 h2
    rw [List.mem_range] at hr hc hr' hc'
    simp only [u32_index hc hr h32', u32_index hc' hr' h32'] at he
    obtain ⟨e1, e2⟩ := index_inj hr hr' he
    rw [e1, e2]
  · have hpos : 0 < r_2 := by
      rcases Nat.eq_zero_or_pos r_2 with h0 | h0
      · rw [h0, Nat.zero_mul] at hj
        exact absurd hj (Nat.not_lt_zero j)
      · exact h0
    have hr : j % r_2 < r_2 := Nat.mod_lt j hpos
    have hc : j / r_2 < c_2 := by
      rw [Nat.div_lt_iff_lt_mul hpos, Nat.mul_comm]
      exact hj
    refine List.mem_map.2 ⟨(j % r_2, j / r_2),
      (mem_pairs _ _ _ _).2 ⟨List.mem_range.2 hr, List.mem_range.2 hc⟩, ?_⟩
    show u32 (j % r_2 + j / r_2 * r_2) = j
    rw [u32_index hc hr h32', Nat.mod_add_div']

/-! ## The order of the reduction, without algebra -/

theorem outcome_eq_of_spec {Inv : Mem α → Prop} {f g : Mem α → Run α} {p : Prop}
    {u v : Mem α → Mem α} (hf : Spec Inv f p u) (hg : Spec Inv g p v) (m : Mem α)
    (hm : Inv m) (h : p → (u m).result = (v m).result) : outcome (f m) = outcome (g m) := by
  by_cases hp : p
  · rw [((hf m hm).1 hp).1, ((hg m hm).1 hp).1, outcome, outcome, h hp]
  · obtain ⟨ms1, e1⟩ := (hf m hm).2 hp
    obtain ⟨ms2, e2⟩ := (hg m hm).2 hp
    rw [e1, e2]
    rfl

theorem ascending_cell_eq [Zero α] [Add α] [Mul α] (i : Nat) (ia : Nat → Nat) (b : Buf)
    (ib : Nat → Nat) (len : Nat) :
    ascending_cell (α := α) i ia b ib len =
      andThen (assign_zero i) (runList (fun k => add_product i (ia k) b (ib k))
        (List.range len)) := by
  rw [ascending_cell, forLoop_one]

theorem ascending_cell_spec [Zero α] [Add α] [Mul α] (a b x n i : Nat) (ia : Nat → Nat)
    (bf : Buf) (hbf : bf ≠ .result) (ib : Nat → Nat) (len : Nat) :
    Spec (Sized a b x n) (ascending_cell (α := α) i ia bf ib len)
      (cellOk a (bufLen a b x n bf) n i ia ib len)
      (fun m => m.put i (accumulate m.matrix_1 (m.buf bf) ia ib (List.range len) 0)
        (cellLog i ia ib bf (List.range len))) := by
  rw [ascending_cell_eq]
  refine Spec.congr (zero_then_accum_spec a b x n i ia ib bf hbf (List.range len)) ?_
    (fun _ _ _ => rfl)
  simp only [cellOk, List.mem_range]

theorem accumulate_range_succ [Zero α] [Add α] [Mul α] (A X : List α) (ia ib : Nat → Nat)
    (n : Nat) :
    accumulate A X ia ib (List.range (n + 1)) 0 =
      accumulate A X ia ib (List.range' 1 n) (0 + A.getD (ia 0) 0 * X.getD (ib 0) 0) := by
  rw [List.range_eq_range', List.range'_succ]
  rfl

/-- The odd-length reduction of `optimiced_multiplication` as a fold from zero over
`k = 0, ..., r_2-1`: only `0 + x = x` is used. -/
theorem optimiced_odd_cell_fold_spec [Zero α] [Add α] [Mul α] (h0 : ∀ x : α, 0 + x = x)
    (a b x n c_1 r_2 c_2 r c : Nat) (h : r_2 % 2 = 1) :
    Spec (Sized a b x n) (optimiced_odd_cell (α := α) c_1 r_2 c_2 r c)
      (cellOk a x n (u32 (c + r * c_2)) (fun k => u32 (k + r * c_1))
        (fun k => u32 (k + c * c_2)) r_2)
      (fun m => m.put (u32 (c + r * c_2))
        (accumulate m.matrix_1 m.aux (fun k => u32 (k + r * c_1)) (fun k => u32 (k + c * c_2))
          (List.range r_2) 0)
        (optimiced_cell_log c_1 r_2 c_2 r c)) := by
  have h2 : 2 * (r_2 / 2) = r_2 - 1 := by omega
  have h3 : r_2 = (r_2 - 1) + 1 := by omega
  have hl : upPairs 1 (r_2 / 2) = List.range' 1 (r_2 - 1) := by rw [upPairs_eq, h2]
  have hlog : optimiced_cell_log c_1 r_2 c_2 r c =
      [.read .matrix_1 (u32 (r * c_1)), .read .aux (u32 (c * c_2)),
          .write .result (u32 (c + r * c_2))] ++
        (upPairs 1 (r_2 / 2)).flatMap fun k =>
          accLog (u32 (c + r * c_2)) (u32 (k + r * c_1)) .aux (u32 (k + c * c_2)) := by
    rw [optimiced_cell_log, if_neg (by omega)]
  rw [optimiced_odd_cell_eq c_1 r_2 c_2 r c h, hlog]
  refine Spec.congr (product_then_accum_spec a b x n _ _ _ _ _ _) ?_ ?_
  · rw [hl]
    simp only [cellOk, List.mem_range'_1]
    constructor
    · rintro ⟨hi, hk⟩
      have hz := hk 0 (by omega)
      simp only [Nat.zero_add] at hz
      exact ⟨⟨hz.1, hz.2, hi⟩, fun k hk' => hk k (by omega)⟩
    · rintro ⟨⟨hz, h1, hi⟩, hk⟩
      refine ⟨hi, fun k hk' => ?_⟩
      rcases Nat.eq_zero_or_pos k with rfl | hpos
      · simpa using ⟨hz, h1⟩
      · exact hk k (by omega)
  · intro m _ _
    have := accumulate_range_succ m.matrix_1 m.aux (fun k => u32 (k + r * c_1))
      (fun k => u32 (k + c * c_2)) (r_2 - 1)
    simp only [Nat.zero_add, h0] at this
    rw [hl, ← this, ← h3]

/-! ## What a statement appends to the log -/

theorem load_cases (bf : Buf) (i : Nat) (m : Mem α) :
    (∃ v, load bf i m = .ok (v, m.logged (.read bf i))) ∨
      load bf i m = .error (.OutOfBounds, m.logged (.read bf i)) := by
  unfold load
  cases (m.buf bf)[i]? with
  | none => exact Or.inr rfl
  | some v => exact Or.inl ⟨v, rfl⟩

theorem store_log (bf : Buf) (i : Nat) (v : α) (m : Mem α) :
    (finalMem (store bf i v m)).log = m.log ++ [.write bf i] := by
  unfold store
  split
  · cases bf <;> rfl
  · rfl

theorem Logs.store (Q : Access → Prop) (bf : Buf) (i : Nat) (v : α) (h : Q (.write bf i)) :
    Logs Q (store bf i v) := by
  intro m
  refine ⟨[.write bf i], store_log bf i v m, ?_⟩
  intro a ha
  rw [List.mem_singleton] at ha
  rw [ha]
  exact h

theorem Logs.of_andThen {Q : Access → Prop} {f g : Mem α → Run α} (hf : Logs Q f)
    (hg : Logs Q g) : Logs Q (andThen f g) := by
  intro m
  obtain ⟨L1, e1, h1⟩ := hf m
  unfold MatMul.andThen
  cases hfm : f m with
  | error e =>
    rw [hfm] at e1
    exact ⟨L1, e1, h1⟩
  | ok m1 =>
    rw [hfm] at e1
    obtain ⟨L2, e2, h2⟩ := hg m1
    refine ⟨L1 ++ L2, ?_, ?_⟩
    · show (finalMem (g m1)).log = m.log ++ (L1 ++ L2)
      rw [e2, show m1.log = m.log ++ L1 from e1, List.append_assoc]
    · intro a ha
      rcases List.mem_append.1 ha with h | h
      · exact h1 a h
      · exact h2 a h

theorem Logs.of_runList {κ : Type} {Q : Access → Prop} {body : κ → Mem α → Run α}
    (ks : List κ) (h : ∀ k ∈ ks, Logs Q (body k)) : Logs Q (runList body ks) := by
  induction ks with
  | nil =>
    intro m
    exact ⟨[], by simp [MatMul.runList, finalMem], fun a ha => absurd ha (List.not_mem_nil a)⟩
  | cons k ks ih =>
    have e : MatMul.runList body (k :: ks) = MatMul.andThen (body k) (MatMul.runList body ks) := rfl
    rw [e]
    exact Logs.of_andThen (h k (List.mem_cons_self k ks))
      (ih fun j hj => h j (List.mem_cons_of_mem k hj))

theorem Logs.load_then {Q : Access → Prop} (bf : Buf) (i : Nat)
    (k : α → Mem α → Run α) (hq : Q (.read bf i)) (hk : ∀ v, Logs Q (k v)) :
    Logs Q (fun m =>
      match load bf i m with
      | .error e => .error e
      | .ok (v, m1) => k v m1) := by
  intro m
  rcases load_cases bf i m with ⟨v, e⟩ | e
  · obtain ⟨L, e2, h2⟩ := hk v (m.logged (.read bf i))
    refine ⟨.read bf i :: L, ?_, ?_⟩
    · show (finalMem (match load bf i m with
        | .error e => .error e
        | .ok (v, m1) => k v m1)).log = _
      rw [e]
      show (finalMem (k v (m.logged (.read bf i)))).log = _
      rw [e2]
      simp [Mem.logged]
    · intro a ha
      rcases List.mem_cons.1 ha with h | h
      · rw [h]; exact hq
      · exact h2 a h
  · refine ⟨[.read bf i], ?_, ?_⟩
    · show (finalMem (match load bf i m with
        | .error e => .error e
        | .ok (v, m1) => k v m1)).log = _
      rw [e]
      rfl
    · intro a ha
      rw [List.mem_singleton] at ha
      rw [ha]
      exact hq

theorem Logs.add_product [Zero α] [Add α] [Mul α] (Q : Access → Prop) (i ia : Nat)
    (bf : Buf) (ib : Nat) (h : ∀ a ∈ accLog i ia bf ib, Q a) :
    Logs Q (add_product (α := α) i ia bf ib) := by
  have h1 : Q (.read .matrix_1 ia) := h _ (by simp [accLog])
  have h2 : Q (.read bf ib) := h _ (by simp [accLog])
  have h3 : Q (.read .result i) := h _ (by simp [accLog])
  have h4 : Q (.write .result i) := h _ (by simp [accLog])
  exact Logs.load_then .matrix_1 ia _ h1 fun _ =>
    Logs.load_then bf ib _ h2 fun _ =>
      Logs.load_then .result i _ h3 fun _ => Logs.store Q .result i _ h4

theorem Logs.assign_zero [Zero α] (Q : Access → Prop) (i : Nat) (h : Q (.write .result i)) :
    Logs Q (assign_zero (α := α) i) :=
  Logs.store Q .result i 0 h

theorem Logs.assign_product [Zero α] [Add α] [Mul α] (Q : Access → Prop) (i ia ib : Nat)
    (h1 : Q (.read .matrix_1 ia)) (h2 : Q (.read .aux ib)) (h3 : Q (.write .result i)) :
    Logs Q (assign_product (α := α) i ia ib) :=
  Logs.load_then .matrix_1 ia _ h1 fun _ =>
    Logs.load_then .aux ib _ h2 fun _ => Logs.store Q .result i _ h3

theorem performed_of_logs {Q : Access → Prop} {f : Mem α → Run α} (h : Logs Q f)
    (m : Mem α) : ∀ a ∈ performed m (f m), Q a := by
  obtain ⟨L, e, hL⟩ := h m
  rw [performed, e, List.drop_left]
  exact hL

/-! ## Row bodies touch only their slice of `result` -/

theorem inRow_cell {r_1 c_2 r c : Nat} (hr : r < r_1) (hc : c < c_2)
    (h32 : r_1 * c_2 ≤ 4294967296) (i ia : Nat) (bf : Buf) (hbf : bf ≠ .result) (ib : Nat)
    (hi : i = u32 (c + r * c_2)) : ∀ a ∈ accLog i ia bf ib, a.inRow c_2 r := by
  have hidx : u32 (c + r * c_2) = c + r * c_2 := u32_index hr hc h32
  have hs : (r + 1) * c_2 = r * c_2 + c_2 := Nat.succ_mul r c_2
  intro a ha
  rcases (mem_accLog _ _ _ _ a).1 ha with rfl | rfl | rfl | rfl
  · intro h; cases h
  · intro h; exact absurd h hbf
  · intro _
    show r * c_2 ≤ i ∧ i < (r + 1) * c_2
    rw [hi, hidx]; omega
  · intro _
    show r * c_2 ≤ i ∧ i < (r + 1) * c_2
    rw [hi, hidx]; omega

theorem inRow_write {r_1 c_2 r c : Nat} (hr : r < r_1) (hc : c < c_2)
    (h32 : r_1 * c_2 ≤ 4294967296) :
    (Access.write .result (u32 (c + r * c_2))).inRow c_2 r := by
  have hidx : u32 (c + r * c_2) = c + r * c_2 := u32_index hr hc h32
  have hs : (r + 1) * c_2 = r * c_2 + c_2 := Nat.succ_mul r c_2
  intro _
  show r * c_2 ≤ u32 (c + r * c_2) ∧ u32 (c + r * c_2) < (r + 1) * c_2
  rw [hidx]; omega

theorem parallel_row_logs [Zero α] [Add α] [Mul α] (r_1 c_1 r_2 c_2 r : Nat) (hr : r < r_1)
    (h32 : r_1 * c_2 ≤ 4294967296) :
    Logs (Access.inRow c_2 r) (parallel_row (α := α) c_1 r_2 c_2 r) := by
  rw [parallel_row, forLoop_one]
  refine Logs.of_runList _ fun c hc => ?_
  rw [List.mem_range] at hc
  rw [parallel_cell, forLoop_one]
  exact Logs.of_andThen (Logs.assign_zero _ _ (inRow_write hr hc h32))
    (Logs.of_runList _ fun k _ =>
      Logs.add_product _ _ _ _ _ (inRow_cell hr hc h32 _ _ _ (by decide) _ rfl))

theorem optimiced_parallel_pairs_logs [Zero α] [Add α] [Mul α] (r_1 c_1 r_2 c_2 r c : Nat)
    (hr : r < r_1) (hc : c < c_2) (h32 : r_1 * c_2 ≤ 4294967296) :
    Logs (Access.inRow c_2 r) (optimiced_parallel_pairs (α := α) c_1 r_2 c_2 r c) := by
  rw [optimiced_parallel_pairs, forLoop_two]
  exact Logs.of_runList _ fun k _ =>
    Logs.of_andThen
      (Logs.add_product _ _ _ _ _ (inRow_cell hr hc h32 _ _ _ (by decide) _ rfl))
      (Logs.add_product _ _ _ _ _ (inRow_cell hr hc h32 _ _ _ (by decide) _ rfl))

theorem optimiced_parallel_row_logs [Zero α] [Add α] [Mul α] (r_1 c_1 r_2 c_2 r : Nat)
    (hr : r < r_1) (h32 : r_1 * c_2 ≤ 4294967296) :
    Logs (Access.inRow c_2 r) (optimiced_parallel_row (α := α) c_1 r_2 c_2 r) := by
  rw [optimiced_parallel_row]
  split
  · rw [forLoop_one]
    refine Logs.of_runList _ fun c hc => ?_
    rw [List.mem_range] at hc
    rw [optimiced_parallel_even_cell]
    exact Logs.of_andThen (Logs.assign_zero _ _ (inRow_write hr hc h32))
      (optimiced_parallel_pairs_logs r_1 c_1 r_2 c_2 r c hr hc h32)
  · rw [forLoop_one]
    refine Logs.of_runList _ fun c hc => ?_
    rw [List.mem_range] at hc
    rw [optimiced_parallel_odd_cell]
    exact Logs.of_andThen (Logs.assign_zero _ _ (inRow_write hr hc h32))
      (Logs.of_andThen (optimiced_parallel_pairs_logs r_1 c_1 r_2 c_2 r c hr hc h32)
        (Logs.add_product _ _ _ _ _ (inRow_cell hr hc h32 _ _ _ (by decide) _ rfl)))

theorem inRow_disjoint {c_2 r r' : Nat} (hne : r ≠ r') {a a' : Access}
    (ha : a.inRow c_2 r) (ha' : a'.inRow c_2 r') (hb : a.buf = .result)
    (hb' : a'.buf = .result) : a.index ≠ a'.index := by
  obtain ⟨h1, h2⟩ := ha hb
  obtain ⟨h3, h4⟩ := ha' hb'
  intro he
  rw [he] at h1 h2
  rcases Nat.lt_or_gt_of_ne hne with h | h
  · have : (r + 1) * c_2 ≤ r' * c_2 := Nat.mul_le_mul_right _ h
    omega
  · have : (r' + 1) * c_2 ≤ r * c_2 := Nat.mul_le_mul_right _ h
    omega

/-! ## Row bodies in any order -/

theorem foldl_set_eq_of_mem_iff {κ : Type} (idx : κ → Nat) (val : κ → α) (ks ks' : List κ)
    (hmem : ∀ a, a ∈ ks ↔ a ∈ ks')
    (hinj : ∀ a ∈ ks, ∀ b ∈ ks, idx a = idx b → a = b) (R : List α)
    (hlt : ∀ a ∈ ks, idx a < R.length) :
    ks.foldl (fun R a => R.set (idx a) (val a)) R =
      ks'.foldl (fun R a => R.set (idx a) (val a)) R := by
  apply List.ext_getElem?
  intro j
  by_cases h : ∃ a ∈ ks, idx a = j
  · obtain ⟨a, ha, rfl⟩ := h
    rw [foldl_set_get idx val ks hinj R hlt a ha,
      foldl_set_get idx val ks'
        (fun x hx y hy => hinj x ((hmem x).2 hx) y ((hmem y).2 hy)) R
        (fun x hx => hlt x ((hmem x).2 hx)) a ((hmem a).1 ha)]
  · have h1 : ∀ a ∈ ks, idx a ≠ j := fun a ha e => h ⟨a, ha, e⟩
    rw [foldl_set_frame idx val j ks h1 R,
      foldl_set_frame idx val j ks' (fun a ha => h1 a ((hmem a).2 ha)) R]

theorem rows_eq (cell : Nat → Nat → Mem α → Run α) (order : List Nat) (cols : Nat) :
    runList (fun r => forLoop 0 cols 1 fun c => cell r c) order =
      runList (fun p : Nat × Nat => cell p.1 p.2) (pairs order (List.range cols)) := by
  simp only [forLoop_one]
  exact runList_product cell _ _

/-- Row bodies whose cells each write one value, at row-major indices that do not wrap,
have the same outcome in every order that visits the rows `0, ..., rows-1`. -/
theorem rows_outcome_perm (a b x n : Nat) (cell : Nat → Nat → Mem α → Run α)
    (ok : Nat → Nat → Prop) (val : Nat → Nat → Mem α → α) (lg : Nat → Nat → List Access)
    (rows cols : Nat)
    (hval : ∀ r c (m : Mem α) i v L, val r c (m.put i v L) = val r c m)
    (hcell : ∀ r c, Spec (Sized a b x n) (cell r c) (ok r c)
      (fun m => m.put (u32 (c + r * cols)) (val r c m) (lg r c)))
    (hok : ∀ r c, ok r c → u32 (c + r * cols) < n)
    (h32 : rows * cols ≤ 4294967296) (order : List Nat)
    (hperm : order.Perm (List.range rows)) (m : Mem α) (hm : Sized a b x n m) :
    outcome (runList (fun r => forLoop 0 cols 1 fun c => cell r c) order m) =
      outcome ((forLoop 0 rows 1 fun r => forLoop 0 cols 1 fun c => cell r c) m) := by
  rw [rows_eq, nest_eq]
  have hmem : ∀ p, p ∈ pairs order (List.range cols) ↔
      p ∈ pairs (List.range rows) (List.range cols) := by
    rintro ⟨r, c⟩
    rw [mem_pairs, mem_pairs, hperm.mem_iff]
  have S1 : Spec (Sized a b x n) _ _ _ :=
    Spec.runList (pairs order (List.range cols)) (fun p _ => hcell p.1 p.2)
  have S0 : Spec (Sized a b x n) _ _ _ :=
    Spec.runList (pairs (List.range rows) (List.range cols)) (fun p _ => hcell p.1 p.2)
  have S2 := Spec.congr S0
    (q := ∀ p ∈ pairs order (List.range cols), ok p.1 p.2)
    ⟨fun h p hp => h p ((hmem p).2 hp), fun h p hp => h p ((hmem p).1 hp)⟩
    (fun _ _ _ => rfl)
  apply outcome_eq_of_spec S1 S2 m hm
  intro hp
  have e1 := foldl_put (fun p : Nat × Nat => u32 (p.2 + p.1 * cols))
    (fun p m => val p.1 p.2 m) (fun p => lg p.1 p.2) (fun p => hval p.1 p.2)
    (pairs order (List.range cols)) m
  have e2 := foldl_put (fun p : Nat × Nat => u32 (p.2 + p.1 * cols))
    (fun p m => val p.1 p.2 m) (fun p => lg p.1 p.2) (fun p => hval p.1 p.2)
    (pairs (List.range rows) (List.range cols)) m
  show (List.foldl (fun m (p : Nat × Nat) =>
      m.put (u32 (p.2 + p.1 * cols)) (val p.1 p.2 m) (lg p.1 p.2)) m
      (pairs order (List.range cols))).result =
    (List.foldl (fun m (p : Nat × Nat) =>
      m.put (u32 (p.2 + p.1 * cols)) (val p.1 p.2 m) (lg p.1 p.2)) m
      (pairs (List.range rows) (List.range cols))).result
  rw [e1, e2]
  apply foldl_set_eq_of_mem_iff _ _ _ _ hmem
  · rintro ⟨r, c⟩ h1 ⟨r', c'⟩ h2 he
    obtain ⟨hr, hc⟩ := (mem_pairs _ _ r c).1 h1
    obtain ⟨hr', hc'⟩ := (mem_pairs _ _ r' c').1 h2
    rw [hperm.mem_iff, List.mem_range] at hr hr'
    rw [List.mem_range] at hc hc'
    simp only [u32_index hr hc h32, u32_index hr' hc' h32] at he
    obtain ⟨e1, e2⟩ := index_inj hc hc' he
    rw [e1, e2]
  · rintro ⟨r, c⟩ h1
    rw [hm.2.2.2]
    exact hok r c (hp (r, c) h1)

theorem optimiced_parallel_row_even [Zero α] [Add α] [Mul α] (c_1 r_2 c_2 : Nat)
    (h : r_2 % 2 = 0) :
    optimiced_parallel_row (α := α) c_1 r_2 c_2 =
      fun r => forLoop 0 c_2 1 fun c => optimiced_parallel_even_cell c_1 r_2 c_2 r c := by
  funext r
  rw [optimiced_parallel_row, if_pos h]

theorem optimiced_parallel_row_odd [Zero α] [Add α] [Mul α] (c_1 r_2 c_2 : Nat)
    (h : ¬ r_2 % 2 = 0) :
    optimiced_parallel_row (α := α) c_1 r_2 c_2 =
      fun r => forLoop 0 c_2 1 fun c => optimiced_parallel_odd_cell c_1 r_2 c_2 r c := by
  funext r
  rw [optimiced_parallel_row, if_neg h]

/-- The multiply phase of `optimiced_parallel_multiplication` is the loop over its row
bodies. -/
theorem optimiced_parallel_multiply_rows [Zero α] [Add α] [Mul α] (r_1 c_1 r_2 c_2 : Nat) :
    optimiced_parallel_multiply (α := α) r_1 c_1 r_2 c_2 =
      forLoop 0 r_1 1 (optimiced_parallel_row c_1 r_2 c_2) := by
  by_cases h : r_2 % 2 = 0
  · rw [optimiced_parallel_multiply, if_pos h, optimiced_parallel_row_even c_1 r_2 c_2 h]
  · rw [optimiced_parallel_multiply, if_neg h, optimiced_parallel_row_odd c_1 r_2 c_2 h]

theorem parallel_rows_perm [Semiring α] (r_1 c_1 r_2 c_2 : Nat)
    (h32 : r_1 * c_2 ≤ 4294967296) (order : List Nat)
    (hperm : order.Perm (List.range r_1)) (m : Mem α) :
    outcome (runList (parallel_row c_1 r_2 c_2) order m) =
      outcome (forLoop 0 r_1 1 (fun r => parallel_row c_1 r_2 c_2 r) m) :=
  rows_outcome_perm m.matrix_1.length m.matrix_2.length m.aux.length m.result.length
    (parallel_cell c_1 r_2 c_2) _
    (fun r c m => dot m.matrix_1 m.matrix_2 (fun k => u32 (k + r * c_1))
      (fun k => u32 (c + k * c_2)) r_2)
    (basic_cell_log c_1 r_2 c_2) r_1 c_2 (fun _ _ _ _ _ _ => rfl)
    (fun r c => parallel_cell_spec _ _ _ _ c_1 r_2 c_2 r c) (fun _ _ h => h.1) h32 order hperm
    m ⟨rfl, rfl, rfl, rfl⟩

theorem optimiced_parallel_rows_perm [Semiring α] (r_1 c_1 r_2 c_2 : Nat)
    (h32 : r_1 * c_2 ≤ 4294967296) (order : List Nat)
    (hperm : order.Perm (List.range r_1)) (m : Mem α) :
    outcome (runList (optimiced_parallel_row c_1 r_2 c_2) order m) =
      outcome (optimiced_parallel_multiply r_1 c_1 r_2 c_2 m) := by
  rw [optimiced_parallel_multiply_rows]
  by_cases h : r_2 % 2 = 0
  · rw [optimiced_parallel_row_even c_1 r_2 c_2 h]
    exact rows_outcome_perm m.matrix_1.length m.matrix_2.length m.aux.length m.result.length
      (optimiced_parallel_even_cell c_1 r_2 c_2) _
      (fun r c m => dot m.matrix_1 m.aux (fun k => u32 (k + r * c_1))
        (fun k => u32 (k + c * c_2)) r_2)
      _ r_1 c_2 (fun _ _ _ _ _ _ => rfl)
      (fun r c => optimiced_parallel_even_cell_spec _ _ _ _ c_1 r_2 c_2 r c h)
      (fun _ _ h => h.1) h32 order hperm m ⟨rfl, rfl, rfl, rfl⟩
  · rw [optimiced_parallel_row_odd c_1 r_2 c_2 h]
    exact rows_outcome_perm m.matrix_1.length m.matrix_2.length m.aux.length m.result.length
      (optimiced_parallel_odd_cell c_1 r_2 c_2) _
      (fun r c m => dot m.matrix_1 m.aux (fun k => u32 (k + r * c_1))
        (fun k => u32 (k + c * c_2)) r_2)
      _ r_1 c_2 (fun _ _ _ _ _ _ => rfl)
      (fun r c => optimiced_parallel_odd_cell_spec _ _ _ _ c_1 r_2 c_2 r c (by omega))
      (fun _ _ h => h.1) h32 order hperm m ⟨rfl, rfl, rfl, rfl⟩

/-! ## The printing of `try_all_functions` -/

theorem print_loop_ok (c_2 : Nat) : ∀ (fuel i : Nat) (m : Mem α) (out : List (Out α)),
    i + fuel = 5 → min c_2 5 ≤ m.result.length →
    ∃ L, print_loop c_2 fuel i (m, out) =
      .ok (m.withReads L, out ++ ((m.result.drop i).take (min c_2 5 - i)).map Out.value)
  | 0, i, m, out, hi, _ => by
    have h0 : min c_2 5 - i = 0 := by omega
    refine ⟨[], ?_⟩
    rw [print_loop, h0]
    simp [Mem.withReads]
  | fuel + 1, i, m, out, hi, hn => by
    rw [print_loop]
    by_cases hc : i < c_2 ∧ i < 5
    · have hlt : i < m.result.length := by omega
      obtain ⟨L, e⟩ := print_loop_ok c_2 fuel (i + 1) (m.logged (.read .result i))
        (out ++ [.value m.result[i]]) (by omega) hn
      have hk : min c_2 5 - i = (min c_2 5 - (i + 1)) + 1 := by omega
      refine ⟨.read .result i :: L, ?_⟩
      rw [if_pos hc]
      have hl : load .result i m = .ok (m.result[i], m.logged (.read .result i)) := by
        simp [load, Mem.buf, List.getElem?_eq_getElem hlt]
      rw [hl]
      show print_loop c_2 fuel (i + 1) (m.logged (.read .result i),
        out ++ [.value m.result[i]]) = _
      rw [e, hk, List.drop_eq_getElem_cons hlt, List.take_succ_cons]
      simp [Mem.withReads, Mem.logged, List.append_assoc]
    · have h0 : min c_2 5 - i = 0 := by omega
      refine ⟨[], ?_⟩
      rw [if_neg hc, h0]
      simp [Mem.withReads]

theorem print_values_ok (c_2 : Nat) (m : Mem α) (out : List (Out α))
    (hn : min c_2 5 ≤ m.result.length) :
    ∃ L, print_values c_2 (m, out) =
      .ok (m.withReads L, out ++ (m.result.take (min c_2 5)).map Out.value) := by
  obtain ⟨L, e⟩ := print_loop_ok c_2 5 0 m out rfl hn
  exact ⟨L, by rw [print_values, e]; simp⟩

/-- A block of `try_all_functions` whose multiplier call succeeds with at least
`min c_2 5` entries in `result`. -/
theorem timed_call_ok (c_2 : Nat) (f : Mem α → Run α) (l : Label) (s m' : Mem α)
    (out : List (Out α)) (hf : f s = .ok m') (hn : min c_2 5 ≤ m'.result.length) :
    ∃ L, timed_call c_2 f l (s, out) = .ok (m'.withReads L, out ++ block c_2 l m'.result) := by
  obtain ⟨L, e⟩ := print_values_ok c_2 m' out hn
  refine ⟨L, ?_⟩
  rw [timed_call]
  simp only [hf, e, block, List.append_assoc]

theorem basic_result_length [Semiring α] (A B : List α) (r_1 c_1 r_2 c_2 : Nat) (R : List α) :
    (basic_result A B r_1 c_1 r_2 c_2 R).length = R.length := by
  rw [basic_result, fill_length]

theorem optimiced_result_length [Semiring α] (A X : List α) (r_1 c_1 r_2 c_2 : Nat)
    (R : List α) : (optimiced_result A X r_1 c_1 r_2 c_2 R).length = R.length := by
  rw [optimiced_result, fill_length]

/-! ## Dimensions beyond the `unsigned int` range -/

theorem getD_replicate_append_left (n k : Nat) (a d : α) (l : List α) (h : k < n) :
    (List.replicate n a ++ l).getD k d = a := by
  rw [List.getD_eq_getElem?_getD,
    List.getElem?_append_left (by rw [List.length_replicate]; exact h),
    List.getElem?_replicate, if_pos h]
  rfl

theorem getD_replicate_append_right (n m k : Nat) (a b d : α) (h : k < m) :
    (List.replicate n a ++ List.replicate m b).getD (n + k) d = b := by
  rw [List.getD_eq_getElem?_getD,
    List.getElem?_append_right (by rw [List.length_replicate]; omega),
    List.length_replicate, Nat.add_sub_cancel_left, List.getElem?_replicate, if_pos h]
  rfl

theorem getD_replicate_lt (n k : Nat) (a d : α) (h : k < n) :
    (List.replicate n a).getD k d = a := by
  rw [List.getD_eq_getElem?_getD, List.getElem?_replicate, if_pos h]
  rfl

/-- What `basic_multiplication` leaves in an output cell when only the result indices are
known not to wrap: the operand indices are the `unsigned int` values. -/
theorem basic_result_get_u32 [Semiring α] (A B R : List α) (r_1 c_1 r_2 c_2 : Nat)
    (hR : r_1 * c_2 ≤ 4294967296) (hn : r_1 * c_2 ≤ R.length)
    (row col : Nat) (hrow : row < r_1) (hcol : col < c_2) :
    (basic_result A B r_1 c_1 r_2 c_2 R)[col + row * c_2]? =
      some (∑ k ∈ Finset.range r_2,
        A.getD (u32 (k + row * c_1)) 0 * B.getD (u32 (col + k * c_2)) 0) :=
  (fill_rowmajor
    (fun r c => dot A B (fun k => u32 (k + r * c_1)) (fun k => u32 (c + k * c_2)) r_2)
    r_1 c_2 R hR hn).1 row hrow col hcol

/-- A run of `basic_multiplication` on buffers of the stated sizes succeeds, whatever the
dimensions. -/
theorem basic_multiplication_ok [Semiring α] (r_1 c_1 r_2 c_2 : Nat) (m : Mem α)
    (hdim : c_1 = r_2) (hA : m.matrix_1.length = r_1 * c_1)
    (hB : m.matrix_2.length = r_2 * c_2) (hR : r_1 * c_2 ≤ m.result.length) :
    basic_multiplication r_1 c_1 r_2 c_2 m = .ok (basic_final r_1 c_1 r_2 c_2 m) := by
  have hok : basic_ok m.matrix_1.length m.matrix_2.length m.result.length r_1 c_1 r_2 c_2 := by
    rw [hA, hB]
    exact basic_ok_of_lengths r_1 c_1 r_2 c_2 _ hdim hR
  exact (basic_multiplication_run r_1 c_1 r_2 c_2 m hdim).1 hok

/-- A scratch buffer whose size `r_2*c_2` wraps to 0 cannot take the first element of a
non-empty right operand. -/
theorem not_copy_ok_of_wrap (b r_2 c_2 : Nat) (h0 : u32 (r_2 * c_2) = 0) (hr : 0 < r_2)
    (hc : 0 < c_2) : ¬ copy_ok b (u32 (r_2 * c_2)) r_2 c_2 := by
  intro h
  have h1 := (h 0 hr 0 hc).2
  rw [h0] at h1
  exact Nat.not_lt_zero _ h1

theorem optimiced_copy_wraps [Zero α] (r_2 c_2 : Nat) (m : Mem α)
    (h0 : u32 (r_2 * c_2) = 0) (hr : 0 < r_2) (hc : 0 < c_2) :
    ∃ ms, optimiced_copy r_2 c_2 (malloc_aux (u32 (r_2 * c_2)) m) =
      .error (.OutOfBounds, ms) :=
  (copy_nest_spec (α := α) m.matrix_1.length m.matrix_2.length (u32 (r_2 * c_2))
    m.result.length r_2 c_2 (malloc_aux (u32 (r_2 * c_2)) m)
    ⟨rfl, rfl, by simp [malloc_aux], rfl⟩).2 (not_copy_ok_of_wrap _ r_2 c_2 h0 hr hc)

/-- Both optimiced multipliers stop at a write outside the scratch buffer when its size
`r_2*c_2` wraps to 0. -/
theorem optimiced_alloc_wraps [Semiring α] (r_1 c_1 r_2 c_2 : Nat) (m : Mem α)
    (hdim : c_1 = r_2) (h0 : u32 (r_2 * c_2) = 0) (hr : 0 < r_2) (hc : 0 < c_2) :
    outcome (optimiced_multiplication r_1 c_1 r_2 c_2 m) = .error .OutOfBounds ∧
      outcome (optimiced_parallel_multiplication r_1 c_1 r_2 c_2 m) =
        .error .OutOfBounds := by
  have hn : ¬ (copy_ok m.matrix_2.length (u32 (r_2 * c_2)) r_2 c_2 ∧
      optimiced_ok m.matrix_1.length (u32 (r_2 * c_2)) m.result.length r_1 c_1 r_2 c_2) :=
    fun h => not_copy_ok_of_wrap _ r_2 c_2 h0 hr hc h.1
  obtain ⟨ms, e⟩ := (optimiced_multiplication_run r_1 c_1 r_2 c_2 m hdim).2 hn
  obtain ⟨ms', e'⟩ := (optimiced_parallel_multiplication_run r_1 c_1 r_2 c_2 m hdim).2 hn
  rw [e, e']
  exact ⟨rfl, rfl⟩

/-! ## The first access of a row body -/

theorem andThen_first {Q : Access → Prop} {f g : Mem α → Run α} (a : Access)
    (hf : ∀ m, ∃ L, (finalMem (f m)).log = m.log ++ a :: L) (hg : Logs Q g) :
    ∀ m, ∃ L, (finalMem (andThen f g m)).log = m.log ++ a :: L := by
  intro m
  obtain ⟨L, e⟩ := hf m
  unfold MatMul.andThen
  cases hfm : f m with
  | error x =>
    rw [hfm] at e
    exact ⟨L, e⟩
  | ok m' =>
    rw [hfm] at e
    obtain ⟨L', e', _⟩ := hg m'
    refine ⟨L ++ L', ?_⟩
    show (finalMem (g m')).log = _
    rw [e']
    have e2 : m'.log = m.log ++ a :: L := e
    rw [e2, List.append_assoc, List.cons_append]

theorem logs_true_add_product [Zero α] [Add α] [Mul α] (i ia : Nat) (bf : Buf) (ib : Nat) :
    Logs (fun _ => True) (add_product (α := α) i ia bf ib) :=
  Logs.add_product _ _ _ _ _ (fun _ _ => trivial)

/-- The body of a row of `parallel_multiplication` with at least one column starts by
writing `result[0 + r*c_2]`, the index being the `unsigned int` value. -/
theorem parallel_row_first_write [Zero α] [Add α] [Mul α] (c_1 r_2 c_2 r : Nat)
    (hc : 0 < c_2) (m : Mem α) :
    Access.write .result (u32 (0 + r * c_2)) ∈
      performed m (parallel_row c_1 r_2 c_2 r m) := by
  obtain ⟨n, rfl⟩ : ∃ n, c_2 = n + 1 := ⟨c_2 - 1, by omega⟩
  have hcell : ∀ c, Logs (fun _ => True) (parallel_cell (α := α) c_1 r_2 (n + 1) r c) := by
    intro c
    rw [parallel_cell, forLoop_one]
    exact Logs.of_andThen (Logs.assign_zero _ _ trivial)
      (Logs.of_runList _ fun k _ => logs_true_add_product _ _ _ _)
  have hfirst : ∀ m : Mem α, ∃ L,
      (finalMem (parallel_cell c_1 r_2 (n + 1) r 0 m)).log =
        m.log ++ Access.write .result (u32 (0 + r * (n + 1))) :: L := by
    rw [parallel_cell]
    refine andThen_first (Q := fun _ => True) _ (fun m => ⟨[], ?_⟩) ?_
    · exact store_log .result _ 0 m
    · rw [forLoop_one]
      exact Logs.of_runList _ fun k _ => logs_true_add_product _ _ _ _
  have hrow : parallel_row (α := α) c_1 r_2 (n + 1) r =
      andThen (parallel_cell c_1 r_2 (n + 1) r 0)
        (runList (fun c => parallel_cell c_1 r_2 (n + 1) r c)
          (List.map Nat.succ (List.range n))) := by
    rw [parallel_row, forLoop_one, List.range_succ_eq_map]
    rfl
  obtain ⟨L, e⟩ := andThen_first (Q := fun _ => True) _ hfirst
    (Logs.of_runList (List.map Nat.succ (List.range n)) fun c _ => hcell c) m
  rw [performed, hrow, e, List.drop_left]
  exact List.mem_cons_self _ _

/-! ## Runs that differ in the prior content of `result` -/

/-- The outcome of `basic_multiplication` on buffers of the stated sizes, whatever the
dimensions. -/
theorem basic_outcome [Semiring α] (r_1 c_1 r_2 c_2 : Nat) (A B R : List α) (heap : Nat → α)
    (hdim : c_1 = r_2) (hA : A.length = r_1 * c_1) (hB : B.length = r_2 * c_2)
    (hR : r_1 * c_2 ≤ R.length) :
    outcome (basic_multiplication r_1 c_1 r_2 c_2 (Mem.init A B R heap)) =
      .ok (basic_result A B r_1 c_1 r_2 c_2 R) := by
  rw [basic_multiplication_ok r_1 c_1 r_2 c_2 (Mem.init A B R heap) hdim hA hB hR]
  rfl

/-- With `c_1 = 65536` the row index `65536` wraps: `basic_multiplication` computes
`result[0 + 65536*1]` from the entries `matrix_1[k]`, `k < 65536`, of row 0. -/
theorem basic_multiplication_row_wrap [Semiring α] (A B R : List α) (heap : Nat → α)
    (hA : A.length = 65537 * 65536) (hB : B.length = 65536 * 1)
    (hR : 65537 * 1 ≤ R.length) :
    ∃ S, outcome (basic_multiplication 65537 65536 65536 1 (Mem.init A B R heap)) = .ok S ∧
      S[0 + 65536 * 1]? = some (∑ k ∈ Finset.range 65536, A.getD k 0 * B.getD k 0) := by
  refine ⟨basic_result A B 65537 65536 65536 1 R,
    basic_outcome 65537 65536 65536 1 A B R heap (Eq.refl 65536) hA hB hR, ?_⟩
  refine (basic_result_get_u32 A B R 65537 65536 65536 1 (by decide) hR 65536 0 (by decide)
    (by decide)).trans (congrArg some (Finset.sum_congr rfl ?_))
  intro k hk
  rw [Finset.mem_range] at hk
  have e1 : u32 (k + 65536 * 65536) = k := by unfold u32; omega
  have e2 : u32 (0 + k * 1) = k := by unfold u32; omega
  rw [e1, e2]

theorem optimiced_parallel_copy_eq (r_2 c_2 : Nat) :
    optimiced_parallel_copy (α := α) r_2 c_2 = optimiced_copy r_2 c_2 := rfl

theorem malloc_aux_length (n : Nat) (m : Mem α) : (malloc_aux n m).aux.length = n := by
  simp [malloc_aux]

/-- Both copy phases stop at a write outside the scratch buffer when its size wraps to 0. -/
theorem copy_outcome_wraps [Zero α] (r_2 c_2 : Nat) (m : Mem α)
    (h0 : u32 (r_2 * c_2) = 0) (hr : 0 < r_2) (hc : 0 < c_2) :
    outcome (optimiced_copy r_2 c_2 (malloc_aux (u32 (r_2 * c_2)) m)) =
        .error .OutOfBounds ∧
      outcome (optimiced_parallel_copy r_2 c_2 (malloc_aux (u32 (r_2 * c_2)) m)) =
        .error .OutOfBounds := by
  obtain ⟨ms, e⟩ := optimiced_copy_wraps r_2 c_2 m h0 hr hc
  rw [optimiced_parallel_copy_eq, e]
  exact ⟨rfl, rfl⟩

/-- On buffers of `r_1*c_1`, `r_2*c_2` and `r_1*c_2` entries with `c_1 = r_2`, a result of
at least `min c_2 5` entries and every access of the two optimiced multipliers within its
buffer, `try_all_functions` runs to its end and prints four blocks, in the order Normal,
Optimiced, Parallel, Final.  Block `k` is the first `min c_2 5` entries of the result
`R_k` of the `k`-th multiplier, then the line break and the timing line; each multiplier
is called with the same dimensions on the same operands, the result buffer being the one
the previous call left. -/
theorem try_all_functions_ok [Semiring α] (r_1 c_1 r_2 c_2 : Nat) (m : Mem α)
    (hdim : c_1 = r_2) (hA : m.matrix_1.length = r_1 * c_1)
    (hB : m.matrix_2.length = r_2 * c_2) (hR : m.result.length = r_1 * c_2)
    (hn : min c_2 5 ≤ r_1 * c_2)
    (hok : copy_ok (r_2 * c_2) (u32 (r_2 * c_2)) r_2 c_2 ∧
      optimiced_ok (r_1 * c_1) (u32 (r_2 * c_2)) (r_1 * c_2) r_1 c_1 r_2 c_2) :
    ∃ R_1 R_2 R_3 R_4 : List α,
      outcome (basic_multiplication r_1 c_1 r_2 c_2 m) = .ok R_1 ∧
      outcome (optimiced_multiplication r_1 c_1 r_2 c_2 { m with result := R_1 }) =
        .ok R_2 ∧
      outcome (parallel_multiplication r_1 c_1 r_2 c_2 { m with result := R_2 }) =
        .ok R_3 ∧
      outcome (optimiced_parallel_multiplication r_1 c_1 r_2 c_2 { m with result := R_3 }) =
        .ok R_4 ∧
      (R_1.take (min c_2 5)).length = min c_2 5 ∧
      (R_2.take (min c_2 5)).length = min c_2 5 ∧
      (R_3.take (min c_2 5)).length = min c_2 5 ∧
      (R_4.take (min c_2 5)).length = min c_2 5 ∧
      stopped (try_all_functions r_1 c_1 r_2 c_2 m) = none ∧
      printed (try_all_functions r_1 c_1 r_2 c_2 m) =
        block c_2 .Normal R_1 ++ block c_2 .Optimiced R_2 ++ block c_2 .Parallel R_3 ++
          block c_2 .Final R_4 := by
  subst hdim
  have hb : ∀ s : Mem α, s.matrix_1.length = r_1 * c_1 → s.matrix_2.length = c_1 * c_2 →
      s.result.length = r_1 * c_2 →
      basic_ok s.matrix_1.length s.matrix_2.length s.result.length r_1 c_1 c_1 c_2 := by
    intro s h1 h2 h3
    rw [h1, h2, h3]
    exact basic_ok_of_lengths r_1 c_1 c_1 c_2 _ rfl (le_refl _)
  have ho : ∀ s : Mem α, s.matrix_1.length = r_1 * c_1 → s.matrix_2.length = c_1 * c_2 →
      s.result.length = r_1 * c_2 →
      copy_ok s.matrix_2.length (u32 (c_1 * c_2)) c_1 c_2 ∧
        optimiced_ok s.matrix_1.length (u32 (c_1 * c_2)) s.result.length r_1 c_1 c_1 c_2 := by
    intro s h1 h2 h3
    rw [h1, h2, h3]
    exact hok
  have lb : ∀ s : Mem α, s.result.length = r_1 * c_2 →
      (basic_final r_1 c_1 c_1 c_2 s).result.length = r_1 * c_2 := by
    intro s h
    show (basic_result s.matrix_1 s.matrix_2 r_1 c_1 c_1 c_2 s.result).length = r_1 * c_2
    rw [basic_result_length, h]
  have lo : ∀ lg (s : Mem α), s.result.length = r_1 * c_2 →
      (optimiced_final lg r_1 c_1 c_1 c_2 s).result.length = r_1 * c_2 := by
    intro lg s h
    show (optimiced_result s.matrix_1 (transposed s.matrix_2 c_1 c_2
      ((List.range (u32 (c_1 * c_2))).map s.heap)) r_1 c_1 c_1 c_2 s.result).length = r_1 * c_2
    rw [optimiced_result_length, h]
  have ht : ∀ R : List α, R.length = r_1 * c_2 → (R.take (min c_2 5)).length = min c_2 5 := by
    intro R h
    rw [List.length_take, h]
    exact Nat.min_eq_left hn
  -- the four calls, each on the state the previous block left
  have e1 := (basic_multiplication_run r_1 c_1 c_1 c_2 m rfl).1 (hb m hA hB hR)
  have l1 := lb m hR
  obtain ⟨L1, t1⟩ := timed_call_ok c_2 _ .Normal m _ [] e1 (by rw [l1]; exact hn)
  have e2 := (optimiced_multiplication_run r_1 c_1 c_1 c_2
    ((basic_final r_1 c_1 c_1 c_2 m).withReads L1) rfl).1 (ho _ hA hB l1)
  have l2 := lo (optimiced_cell_log c_1 c_1 c_2)
    ((basic_final r_1 c_1 c_1 c_2 m).withReads L1) l1
  obtain ⟨L2, t2⟩ := timed_call_ok c_2 _ .Optimiced _ _
    ([] ++ block c_2 .Normal (basic_final r_1 c_1 c_1 c_2 m).result) e2 (by rw [l2]; exact hn)
  have e3 := (parallel_multiplication_run r_1 c_1 c_1 c_2
    ((optimiced_final (optimiced_cell_log c_1 c_1 c_2) r_1 c_1 c_1 c_2
      ((basic_final r_1 c_1 c_1 c_2 m).withReads L1)).withReads L2) rfl).1 (hb _ hA hB l2)
  have l3 := lb ((optimiced_final (optimiced_cell_log c_1 c_1 c_2) r_1 c_1 c_1 c_2
      ((basic_final r_1 c_1 c_1 c_2 m).withReads L1)).withReads L2) l2
  obtain ⟨L3, t3⟩ := timed_call_ok c_2 _ .Parallel _ _
    ([] ++ block c_2 .Normal (basic_final r_1 c_1 c_1 c_2 m).result ++
      block c_2 .Optimiced (optimiced_final (optimiced_cell_log c_1 c_1 c_2) r_1 c_1 c_1 c_2
        ((basic_final r_1 c_1 c_1 c_2 m).withReads L1)).result) e3 (by rw [l3]; exact hn)
  have e4 := (optimiced_parallel_multiplication_run r_1 c_1 c_1 c_2
    ((basic_final r_1 c_1 c_1 c_2
      ((optimiced_final (optimiced_cell_log c_1 c_1 c_2) r_1 c_1 c_1 c_2
        ((basic_final r_1 c_1 c_1 c_2 m).withReads L1)).withReads L2)).withReads L3) rfl).1
    (ho _ hA hB l3)
  have l4 := lo (optimiced_parallel_cell_log c_1 c_1 c_2)
    ((basic_final r_1 c_1 c_1 c_2
      ((optimiced_final (optimiced_cell_log c_1 c_1 c_2) r_1 c_1 c_1 c_2
        ((basic_final r_1 c_1 c_1 c_2 m).withReads L1)).withReads L2)).withReads L3) l3
  obtain ⟨L4, t4⟩ := timed_call_ok c_2 _ .Final _ _
    ([] ++ block c_2 .Normal (basic_final r_1 c_1 c_1 c_2 m).result ++
      block c_2 .Optimiced (optimiced_final (optimiced_cell_log c_1 c_1 c_2) r_1 c_1 c_1 c_2
        ((basic_final r_1 c_1 c_1 c_2 m).withReads L1)).result ++
      block c_2 .Parallel (basic_final r_1 c_1 c_1 c_2
        ((optimiced_final (optimiced_cell_log c_1 c_1 c_2) r_1 c_1 c_1 c_2
          ((basic_final r_1 c_1 c_1 c_2 m).withReads L1)).withReads L2)).result)
    e4 (by rw [l4]; exact hn)
  obtain ⟨mf, out, run, hout⟩ : ∃ mf out, try_all_functions r_1 c_1 c_1 c_2 m = .ok (mf, out) ∧
      out = block c_2 .Normal (basic_final r_1 c_1 c_1 c_2 m).result ++
        block c_2 .Optimiced (optimiced_final (optimiced_cell_log c_1 c_1 c_2) r_1 c_1 c_1 c_2
          ((basic_final r_1 c_1 c_1 c_2 m).withReads L1)).result ++
        block c_2 .Parallel (basic_final r_1 c_1 c_1 c_2
          ((optimiced_final (optimiced_cell_log c_1 c_1 c_2) r_1 c_1 c_1 c_2
            ((basic_final r_1 c_1 c_1 c_2 m).withReads L1)).withReads L2)).result ++
        block c_2 .Final (optimiced_final (optimiced_parallel_cell_log c_1 c_1 c_2)
          r_1 c_1 c_1 c_2 ((basic_final r_1 c_1 c_1 c_2
            ((optimiced_final (optimiced_cell_log c_1 c_1 c_2) r_1 c_1 c_1 c_2
              ((basic_final r_1 c_1 c_1 c_2 m).withReads L1)).withReads L2)).withReads
                L3)).result := by
    refine ⟨?mf, ?out, ?run, ?eq⟩
    case run =>
      rw [try_all_functions, t1]
      simp only []
      rw [t2]
      simp only []
      rw [t3]
      exact t4
    case eq => simp only [List.nil_append]
  refine ⟨_, _, _, _, ?_, ?_, ?_, ?_, ht _ l1, ht _ l2, ht _ l3, ht _ l4, ?_, ?_⟩
  · rw [e1]
    rfl
  · rw [(optimiced_multiplication_run r_1 c_1 c_1 c_2
      { m with result := (basic_final r_1 c_1 c_1 c_2 m).result } rfl).1 (ho _ hA hB l1)]
    rfl
  · rw [(parallel_multiplication_run r_1 c_1 c_1 c_2
      { m with result := (optimiced_final (optimiced_cell_log c_1 c_1 c_2) r_1 c_1 c_1 c_2
        ((basic_final r_1 c_1 c_1 c_2 m).withReads L1)).result } rfl).1 (hb _ hA hB l2)]
    rfl
  · rw [(optimiced_parallel_multiplication_run r_1 c_1 c_1 c_2
      { m with result := (basic_final r_1 c_1 c_1 c_2
        ((optimiced_final (optimiced_cell_log c_1 c_1 c_2) r_1 c_1 c_1 c_2
          ((basic_final r_1 c_1 c_1 c_2 m).withReads L1)).withReads L2)).result } rfl).1
      (ho _ hA hB l3)]
    rfl
  · rw [run]
    rfl
  · rw [run, hout]
    rfl

/-! ## The claims -/

/-- C1 (counterexample): for `r_1 = 65537`, `c_1 = r_2 = 65536`, `c_2 = 1` the operands
`A` (`2^32` zeros followed by 65536 ones, so that row 65536 is all ones) and `B` (65536
ones) have `r_1*c_1` and `r_2*c_2` entries.  `basic_multiplication` succeeds, but for row
65536 it reads `matrix_1[(k + 65536*65536) mod 2^32] = matrix_1[k]`, a zero of row 0, and
leaves `result[0 + 65536*1] = 0`, where the sum of the claim is 65536. -/
theorem basic_multiplication_wraps_row :
    (List.replicate 4294967296 (0 : ℤ) ++ List.replicate 65536 1).length = 65537 * 65536 ∧
      (List.replicate 65536 (1 : ℤ)).length = 65536 * 1 ∧
      (∃ R, outcome (basic_multiplication 65537 65536 65536 1
          (Mem.init (List.replicate 4294967296 0 ++ List.replicate 65536 1)
            (List.replicate 65536 1) (List.replicate 65537 0) (fun _ => (0 : ℤ)))) = .ok R ∧
        R[0 + 65536 * 1]? = some 0) ∧
      (∑ k ∈ Finset.range 65536,
        (List.replicate 4294967296 (0 : ℤ) ++ List.replicate 65536 1).getD
            (k + 65536 * 65536) 0 *
          (List.replicate 65536 (1 : ℤ)).getD (0 + k * 1) 0) = 65536 := by
  have hA : (List.replicate 4294967296 (0 : ℤ) ++ List.replicate 65536 1).length =
      65537 * 65536 := by
    rw [List.length_append, List.length_replicate, List.length_replicate]
  have hB : (List.replicate 65536 (1 : ℤ)).length = 65536 * 1 := by
    rw [List.length_replicate]
  have hR : 65537 * 1 ≤ (List.replicate 65537 (0 : ℤ)).length := by
    rw [List.length_replicate]
  have hzero : (∑ k ∈ Finset.range 65536,
      (List.replicate 4294967296 (0 : ℤ) ++ List.replicate 65536 1).getD k 0 *
        (List.replicate 65536 (1 : ℤ)).getD k 0) = 0 := by
    apply Finset.sum_eq_zero
    intro k hk
    rw [Finset.mem_range] at hk
    rw [getD_replicate_append_left 4294967296 k 0 0 _ (by omega), zero_mul]
  have hterm : ∀ k ∈ Finset.range 65536,
      (List.replicate 4294967296 (0 : ℤ) ++ List.replicate 65536 1).getD
          (k + 65536 * 65536) 0 *
        (List.replicate 65536 (1 : ℤ)).getD (0 + k * 1) 0 = 1 := by
    intro k hk
    rw [Finset.mem_range] at hk
    have e1 : k + 65536 * 65536 = 4294967296 + k := by omega
    have e2 : 0 + k * 1 = k := by omega
    rw [e1, e2, getD_replicate_append_right 4294967296 65536 k 0 1 0 hk,
      getD_replicate_lt 65536 k 1 0 hk, mul_one]
  obtain ⟨S, h1, h2⟩ := basic_multiplication_row_wrap
    (List.replicate 4294967296 (0 : ℤ) ++ List.replicate 65536 1) (List.replicate 65536 1)
    (List.replicate 65537 0) (fun _ => (0 : ℤ)) hA hB hR
  refine ⟨hA, hB, ⟨S, h1, ?_⟩, ?_⟩
  · rw [h2, hzero]
  · rw [Finset.sum_congr rfl hterm]
    simp

/-- C1 (amended): for matching inner dimensions `c_1 = r_2`, operands of `r_1*c_1` and `r_2*c_2`
entries, a result buffer of at least `r_1*c_2` entries, and element counts that fit the
`unsigned int` index arithmetic, `basic_multiplication` succeeds and leaves in
`result[col + row*c_2]` the exact sum over `k < r_2` of
`matrix_1[k + row*c_1] * matrix_2[col + k*c_2]`, for every `row < r_1` and `col < c_2`
(the empty sum being 0). -/
theorem basic_multiplication_dot_product [Semiring α] (r_1 c_1 r_2 c_2 : Nat) (m : Mem α)
    (hdim : c_1 = r_2) (hA : m.matrix_1.length = r_1 * c_1)
    (hB : m.matrix_2.length = r_2 * c_2) (hR : r_1 * c_2 ≤ m.result.length)
    (hA32 : r_1 * c_1 ≤ 4294967296) (hB32 : r_2 * c_2 ≤ 4294967296)
    (hR32 : r_1 * c_2 ≤ 4294967296) :
    ∃ m', basic_multiplication r_1 c_1 r_2 c_2 m = .ok m' ∧
      ∀ row, row < r_1 → ∀ col, col < c_2 →
        m'.result[col + row * c_2]? =
          some (∑ k ∈ Finset.range r_2,
            m.matrix_1.getD (k + row * c_1) 0 * m.matrix_2.getD (col + k * c_2) 0) := by
  have hok : basic_ok m.matrix_1.length m.matrix_2.length m.result.length r_1 c_1 r_2 c_2 := by
    rw [hA, hB]
    exact basic_ok_of_sized r_1 c_1 r_2 c_2 _ hdim hA32 hB32 hR32 hR
  refine ⟨_, (basic_multiplication_run r_1 c_1 r_2 c_2 m hdim).1 hok, ?_⟩
  intro row hrow col hcol
  exact basic_result_get _ _ _ r_1 c_1 r_2 c_2 hdim hA32 hB32 hR32 hR row col hrow hcol

/-- Witness of C1: a 2x3 matrix times a 3x2 matrix over the integers. -/
theorem basic_multiplication_dot_product_witness :
    ∃ m', basic_multiplication 2 3 3 2
        (Mem.init [1, 2, 3, 4, 5, 6] [1, 0, 0, 1, 1, 1] [9, 9, 9, 9] (fun _ => (0 : ℤ))) =
          .ok m' ∧
      ∀ row, row < 2 → ∀ col, col < 2 →
        m'.result[col + row * 2]? =
          some (∑ k ∈ Finset.range 3,
            ([1, 2, 3, 4, 5, 6] : List ℤ).getD (k + row * 3) 0 *
              ([1, 0, 0, 1, 1, 1] : List ℤ).getD (col + k * 2) 0) :=
  basic_multiplication_dot_product 2 3 3 2
    (Mem.init [1, 2, 3, 4, 5, 6] [1, 0, 0, 1, 1, 1] [9, 9, 9, 9] (fun _ => (0 : ℤ)))
    rfl rfl rfl (by decide) (by decide) (by decide) (by decide)

/-- C2 (failing input): with `A = [1,1,1]` (1x3) and `B = [1,2,3,4,5,6]` (3x2) over the
integers, `optimiced_multiplication` returns `[9, 11]` where `basic_multiplication` returns
`[9, 12]`: the scratch buffer is written with row stride `r_2` and read with stride
`c_2`. -/
theorem optimiced_multiplication_differs_on_3x2 :
    outcome (optimiced_multiplication 1 3 3 2
        (Mem.init [1, 1, 1] [1, 2, 3, 4, 5, 6] [0, 0] (fun _ => (0 : ℤ)))) = .ok [9, 11] ∧
      outcome (basic_multiplication 1 3 3 2
        (Mem.init [1, 1, 1] [1, 2, 3, 4, 5, 6] [0, 0] (fun _ => (0 : ℤ)))) = .ok [9, 12] :=
  ⟨rfl, rfl⟩

/-- C3: on every state, `optimiced_parallel_multiplication` (one thread) has the same
outcome as `optimiced_multiplication` in exact arithmetic: the same result buffer when
they succeed, and the same failure otherwise.  The pairs `k`, `k-1` from index 1, plus the
tail term `r_2-1` for odd `r_2`, contribute every `k < r_2` exactly once. -/
theorem optimiced_parallel_eq_optimiced [Semiring α] (r_1 c_1 r_2 c_2 : Nat) (m : Mem α) :
    outcome (optimiced_parallel_multiplication r_1 c_1 r_2 c_2 m) =
      outcome (optimiced_multiplication r_1 c_1 r_2 c_2 m) := by
  by_cases h : c_1 = r_2
  · by_cases hp : copy_ok m.matrix_2.length (u32 (r_2 * c_2)) r_2 c_2 ∧
        optimiced_ok m.matrix_1.length (u32 (r_2 * c_2)) m.result.length r_1 c_1 r_2 c_2
    · rw [(optimiced_parallel_multiplication_run r_1 c_1 r_2 c_2 m h).1 hp,
        (optimiced_multiplication_run r_1 c_1 r_2 c_2 m h).1 hp]
      rfl
    · obtain ⟨ms1, e1⟩ := (optimiced_parallel_multiplication_run r_1 c_1 r_2 c_2 m h).2 hp
      obtain ⟨ms2, e2⟩ := (optimiced_multiplication_run r_1 c_1 r_2 c_2 m h).2 hp
      rw [e1, e2]
      rfl
  · simp [optimiced_parallel_multiplication, optimiced_parallel_checked,
      optimiced_multiplication, optimiced_checked, h, outcome]

/-- C4: on every state and for all dimensions (on either side of the `r_1*c_1 == 100`
threshold), `parallel_multiplication` run by one thread returns exactly what
`basic_multiplication` returns: the same error when `c_1 != r_2`, and the same final state
(result buffer, accumulation order and access log included) when `c_1 == r_2`. -/
theorem parallel_eq_basic [Zero α] [Add α] [Mul α] (r_1 c_1 r_2 c_2 : Nat) (m : Mem α) :
    parallel_multiplication r_1 c_1 r_2 c_2 m = basic_multiplication r_1 c_1 r_2 c_2 m := by
  by_cases h : c_1 = r_2
  · rw [parallel_multiplication, basic_multiplication, if_pos h, if_pos h]
    have hrow : ∀ r, parallel_row (α := α) c_1 r_2 c_2 r =
        forLoop 0 c_2 1 fun c => basic_cell c_1 r_2 c_2 r c := by
      intro r
      rw [parallel_row]
      have hcell : ∀ c, parallel_cell (α := α) c_1 r_2 c_2 r c = basic_cell c_1 r_2 c_2 r c := by
        intro c
        rw [parallel_cell, basic_cell]
      simp only [hcell]
    simp only [hrow]
  · rw [parallel_mismatch r_1 c_1 r_2 c_2 m h, basic_mismatch r_1 c_1 r_2 c_2 m h]

/-- C5: each of the four multipliers stops with `DimensionMismatch` if and only if
`c_1 != r_2`; the state in which it then stops has the access log, the result buffer and
the operands of the initial state: no element was read or written. -/
theorem dimension_mismatch_iff [Semiring α] (r_1 c_1 r_2 c_2 : Nat) (m : Mem α) :
    (((∃ ms, basic_multiplication r_1 c_1 r_2 c_2 m = .error (.DimensionMismatch, ms)) ↔
          c_1 ≠ r_2) ∧
        ((∃ ms, optimiced_multiplication r_1 c_1 r_2 c_2 m =
          .error (.DimensionMismatch, ms)) ↔ c_1 ≠ r_2) ∧
        ((∃ ms, parallel_multiplication r_1 c_1 r_2 c_2 m =
          .error (.DimensionMismatch, ms)) ↔ c_1 ≠ r_2) ∧
        ((∃ ms, optimiced_parallel_multiplication r_1 c_1 r_2 c_2 m =
          .error (.DimensionMismatch, ms)) ↔ c_1 ≠ r_2)) ∧
      ∀ ms,
        (basic_multiplication r_1 c_1 r_2 c_2 m = .error (.DimensionMismatch, ms) ∨
          optimiced_multiplication r_1 c_1 r_2 c_2 m = .error (.DimensionMismatch, ms) ∨
          parallel_multiplication r_1 c_1 r_2 c_2 m = .error (.DimensionMismatch, ms) ∨
          optimiced_parallel_multiplication r_1 c_1 r_2 c_2 m =
            .error (.DimensionMismatch, ms)) →
        ms.log = m.log ∧ ms.result = m.result ∧ ms.matrix_1 = m.matrix_1 ∧
          ms.matrix_2 = m.matrix_2 := by
  have h1 : (∃ ms, basic_multiplication r_1 c_1 r_2 c_2 m =
      .error (.DimensionMismatch, ms)) ↔ c_1 ≠ r_2 := by
    constructor
    · intro he h
      exact no_mismatch (basic_multiplication_run r_1 c_1 r_2 c_2 m h) he
    · intro h
      exact ⟨_, basic_mismatch r_1 c_1 r_2 c_2 m h⟩
  have h2 : (∃ ms, optimiced_multiplication r_1 c_1 r_2 c_2 m =
      .error (.DimensionMismatch, ms)) ↔ c_1 ≠ r_2 := by
    constructor
    · intro he h
      exact no_mismatch (optimiced_multiplication_run r_1 c_1 r_2 c_2 m h) he
    · intro h
      exact ⟨_, optimiced_mismatch r_1 c_1 r_2 c_2 m h⟩
  have h3 : (∃ ms, parallel_multiplication r_1 c_1 r_2 c_2 m =
      .error (.DimensionMismatch, ms)) ↔ c_1 ≠ r_2 := by
    constructor
    · intro he h
      exact no_mismatch (parallel_multiplication_run r_1 c_1 r_2 c_2 m h) he
    · intro h
      exact ⟨_, parallel_mismatch r_1 c_1 r_2 c_2 m h⟩
  have h4 : (∃ ms, optimiced_parallel_multiplication r_1 c_1 r_2 c_2 m =
      .error (.DimensionMismatch, ms)) ↔ c_1 ≠ r_2 := by
    constructor
    · intro he h
      exact no_mismatch (optimiced_parallel_multiplication_run r_1 c_1 r_2 c_2 m h) he
    · intro h
      exact ⟨_, optimiced_parallel_mismatch r_1 c_1 r_2 c_2 m h⟩
  refine ⟨⟨h1, h2, h3, h4⟩, ?_⟩
  rintro ms (e | e | e | e)
  · have h := h1.1 ⟨ms, e⟩
    rw [basic_mismatch r_1 c_1 r_2 c_2 m h] at e
    cases e
    exact ⟨rfl, rfl, rfl, rfl⟩
  · have h := h2.1 ⟨ms, e⟩
    rw [optimiced_mismatch r_1 c_1 r_2 c_2 m h] at e
    cases e
    exact ⟨rfl, rfl, rfl, rfl⟩
  · have h := h3.1 ⟨ms, e⟩
    rw [parallel_mismatch r_1 c_1 r_2 c_2 m h] at e
    cases e
    exact ⟨rfl, rfl, rfl, rfl⟩
  · have h := h4.1 ⟨ms, e⟩
    rw [optimiced_parallel_mismatch r_1 c_1 r_2 c_2 m h] at e
    cases e
    exact ⟨rfl, rfl, rfl, rfl⟩

/-- Witness of C5: `A` 2x3 with `B` 2x2 over the integers; every multiplier stops with
`DimensionMismatch`. -/
theorem dimension_mismatch_iff_witness :
    (∃ ms, basic_multiplication 2 3 2 2
        (Mem.init [1, 2, 3, 4, 5, 6] [1, 2, 3, 4] [0, 0, 0, 0] (fun _ => (0 : ℤ))) =
          .error (.DimensionMismatch, ms)) ∧
      (∃ ms, optimiced_multiplication 2 3 2 2
        (Mem.init [1, 2, 3, 4, 5, 6] [1, 2, 3, 4] [0, 0, 0, 0] (fun _ => (0 : ℤ))) =
          .error (.DimensionMismatch, ms)) ∧
      (∃ ms, parallel_multiplication 2 3 2 2
        (Mem.init [1, 2, 3, 4, 5, 6] [1, 2, 3, 4] [0, 0, 0, 0] (fun _ => (0 : ℤ))) =
          .error (.DimensionMismatch, ms)) ∧
      (∃ ms, optimiced_parallel_multiplication 2 3 2 2
        (Mem.init [1, 2, 3, 4, 5, 6] [1, 2, 3, 4] [0, 0, 0, 0] (fun _ => (0 : ℤ))) =
          .error (.DimensionMismatch, ms)) :=
  have h := (dimension_mismatch_iff 2 3 2 2
    (Mem.init [1, 2, 3, 4, 5, 6] [1, 2, 3, 4] [0, 0, 0, 0] (fun _ => (0 : ℤ)))).1
  ⟨h.1.2 (by decide), h.2.1.2 (by decide), h.2.2.1.2 (by decide), h.2.2.2.2 (by decide)⟩

/-- C7 (counterexample): for `R = 1`, `C = 65536` the identity matrix has `2^32` entries and
the scratch buffer of both optimiced multipliers is allocated with
`65536*65536 mod 2^32 = 0` elements.  Their first copy `aux[0] = matrix_2[0]` is outside
it, so neither returns a result buffer equal to `A`. -/
theorem identity_multiplication_wraps :
    (List.replicate 65536 (1 : ℤ)).length = 1 * 65536 ∧
      u32 (65536 * 65536) = 0 ∧
      outcome (optimiced_multiplication 1 65536 65536 65536
        (Mem.init (List.replicate 65536 1) (identity 65536) (List.replicate 65536 0)
          (fun _ => (0 : ℤ)))) = .error .OutOfBounds ∧
      outcome (optimiced_parallel_multiplication 1 65536 65536 65536
        (Mem.init (List.replicate 65536 1) (identity 65536) (List.replicate 65536 0)
          (fun _ => (0 : ℤ)))) = .error .OutOfBounds :=
  ⟨by rw [List.length_replicate], by decide,
    optimiced_alloc_wraps 1 65536 65536 65536
      (Mem.init (List.replicate 65536 1) (identity 65536) (List.replicate 65536 0)
        (fun _ => (0 : ℤ)))
      (Eq.refl 65536) (by decide) (by decide) (by decide)⟩

/-- C7 (amended): for every `R`, `C` with `R*C` at most `2^32` and `C*C` below `2^32`, and
every `R x C` matrix `A`, each of the four multipliers applied to `A` and the `C x C`
identity matrix succeeds with a result buffer equal to `A`, in exact arithmetic. -/
theorem identity_multiplication [Semiring α] (R C : Nat) (m : Mem α)
    (hA : m.matrix_1.length = R * C) (hB : m.matrix_2 = identity C)
    (hR : m.result.length = R * C) (hA32 : R * C ≤ 4294967296)
    (hB32 : C * C < 4294967296) :
    outcome (basic_multiplication R C C C m) = .ok m.matrix_1 ∧
      outcome (optimiced_multiplication R C C C m) = .ok m.matrix_1 ∧
      outcome (parallel_multiplication R C C C m) = .ok m.matrix_1 ∧
      outcome (optimiced_parallel_multiplication R C C C m) = .ok m.matrix_1 := by
  have hlenB : m.matrix_2.length = C * C := by rw [hB]; simp [identity]
  have hb := basic_identity R C m hA hB hR hA32 hB32
  have hok := optimiced_square_ok R C m hA hlenB (Nat.le_of_eq hR.symm) hA32 hB32
  refine ⟨?_, ?_, ?_, ?_⟩
  · rw [hb.1, outcome, hb.2]
  · rw [(optimiced_multiplication_run R C C C m rfl).1 hok, outcome,
      optimiced_final_identity _ R C m hA hB hR hA32 hB32]
  · rw [show parallel_multiplication R C C C m = basic_multiplication R C C C m from rfl,
      hb.1, outcome, hb.2]
  · rw [(optimiced_parallel_multiplication_run R C C C m rfl).1 hok, outcome,
      optimiced_final_identity _ R C m hA hB hR hA32 hB32]

/-- Witness of C7: the 2x2 matrix `[1,2,3,4]` over the integers times the 2x2 identity. -/
theorem identity_multiplication_witness :
    outcome (basic_multiplication 2 2 2 2
        (Mem.init [1, 2, 3, 4] (identity 2) [0, 0, 0, 0] (fun _ => (0 : ℤ)))) =
          .ok [1, 2, 3, 4] ∧
      outcome (optimiced_multiplication 2 2 2 2
        (Mem.init [1, 2, 3, 4] (identity 2) [0, 0, 0, 0] (fun _ => (0 : ℤ)))) =
          .ok [1, 2, 3, 4] ∧
      outcome (parallel_multiplication 2 2 2 2
        (Mem.init [1, 2, 3, 4] (identity 2) [0, 0, 0, 0] (fun _ => (0 : ℤ)))) =
          .ok [1, 2, 3, 4] ∧
      outcome (optimiced_parallel_multiplication 2 2 2 2
        (Mem.init [1, 2, 3, 4] (identity 2) [0, 0, 0, 0] (fun _ => (0 : ℤ)))) =
          .ok [1, 2, 3, 4] :=
  identity_multiplication 2 2 (Mem.init [1, 2, 3, 4] (identity 2) [0, 0, 0, 0] (fun _ => (0 : ℤ)))
    rfl rfl rfl (by decide) (by decide)

/-- C8: for `r_1 = c_1 = r_2 = c_2 = 0` and empty operand and result buffers, each of the
four multipliers returns normally in the state in which it was called: the result buffer
is still empty and no access was added to the log. -/
theorem zero_size_multiplication [Zero α] [Add α] [Mul α] (heap : Nat → α)
    (log : List Access) :
    basic_multiplication 0 0 0 0
        { matrix_1 := [], matrix_2 := [], result := [], aux := [], heap := heap, log := log } =
      .ok { matrix_1 := [], matrix_2 := [], result := [], aux := [], heap := heap,
            log := log } ∧
    optimiced_multiplication 0 0 0 0
        { matrix_1 := [], matrix_2 := [], result := [], aux := [], heap := heap, log := log } =
      .ok { matrix_1 := [], matrix_2 := [], result := [], aux := [], heap := heap,
            log := log } ∧
    parallel_multiplication 0 0 0 0
        { matrix_1 := [], matrix_2 := [], result := [], aux := [], heap := heap, log := log } =
      .ok { matrix_1 := [], matrix_2 := [], result := [], aux := [], heap := heap,
            log := log } ∧
    optimiced_parallel_multiplication 0 0 0 0
        { matrix_1 := [], matrix_2 := [], result := [], aux := [], heap := heap, log := log } =
      .ok { matrix_1 := [], matrix_2 := [], result := [], aux := [], heap := heap,
            log := log } :=
  ⟨rfl, rfl, rfl, rfl⟩

/-- C9: with `A = [1,2,3,4]` (2x2) and `B = [5,6,7,8]` (2x2), in every semiring and
whatever the prior content of the result buffer, each of the four multipliers returns the
result buffer `[19,22,43,50]`. -/
theorem two_by_two_scenario [Semiring α] (x0 x1 x2 x3 : α) (heap : Nat → α) :
    outcome (basic_multiplication 2 2 2 2
        (Mem.init [1, 2, 3, 4] [5, 6, 7, 8] [x0, x1, x2, x3] heap)) = .ok [19, 22, 43, 50] ∧
      outcome (optimiced_multiplication 2 2 2 2
        (Mem.init [1, 2, 3, 4] [5, 6, 7, 8] [x0, x1, x2, x3] heap)) = .ok [19, 22, 43, 50] ∧
      outcome (parallel_multiplication 2 2 2 2
        (Mem.init [1, 2, 3, 4] [5, 6, 7, 8] [x0, x1, x2, x3] heap)) = .ok [19, 22, 43, 50] ∧
      outcome (optimiced_parallel_multiplication 2 2 2 2
        (Mem.init [1, 2, 3, 4] [5, 6, 7, 8] [x0, x1, x2, x3] heap)) =
          .ok [19, 22, 43, 50] := by
  have hb : basic_ok 4 4 4 2 2 2 2 := by unfold basic_ok cellOk; decide
  have ho : copy_ok 4 (u32 (2 * 2)) 2 2 ∧ optimiced_ok 4 (u32 (2 * 2)) 4 2 2 2 2 := by
    unfold copy_ok optimiced_ok cellOk; decide
  refine ⟨?_, ?_, ?_, ?_⟩
  · rw [(basic_multiplication_run 2 2 2 2
      (Mem.init [1, 2, 3, 4] [5, 6, 7, 8] [x0, x1, x2, x3] heap) rfl).1 hb]
    simp [outcome, basic_final, basic_result, fill, pairs, dot, Finset.sum_range_succ, u32,
      Mem.init, List.range_succ]
    norm_num
  · rw [(optimiced_multiplication_run 2 2 2 2
      (Mem.init [1, 2, 3, 4] [5, 6, 7, 8] [x0, x1, x2, x3] heap) rfl).1 ho]
    simp [outcome, optimiced_final, optimiced_result, transposed, fill, pairs, dot,
      Finset.sum_range_succ, u32, Mem.init, List.range_succ]
    norm_num
  · rw [(parallel_multiplication_run 2 2 2 2
      (Mem.init [1, 2, 3, 4] [5, 6, 7, 8] [x0, x1, x2, x3] heap) rfl).1 hb]
    simp [outcome, basic_final, basic_result, fill, pairs, dot, Finset.sum_range_succ, u32,
      Mem.init, List.range_succ]
    norm_num
  · rw [(optimiced_parallel_multiplication_run 2 2 2 2
      (Mem.init [1, 2, 3, 4] [5, 6, 7, 8] [x0, x1, x2, x3] heap) rfl).1 ho]
    simp [outcome, optimiced_final, optimiced_result, transposed, fill, pairs, dot,
      Finset.sum_range_succ, u32, Mem.init, List.range_succ]
    norm_num

/-- C10: with `A = [1,2,3]` (1x3) and `B = [4,5,6]` (3x1), in every semiring and whatever
the prior content of the result buffer, each of the four multipliers returns the
one-element result buffer `[32]`. -/
theorem row_times_column_scenario [Semiring α] (x0 : α) (heap : Nat → α) :
    outcome (basic_multiplication 1 3 3 1
        (Mem.init [1, 2, 3] [4, 5, 6] [x0] heap)) = .ok [32] ∧
      outcome (optimiced_multiplication 1 3 3 1
        (Mem.init [1, 2, 3] [4, 5, 6] [x0] heap)) = .ok [32] ∧
      outcome (parallel_multiplication 1 3 3 1
        (Mem.init [1, 2, 3] [4, 5, 6] [x0] heap)) = .ok [32] ∧
      outcome (optimiced_parallel_multiplication 1 3 3 1
        (Mem.init [1, 2, 3] [4, 5, 6] [x0] heap)) = .ok [32] := by
  have hb : basic_ok 3 3 1 1 3 3 1 := by unfold basic_ok cellOk; decide
  have ho : copy_ok 3 (u32 (3 * 1)) 3 1 ∧ optimiced_ok 3 (u32 (3 * 1)) 1 1 3 3 1 := by
    unfold copy_ok optimiced_ok cellOk; decide
  refine ⟨?_, ?_, ?_, ?_⟩
  · rw [(basic_multiplication_run 1 3 3 1 (Mem.init [1, 2, 3] [4, 5, 6] [x0] heap) rfl).1 hb]
    simp [outcome, basic_final, basic_result, fill, pairs, dot, Finset.sum_range_succ, u32,
      Mem.init, List.range_succ]
    norm_num
  · rw [(optimiced_multiplication_run 1 3 3 1
      (Mem.init [1, 2, 3] [4, 5, 6] [x0] heap) rfl).1 ho]
    simp [outcome, optimiced_final, optimiced_result, transposed, fill, pairs, dot,
      Finset.sum_range_succ, u32, Mem.init, List.range_succ]
    norm_num
  · rw [(parallel_multiplication_run 1 3 3 1
      (Mem.init [1, 2, 3] [4, 5, 6] [x0] heap) rfl).1 hb]
    simp [outcome, basic_final, basic_result, fill, pairs, dot, Finset.sum_range_succ, u32,
      Mem.init, List.range_succ]
    norm_num
  · rw [(optimiced_parallel_multiplication_run 1 3 3 1
      (Mem.init [1, 2, 3] [4, 5, 6] [x0] heap) rfl).1 ho]
    simp [outcome, optimiced_final, optimiced_result, transposed, fill, pairs, dot,
      Finset.sum_range_succ, u32, Mem.init, List.range_succ]
    norm_num

/-- C11 (counterexample): for `r_2 = c_2 = 65536` the right operand has `2^32` entries and
the scratch buffer is allocated with `65536*65536 mod 2^32 = 0` elements.  The copy loops
of both optimiced multipliers stop at a write outside it, so no index of `aux` is
written. -/
theorem copy_phase_wraps :
    (List.replicate (65536 * 65536) (1 : ℤ)).length = 65536 * 65536 ∧
      (malloc_aux (u32 (65536 * 65536))
        (Mem.init [] (List.replicate (65536 * 65536) 1) [] (fun _ => (0 : ℤ)))).aux.length =
          0 ∧
      outcome (optimiced_copy 65536 65536 (malloc_aux (u32 (65536 * 65536))
        (Mem.init [] (List.replicate (65536 * 65536) 1) [] (fun _ => (0 : ℤ))))) =
          .error .OutOfBounds ∧
      outcome (optimiced_parallel_copy 65536 65536 (malloc_aux (u32 (65536 * 65536))
        (Mem.init [] (List.replicate (65536 * 65536) 1) [] (fun _ => (0 : ℤ))))) =
          .error .OutOfBounds :=
  ⟨by rw [List.length_replicate],
    by rw [malloc_aux_length]; decide,
    copy_outcome_wraps 65536 65536
      (Mem.init [] (List.replicate (65536 * 65536) 1) [] (fun _ => (0 : ℤ)))
      (by decide) (by decide) (by decide)⟩

/-- C11 (amended): for `matrix_2` of `r_2*c_2` entries with `r_2*c_2` below `2^32`, the copy loops of
`optimiced_multiplication` and of `optimiced_parallel_multiplication`, run on the freshly
allocated scratch buffer, succeed and leave the transpose of `B` in it:
`aux[k + col*r_2] = B[col + k*c_2]` for every `k < r_2` and `col < c_2`; the accesses they
perform write every index below `r_2*c_2` of `aux` exactly once. -/
theorem copy_phase_transposes [Zero α] (r_2 c_2 : Nat) (m : Mem α)
    (hB : m.matrix_2.length = r_2 * c_2) (h32 : r_2 * c_2 < 4294967296) :
    ∃ m' L, optimiced_copy r_2 c_2 (malloc_aux (u32 (r_2 * c_2)) m) = .ok m' ∧
      optimiced_parallel_copy r_2 c_2 (malloc_aux (u32 (r_2 * c_2)) m) = .ok m' ∧
      m'.aux.length = r_2 * c_2 ∧
      (∀ k, k < r_2 → ∀ col, col < c_2 →
        m'.aux[k + col * r_2]? = m.matrix_2[col + k * c_2]? ∧
          m.matrix_2[col + k * c_2]? ≠ none) ∧
      m'.log = m.log ++ L ∧ ∀ j, j < r_2 * c_2 → L.count (.write .aux j) = 1 := by
  have h32' : r_2 * c_2 ≤ 4294967296 := Nat.le_of_lt h32
  have hlen : ((List.range (u32 (r_2 * c_2))).map m.heap).length = r_2 * c_2 := by
    rw [List.length_map, List.length_range, u32_of_lt h32]
  have hs := copy_nest_spec (α := α) m.matrix_1.length m.matrix_2.length (u32 (r_2 * c_2))
    m.result.length r_2 c_2 (malloc_aux (u32 (r_2 * c_2)) m)
    ⟨rfl, rfl, by simp [malloc_aux], rfl⟩
  have hok : ∀ r, r < r_2 → ∀ c, c < c_2 →
      u32 (c + r * c_2) < m.matrix_2.length ∧ u32 (r + c * r_2) < u32 (r_2 * c_2) := by
    rw [hB]
    exact copy_ok_of_sized r_2 c_2 h32
  refine ⟨_, nestLog (copyLog r_2 c_2) r_2 c_2, (hs.1 hok).1, (hs.1 hok).1, ?_, ?_, rfl, ?_⟩
  · show (fill (fun r c => u32 (r + c * r_2))
      (fun r c => m.matrix_2.getD (u32 (c + r * c_2)) 0) r_2 c_2
      ((List.range (u32 (r_2 * c_2))).map m.heap)).length = r_2 * c_2
    rw [fill_length, hlen]
  · intro k hk col hcol
    have hlt : col + k * c_2 < m.matrix_2.length := by rw [hB]; exact index_lt hk hcol
    refine ⟨?_, ?_⟩
    · show (transposed m.matrix_2 r_2 c_2
        ((List.range (u32 (r_2 * c_2))).map m.heap))[k + col * r_2]? =
          m.matrix_2[col + k * c_2]?
      rw [transposed_get _ _ r_2 c_2 h32' hlen k col hk hcol, List.getD_eq_getElem _ _ hlt,
        List.getElem?_eq_getElem hlt]
    · rw [List.getElem?_eq_getElem hlt]
      exact Option.some_ne_none _
  · intro j hj
    exact copy_writes_once r_2 c_2 j h32' hj

/-- Witness of C11: a 2x3 right operand over the integers. -/
theorem copy_phase_transposes_witness :
    ∃ m' L, optimiced_copy 2 3 (malloc_aux (u32 (2 * 3))
        (Mem.init [1, 1] [1, 2, 3, 4, 5, 6] [0, 0, 0] (fun _ => (0 : ℤ)))) = .ok m' ∧
      optimiced_parallel_copy 2 3 (malloc_aux (u32 (2 * 3))
        (Mem.init [1, 1] [1, 2, 3, 4, 5, 6] [0, 0, 0] (fun _ => (0 : ℤ)))) = .ok m' ∧
      m'.aux.length = 2 * 3 ∧
      (∀ k, k < 2 → ∀ col, col < 3 →
        m'.aux[k + col * 2]? = ([1, 2, 3, 4, 5, 6] : List ℤ)[col + k * 3]? ∧
          ([1, 2, 3, 4, 5, 6] : List ℤ)[col + k * 3]? ≠ none) ∧
      m'.log = [] ++ L ∧ ∀ j, j < 2 * 3 → L.count (.write .aux j) = 1 :=
  copy_phase_transposes 2 3 (Mem.init [1, 1] [1, 2, 3, 4, 5, 6] [0, 0, 0] (fun _ => (0 : ℤ)))
    rfl (by decide)

/-- C12: in any value type where `0 + x = x` (no associativity or commutativity of
addition is assumed), the reduction of one output cell of `optimiced_multiplication` is
the ascending reduction `ascending_cell` that `basic_multiplication` performs, over the
terms `matrix_1[k + r*c_1] * aux[k + c*c_2]`: for even `r_2` the two are the same run, for
odd `r_2` (term 0 peeled) they have the same outcome; and the ascending reduction leaves
in the cell the left-to-right fold from zero of the terms `k = 0, ..., r_2-1`. -/
theorem optimiced_reduction_ascending [Zero α] [Add α] [Mul α] (h0 : ∀ x : α, 0 + x = x)
    (c_1 r_2 c_2 r c : Nat) (m : Mem α) :
    basic_cell c_1 r_2 c_2 r c m =
        ascending_cell (u32 (c + r * c_2)) (fun k => u32 (k + r * c_1)) .matrix_2
          (fun k => u32 (c + k * c_2)) r_2 m ∧
      (r_2 % 2 = 0 →
        optimiced_even_cell c_1 r_2 c_2 r c m =
          ascending_cell (u32 (c + r * c_2)) (fun k => u32 (k + r * c_1)) .aux
            (fun k => u32 (k + c * c_2)) r_2 m) ∧
      (r_2 % 2 = 1 →
        outcome (optimiced_odd_cell c_1 r_2 c_2 r c m) =
          outcome (ascending_cell (u32 (c + r * c_2)) (fun k => u32 (k + r * c_1)) .aux
            (fun k => u32 (k + c * c_2)) r_2 m)) ∧
      ∀ (i : Nat) (ia : Nat → Nat) (b : Buf) (ib : Nat → Nat), b ≠ .result →
        cellOk m.matrix_1.length (m.buf b).length m.result.length i ia ib r_2 →
        outcome (ascending_cell i ia b ib r_2 m) =
          .ok (m.result.set i
            (accumulate m.matrix_1 (m.buf b) ia ib (List.range r_2) 0)) := by
  have hm : Sized m.matrix_1.length m.matrix_2.length m.aux.length m.result.length m :=
    ⟨rfl, rfl, rfl, rfl⟩
  refine ⟨rfl, ?_, ?_, ?_⟩
  · intro h
    have h2 : 2 * (r_2 / 2) = r_2 := by omega
    rw [optimiced_even_cell_eq c_1 r_2 c_2 r c h, ascending_cell_eq, upPairs_zero, h2]
  · intro h
    exact outcome_eq_of_spec
      (optimiced_odd_cell_fold_spec h0 _ _ _ _ c_1 r_2 c_2 r c h)
      (ascending_cell_spec _ _ _ _ _ _ .aux (by decide) _ r_2) m hm (fun _ => rfl)
  · intro i ia b ib hb hok
    have hs := ascending_cell_spec (α := α) m.matrix_1.length m.matrix_2.length m.aux.length
      m.result.length i ia b hb ib r_2 m hm
    have hlen : bufLen m.matrix_1.length m.matrix_2.length m.aux.length m.result.length b =
        (m.buf b).length := (buf_length hm b).symm
    rw [hlen] at hs
    rw [(hs.1 hok).1]
    rfl

/-- Witness of C12: the odd reduction of length 3 for the row `[1,2,3]` and the scratch
buffer `[4,5,6]` over the integers has the outcome of the ascending reduction. -/
theorem optimiced_reduction_ascending_witness :
    outcome (optimiced_odd_cell 3 3 1 0 0
        ({ matrix_1 := [1, 2, 3], matrix_2 := [4, 5, 6], result := [9], aux := [4, 5, 6],
           heap := fun _ => 0, log := [] } : Mem ℤ)) =
      outcome (ascending_cell (u32 (0 + 0 * 1)) (fun k => u32 (k + 0 * 3)) .aux
        (fun k => u32 (k + 0 * 1)) 3
        ({ matrix_1 := [1, 2, 3], matrix_2 := [4, 5, 6], result := [9], aux := [4, 5, 6],
           heap := fun _ => 0, log := [] } : Mem ℤ)) :=
  (optimiced_reduction_ascending (fun x : ℤ => zero_add x) 3 3 1 0 0
    { matrix_1 := [1, 2, 3], matrix_2 := [4, 5, 6], result := [9], aux := [4, 5, 6],
      heap := fun _ => 0, log := [] }).2.2.1 (by decide)

/-- C13 (counterexample): for `r_1 = 65537`, `c_1 = r_2 = 1`, `c_2 = 65536` the body of
row 65536 of `parallel_multiplication` starts by writing
`result[(0 + 65536*65536) mod 2^32] = result[0]`, which is outside its slice
`[65536*65536, 65537*65536)` and is the index the body of row 0 writes first: the two
rows do not write disjoint index sets. -/
theorem parallel_rows_alias :
    65536 < 65537 ∧
      Access.write .result 0 ∈
        performed (Mem.init (List.replicate 65537 1) (List.replicate 65536 1)
            (List.replicate (65537 * 65536) 0) (fun _ => (0 : ℤ)))
          (parallel_row 1 1 65536 65536
            (Mem.init (List.replicate 65537 1) (List.replicate 65536 1)
              (List.replicate (65537 * 65536) 0) (fun _ => (0 : ℤ)))) ∧
      Access.write .result 0 ∈
        performed (Mem.init (List.replicate 65537 1) (List.replicate 65536 1)
            (List.replicate (65537 * 65536) 0) (fun _ => (0 : ℤ)))
          (parallel_row 1 1 65536 0
            (Mem.init (List.replicate 65537 1) (List.replicate 65536 1)
              (List.replicate (65537 * 65536) 0) (fun _ => (0 : ℤ)))) ∧
      ¬ (Access.write .result 0).inRow 65536 65536 := by
  have e1 : u32 (0 + 65536 * 65536) = 0 := by decide
  have e2 : u32 (0 + 0 * 65536) = 0 := by decide
  have h1 := parallel_row_first_write 1 1 65536 65536 (by decide)
    (Mem.init (List.replicate 65537 1) (List.replicate 65536 1)
      (List.replicate (65537 * 65536) 0) (fun _ => (0 : ℤ)))
  have h2 := parallel_row_first_write 1 1 65536 0 (by decide)
    (Mem.init (List.replicate 65537 1) (List.replicate 65536 1)
      (List.replicate (65537 * 65536) 0) (fun _ => (0 : ℤ)))
  rw [e1] at h1
  rw [e2] at h2
  exact ⟨by decide, h1, h2, fun h => absurd (h rfl).1 (by decide)⟩

/-- C13 (amended): with `r_1*c_2` within the `unsigned int` range, the body of row `r < r_1` of
`parallel_multiplication`, and of the multiply phase of
`optimiced_parallel_multiplication`, accesses `result` (reads and writes, also in a run
that stops on an error) only at indices in `[r*c_2, (r+1)*c_2)`; the `result` accesses of
two distinct rows are at different indices; and running the row bodies in any order that
is a permutation of `0, ..., r_1-1` has the same outcome, result buffer included, as the
ascending loop. -/
theorem row_bodies_independent [Semiring α] (r_1 c_1 r_2 c_2 : Nat)
    (h32 : r_1 * c_2 ≤ 4294967296) (m : Mem α) :
    (∀ r, r < r_1 →
        (∀ a ∈ performed m (parallel_row c_1 r_2 c_2 r m), a.inRow c_2 r) ∧
          ∀ a ∈ performed m (optimiced_parallel_row c_1 r_2 c_2 r m), a.inRow c_2 r) ∧
      (∀ r, r < r_1 → ∀ r', r' < r_1 → r ≠ r' → ∀ n : Mem α,
        (∀ a ∈ performed m (parallel_row c_1 r_2 c_2 r m),
          ∀ a' ∈ performed n (parallel_row c_1 r_2 c_2 r' n),
            a.buf = .result → a'.buf = .result → a.index ≠ a'.index) ∧
          ∀ a ∈ performed m (optimiced_parallel_row c_1 r_2 c_2 r m),
            ∀ a' ∈ performed n (optimiced_parallel_row c_1 r_2 c_2 r' n),
              a.buf = .result → a'.buf = .result → a.index ≠ a'.index) ∧
      ∀ order : List Nat, order.Perm (List.range r_1) →
        outcome (runList (parallel_row c_1 r_2 c_2) order m) =
            outcome (forLoop 0 r_1 1 (fun r => parallel_row c_1 r_2 c_2 r) m) ∧
          outcome (runList (optimiced_parallel_row c_1 r_2 c_2) order m) =
            outcome (optimiced_parallel_multiply r_1 c_1 r_2 c_2 m) := by
  refine ⟨fun r hr => ⟨?_, ?_⟩, fun r hr r' hr' hne n => ⟨?_, ?_⟩, fun order hperm => ⟨?_, ?_⟩⟩
  · exact performed_of_logs (parallel_row_logs r_1 c_1 r_2 c_2 r hr h32) m
  · exact performed_of_logs (optimiced_parallel_row_logs r_1 c_1 r_2 c_2 r hr h32) m
  · intro a ha a' ha'
    exact inRow_disjoint hne
      (performed_of_logs (parallel_row_logs r_1 c_1 r_2 c_2 r hr h32) m a ha)
      (performed_of_logs (parallel_row_logs r_1 c_1 r_2 c_2 r' hr' h32) n a' ha')
  · intro a ha a' ha'
    exact inRow_disjoint hne
      (performed_of_logs (optimiced_parallel_row_logs r_1 c_1 r_2 c_2 r hr h32) m a ha)
      (performed_of_logs (optimiced_parallel_row_logs r_1 c_1 r_2 c_2 r' hr' h32) n a' ha')
  · exact parallel_rows_perm r_1 c_1 r_2 c_2 h32 order hperm m
  · exact optimiced_parallel_rows_perm r_1 c_1 r_2 c_2 h32 order hperm m

/-- Witness of C13: the two rows of a 2x2 product over the integers, run in the order
1, 0. -/
theorem row_bodies_independent_witness :
    outcome (runList (parallel_row 2 2 2) [1, 0]
        (Mem.init [1, 2, 3, 4] [5, 6, 7, 8] [0, 0, 0, 0] (fun _ => (0 : ℤ)))) =
      outcome (forLoop 0 2 1 (fun r => parallel_row 2 2 2 r)
        (Mem.init [1, 2, 3, 4] [5, 6, 7, 8] [0, 0, 0, 0] (fun _ => (0 : ℤ)))) ∧
      outcome (runList (parallel_row 2 2 2) [1, 0]
        (Mem.init [1, 2, 3, 4] [5, 6, 7, 8] [0, 0, 0, 0] (fun _ => (0 : ℤ)))) =
        .ok [19, 22, 43, 50] :=
  ⟨((row_bodies_independent 2 2 2 2 (by decide)
      (Mem.init [1, 2, 3, 4] [5, 6, 7, 8] [0, 0, 0, 0] (fun _ => (0 : ℤ)))).2.2 [1, 0]
      (List.Perm.swap 0 1 [])).1, rfl⟩

/-- C14 (counterexample): for the unsigned 32-bit dimensions `r_1 = c_1 = 65536` the first
operand has `2^32 > 100` elements, but the product wraps to 0 and the gate selects
sequential execution. -/
theorem parallel_if_wraps :
    65536 < 4294967296 ∧ 100 < 65536 * 65536 ∧ parallel_if 65536 65536 = false ∧
      ¬ (parallel_if 65536 65536 = true ↔ 100 < 65536 * 65536) := by
  decide

/-- C14 (amended): the gate of both `#pragma omp parallel` directives selects parallel
execution if and only if the `unsigned int` product `r_1*c_1`, that is `r_1*c_1` modulo
`2^32`, exceeds 100; when the element count `r_1*c_1` is below `2^32` this is if and only
if the element count exceeds 100. -/
theorem parallel_if_iff (r_1 c_1 : Nat) :
    (parallel_if r_1 c_1 = true ↔ 100 < (r_1 * c_1) % 4294967296) ∧
      (r_1 * c_1 < 4294967296 → (parallel_if r_1 c_1 = true ↔ 100 < r_1 * c_1)) := by
  constructor
  · simp [parallel_if, u32]
  · intro h
    simp [parallel_if, u32, Nat.mod_eq_of_lt h]

/-- Witness of C14: 10x10 (100 elements) runs sequentially, 101x1 runs in parallel. -/
theorem parallel_if_iff_witness :
    (parallel_if 10 10 = true ↔ 100 < 10 * 10) ∧ parallel_if 10 10 = false ∧
      (parallel_if 101 1 = true ↔ 100 < 101 * 1) ∧ parallel_if 101 1 = true :=
  ⟨(parallel_if_iff 10 10).2 (by decide), by decide, (parallel_if_iff 101 1).2 (by decide),
    by decide⟩

/-- C16 (failing input): with `A = [1,1]` (1x2) and `B = [1,2,3,4,5,6]` (2x3) over the
integers the scratch buffer has `r_2*c_2 = 6` elements; computing `result[2]`,
`optimiced_multiplication` reads `aux[0 + 2*3] = aux[6]` and
`optimiced_parallel_multiplication` reads `aux[1 + 2*3] = aux[7]`.  Both runs stop there
with `OutOfBounds`. -/
theorem optimiced_reads_outside_aux :
    outcome (optimiced_multiplication 1 2 2 3
        (Mem.init [1, 1] [1, 2, 3, 4, 5, 6] [0, 0, 0] (fun _ => (0 : ℤ)))) =
          .error .OutOfBounds ∧
      (finalMem (optimiced_multiplication 1 2 2 3
        (Mem.init [1, 1] [1, 2, 3, 4, 5, 6] [0, 0, 0] (fun _ => (0 : ℤ))))).log.getLast? =
          some (.read .aux 6) ∧
      (finalMem (optimiced_multiplication 1 2 2 3
        (Mem.init [1, 1] [1, 2, 3, 4, 5, 6] [0, 0, 0] (fun _ => (0 : ℤ))))).aux.length = 6 ∧
      outcome (optimiced_parallel_multiplication 1 2 2 3
        (Mem.init [1, 1] [1, 2, 3, 4, 5, 6] [0, 0, 0] (fun _ => (0 : ℤ)))) =
          .error .OutOfBounds ∧
      (finalMem (optimiced_parallel_multiplication 1 2 2 3
        (Mem.init [1, 1] [1, 2, 3, 4, 5, 6] [0, 0, 0] (fun _ => (0 : ℤ))))).log.getLast? =
          some (.read .aux 7) :=
  ⟨rfl, rfl, rfl, rfl, rfl⟩

/-- C17: with `c_1 = r_2`, `A` of `r_1*c_1`, `B` of `r_2*c_2` and `result` of `r_1*c_2`
entries, `basic_multiplication` and `parallel_multiplication` run to completion (the
out-of-bounds branch of `load` and `store` is not taken) and every access they perform,
into `matrix_1`, `matrix_2` or `result`, is at an index below the length of its buffer. -/
theorem basic_indices_within [Semiring α] (r_1 c_1 r_2 c_2 : Nat) (m : Mem α)
    (hdim : c_1 = r_2) (hA : m.matrix_1.length = r_1 * c_1)
    (hB : m.matrix_2.length = r_2 * c_2) (hR : m.result.length = r_1 * c_2) :
    ∃ m' L, basic_multiplication r_1 c_1 r_2 c_2 m = .ok m' ∧
      parallel_multiplication r_1 c_1 r_2 c_2 m = .ok m' ∧
      m'.log = m.log ++ L ∧ ∀ a ∈ L, a.within m := by
  have hok : basic_ok m.matrix_1.length m.matrix_2.length m.result.length r_1 c_1 r_2 c_2 := by
    rw [hA, hB]
    exact basic_ok_of_lengths r_1 c_1 r_2 c_2 _ hdim (Nat.le_of_eq hR.symm)
  refine ⟨basic_final r_1 c_1 r_2 c_2 m, nestLog (basic_cell_log c_1 r_2 c_2) r_1 c_2,
    (basic_multiplication_run r_1 c_1 r_2 c_2 m hdim).1 hok,
    (parallel_multiplication_run r_1 c_1 r_2 c_2 m hdim).1 hok, rfl, ?_⟩
  intro a ha
  obtain ⟨r, hr, c, hc, ha⟩ := (mem_nestLog _ _ _ a).1 ha
  obtain ⟨hi, hk⟩ := hok r hr c hc
  rcases (mem_cellLog _ _ _ _ _ a).1 ha with rfl | ⟨k, hkm, ha⟩
  · exact hi
  · obtain ⟨h1, h2⟩ := hk k (List.mem_range.1 hkm)
    rcases (mem_accLog _ _ _ _ a).1 ha with rfl | rfl | rfl | rfl
    · exact h1
    · exact h2
    · exact hi
    · exact hi

/-- Witness of C17: a 2x3 matrix times a 3x2 matrix over the integers. -/
theorem basic_indices_within_witness :
    ∃ m' L, basic_multiplication 2 3 3 2
        (Mem.init [1, 2, 3, 4, 5, 6] [1, 0, 0, 1, 1, 1] [9, 9, 9, 9] (fun _ => (0 : ℤ))) =
          .ok m' ∧
      parallel_multiplication 2 3 3 2
        (Mem.init [1, 2, 3, 4, 5, 6] [1, 0, 0, 1, 1, 1] [9, 9, 9, 9] (fun _ => (0 : ℤ))) =
          .ok m' ∧
      m'.log = (Mem.init [1, 2, 3, 4, 5, 6] [1, 0, 0, 1, 1, 1] [9, 9, 9, 9]
        (fun _ => (0 : ℤ))).log ++ L ∧
      ∀ a ∈ L, a.within
        (Mem.init [1, 2, 3, 4, 5, 6] [1, 0, 0, 1, 1, 1] [9, 9, 9, 9] (fun _ => (0 : ℤ))) :=
  basic_indices_within 2 3 3 2
    (Mem.init [1, 2, 3, 4, 5, 6] [1, 0, 0, 1, 1, 1] [9, 9, 9, 9] (fun _ => (0 : ℤ)))
    rfl rfl rfl rfl

/-- C19 (failing input): for the operands `A` of 0x1 and `B = [1]` of 1x1 over the
integers (`c_1 = r_2 = 1`, buffers of `0`, `1` and `0` entries) `basic_multiplication`
returns the empty result without touching a buffer.  The print loop of
`try_all_functions`, bounded by `c_2` and `5` alone, then has `min 1 5 = 1` iteration: the
only access of the run is the read of `result[0]`, outside the empty result, which the
embedding reports as `OutOfBounds`. -/
theorem try_all_functions_reads_empty_result :
    outcome (basic_multiplication 0 1 1 1 (Mem.init [] [1] [] (fun _ => (0 : ℤ)))) = .ok [] ∧
      min 1 5 = 1 ∧
      (lastMem (try_all_functions 0 1 1 1
        (Mem.init [] [1] [] (fun _ => (0 : ℤ))))).result = [] ∧
      (lastMem (try_all_functions 0 1 1 1
        (Mem.init [] [1] [] (fun _ => (0 : ℤ))))).log = [.read .result 0] ∧
      stopped (try_all_functions 0 1 1 1 (Mem.init [] [1] [] (fun _ => (0 : ℤ)))) =
        some .OutOfBounds :=
  ⟨rfl, rfl, rfl, rfl, rfl⟩

end MatMul
